import Mathlib

/-! # ND100 emulator: image files, device workers, reset paths and snapshots

A shallow embedding of parts of the ND100 emulator (`floppy.c`, `nd100lib.c`, `io.c`,
`cpu_state.c`) together with theorems about them.

Conventions of the embedding.

* `unsigned short` values are natural numbers below `2^16`; every assignment to an
  `unsigned short` object reduces modulo `2^16`.
* `char` is the signed 8-bit type of the usual desktop ABIs; a conversion to `char`
  wraps into `-128 .. 127` (`toChar`).
* The host is little-endian: a two-byte object read from or written to a file has its
  low byte first.  This is why the sources swap the bytes of every word.
* A file is its sequence of bytes.  A file position past the end is allowed; writing
  there fills the gap with zero bytes.
* Text written with `printf` or read with `fgets` is a list of characters; a result
  `none` of a load function stands for a call that does not return or that accesses
  an array outside its bounds.
* Debug and trace output is not modelled.
* Functions declared in headers or sources that are not part of the examined files
  (`nd100.h`, `cpu.c`) are modelled from the specification and marked as such.
-/

namespace ND100

/-! ## Machine integers and host files -/

/-- Conversion of an integer to `char` (signed, 8 bits), as performed when an `int` or an
`unsigned short` argument is passed for a `char` parameter. -/
def toChar (x : Int) : Int := (x + 128) % 256 - 128

/-- The byte swap that every image routine applies to a word:
`tmp2 = (tmp & 0xff00) >> 8; tmp2 = tmp2 | ((tmp & 0x00ff) << 8);`
with the result stored in an `unsigned short`. -/
def swapBytes (tmp : Nat) : Nat :=
  let tmp2 := (tmp &&& 0xff00) >>> 8
  (tmp2 ||| ((tmp &&& 0x00ff) <<< 8)) % 65536

/-- An open stdio stream: the bytes of the file and the file position. -/
structure FILE where
  data : List Nat
  pos : Nat

/-- Model of `fseek(f, offset, SEEK_SET)`: a negative offset is rejected (result `-1`) and
leaves the position where it was; any other offset becomes the new position. -/
def fseek (f : FILE) (offset : Int) : FILE × Int :=
  if offset < 0 then (f, -1) else ({ f with pos := offset.toNat }, 0)

/-- Model of `fread(&tmp, 2, 1, f)` into an `unsigned short tmp` on the little-endian host.
With two bytes left the item is read; with one byte left only the first byte of `tmp` is
replaced; at end of file `tmp` keeps its value. -/
def fread_u16 (f : FILE) (tmp : Nat) : FILE × Nat :=
  if f.pos + 2 ≤ f.data.length then
    ({ f with pos := f.pos + 2 }, f.data.getD f.pos 0 + 256 * f.data.getD (f.pos + 1) 0)
  else if f.pos + 1 ≤ f.data.length then
    ({ f with pos := f.pos + 1 }, f.data.getD f.pos 0 + 256 * (tmp / 256))
  else (f, tmp)

/-- Store one byte at position `p` of a file, extending the file (zero filled) if needed. -/
def putByte (d : List Nat) (p : Nat) (b : Nat) : List Nat :=
  if p < d.length then d.set p b else d ++ List.replicate (p - d.length) 0 ++ [b]

/-- Model of `fwrite(&w, 2, 1, f)` for an `unsigned short w` on the little-endian host. -/
def fwrite_u16 (f : FILE) (w : Nat) : FILE :=
  { data := putByte (putByte f.data f.pos (w % 256)) (f.pos + 1) (w / 256 % 256),
    pos := f.pos + 2 }

/-- The floppy images on the host, indexed by the disk number that `snprintf` formats into
the name `floppy.nd100.NN.img`; `none` means that `fopen(name, "r+")` fails. -/
abbrev Fs := Int → Option (List Nat)

/-- Model of `fclose`: the bytes of the stream become the contents of the image. -/
def fclose (fs : Fs) (diskNumber : Int) (f : FILE) : Fs :=
  fun n => if n = diskNumber then some f.data else fs n

/-! ## floppy.c: `sectorread` and `sectorwrite` -/

/-- The loop `while (i < 256)` of `sectorread`, with `n` iterations left: read a word,
swap its bytes, store it through `addr`, advance `addr`. -/
def sectorread_loop : Nat → FILE → Nat → List Nat → Nat → List Nat
  | 0, _, _, mem, _ => mem
  | n + 1, f, tmp, mem, addr =>
    let r := fread_u16 f tmp
    sectorread_loop n r.1 r.2 (mem.set addr (swapBytes r.2)) (addr + 1)

/-- Model of `sectorread(diskNumber, cyl, side, sector, addr)`.  The target of `addr` is the
word array `mem` from index `addr` on; `tmp0` is the value the uninitialised local `tmp`
happens to hold.  The result of `fseek` is only logged by the source. -/
def sectorread (fs : Fs) (tmp0 : Nat) (diskNumber : Int) (cyl side sector : Int)
    (mem : List Nat) (addr : Nat) : List Nat :=
  let flat_sector := (toChar cyl + toChar side) * 8 + toChar sector
  let offset := flat_sector * 512
  match fs diskNumber with
  | none => mem
  | some d => sectorread_loop 256 (fseek ⟨d, 0⟩ offset).1 tmp0 mem addr

/-- The loop `while (i < 256)` of `sectorwrite`, with `n` iterations left. -/
def sectorwrite_loop : Nat → FILE → List Nat → Nat → FILE
  | 0, f, _, _ => f
  | n + 1, f, mem, addr =>
    sectorwrite_loop n (fwrite_u16 f (swapBytes (mem.getD addr 0))) mem (addr + 1)

/-- Model of `sectorwrite(diskNumber, cyl, side, sector, addr)`; the result is the host
file system after `fclose`. -/
def sectorwrite (fs : Fs) (diskNumber : Int) (cyl side sector : Int)
    (mem : List Nat) (addr : Nat) : Fs :=
  let flat_sector := (toChar cyl + toChar side) * 8 + toChar sector
  let offset := flat_sector * 512
  match fs diskNumber with
  | none => fs
  | some d => fclose fs diskNumber (sectorwrite_loop 256 (fseek ⟨d, 0⟩ offset).1 mem addr)

/-- File position after the `fseek` of the two sector routines on a freshly opened file. -/
def seekPos (offset : Int) : Nat := if offset < 0 then 0 else offset.toNat

/-- Byte `k` of the big-endian image of the words `mem[addr], mem[addr+1], ...`. -/
def beByte (mem : List Nat) (addr k : Nat) : Nat :=
  if k % 2 = 0 then mem.getD (addr + k / 2) 0 / 256 % 256 else mem.getD (addr + k / 2) 0 % 256

/-- A host with one floppy image, number 0, holding 512 zero bytes. -/
def img512 : Fs := fun n => if n = 0 then some (List.replicate 512 0) else none

/-! ## nd100lib.c: `bpun_load` -/

/-- Physical memory `VolatileMemory.n_Array`: one word for every 16-bit address. -/
abbrev Memory := Nat → Nat

/-- Modelled from the spec: `MemoryWrite(value, addr, UseAPT, byte_select)` of `cpu.c`, which is
not among the examined sources.  Section 4.1 describes it as `write_word(addr, value,
byte_select)`, where `byte_select` (0 = high byte, 1 = low byte, 2 = whole word) selects the
portion of the target word that is replaced.  Address translation is not modelled: the
loaders run before paging is switched on. -/
def MemoryWrite (mem : Memory) (value addr : Nat) (_UseAPT : Bool) (byte_select : Nat) :
    Memory :=
  fun a =>
    if a = addr then
      if byte_select = 0 then (mem a &&& 0x00ff) ||| (value &&& 0xff00)
      else if byte_select = 1 then (mem a &&& 0xff00) ||| (value &&& 0x00ff)
      else value
    else mem a

/-- The locals of the header loop of `bpun_load` that influence its control flow:
`isnum`, `isheader` and the length of the digit string collected in `str`. -/
structure HdrState where
  isnum : Bool
  isheader : Bool
  slen : Nat

/-- One execution of the body of the header loop, after `fread` has delivered (or, at end of
file, left in place) `read_byte`.  `str` is a `calloc(200,1)` buffer: `strncat` of one more
digit needs room for the digit and the terminating zero, otherwise the behaviour is
undefined (`none`).  The numbers parsed from `str` are only logged. -/
def bpun_header_body (read_byte : Nat) (s : HdrState) : Option HdrState :=
  let rb := read_byte &&& 0x7f
  if 48 ≤ rb ∧ rb ≤ 57 then
    if s.slen + 2 ≤ 200 then some { s with isnum := true, slen := s.slen + 1 } else none
  else if rb = 13 then
    some { s with isnum := false, slen := if s.isnum then 0 else s.slen }
  else if rb = 33 then
    some { s with isnum := false, isheader := false }
  else some { s with isnum := false }

/-- The header loop `do { count = fread(&read_byte,1,1,f); ... } while (count > 0 && isheader)`
on the unread bytes of the file.  The result is the unread rest and the last `count`. -/
def bpun_header : List Nat → Nat → HdrState → Option (List Nat × Nat)
  | [], read_byte, s => (bpun_header_body read_byte s).map (fun _ => ([], 0))
  | b :: rest, _, s =>
    match bpun_header_body b s with
    | none => none
    | some s1 => if s1.isheader then bpun_header rest (b &&& 0x7f) s1 else some (rest, 1)

/-- Model of `count = fread(&read_word, 1, 2, f)` on the little-endian host: the unread rest,
the new value of `read_word` and the number of bytes read. -/
def fread_word : List Nat → Nat → List Nat × Nat × Nat
  | b0 :: b1 :: rest, _ => (rest, b0 + 256 * b1, 2)
  | [b0], read_word => ([], b0 + 256 * (read_word / 256), 1)
  | [], read_word => ([], read_word, 0)

/-- State of `bpun_load` after its data loop. -/
structure BpunData where
  rest : List Nat
  read_word : Nat
  count : Nat
  checksum : Nat
  mem : Memory

/-- The data loop of `bpun_load`:
`do { count = fread(&read_word,1,2,f); eff_word = swap(read_word);
if (count) MemoryWrite(eff_word, counter+load_add, 0, 2);
checksum = (eff_word + checksum) & 0xffff; counter++; } while (count > 0 && counter < bpun_words)`.
The three equations are the three outcomes of `fread` (2, 1 or 0 bytes). -/
def bpun_data : List Nat → Nat → Nat → Nat → Nat → Nat → Memory → BpunData
  | b0 :: b1 :: rest, _, counter, checksum, load_add, bpun_words, mem =>
    let read_word := b0 + 256 * b1
    let eff_word := swapBytes read_word
    let mem1 := MemoryWrite mem eff_word ((counter + load_add) % 65536) false 2
    let checksum1 := (eff_word + checksum) &&& 0xffff
    let counter1 := (counter + 1) % 65536
    if counter1 < bpun_words then
      bpun_data rest read_word counter1 checksum1 load_add bpun_words mem1
    else ⟨rest, read_word, 2, checksum1, mem1⟩
  | [b0], read_word0, counter, checksum, load_add, bpun_words, mem =>
    let read_word := b0 + 256 * (read_word0 / 256)
    let eff_word := swapBytes read_word
    let mem1 := MemoryWrite mem eff_word ((counter + load_add) % 65536) false 2
    let checksum1 := (eff_word + checksum) &&& 0xffff
    let counter1 := (counter + 1) % 65536
    if counter1 < bpun_words then
      bpun_data [] read_word counter1 checksum1 load_add bpun_words mem1
    else ⟨[], read_word, 1, checksum1, mem1⟩
  | [], read_word, _, checksum, _, _, mem =>
    ⟨[], read_word, 0, (swapBytes read_word + checksum) &&& 0xffff, mem⟩

/-- What `bpun_load` leaves behind: memory, and the values it logs. -/
structure BpunResult where
  mem : Memory
  load_add : Nat
  bpun_words : Nat
  checksum : Nat
  checksum_word : Option Nat
  action_code : Option Nat

/-- The part of `bpun_load` after the header loop. -/
def bpun_body (rest : List Nat) (count read_word0 : Nat) (mem : Memory) : BpunResult :=
  -- block load address
  let r1 := if count ≠ 0 then fread_word rest read_word0 else (rest, read_word0, count)
  let load_add := if count ≠ 0 then swapBytes r1.2.1 else 0
  -- block word count
  let r2 := if r1.2.2 ≠ 0 then fread_word r1.1 r1.2.1 else r1
  let bpun_words := if r1.2.2 ≠ 0 then swapBytes r2.2.1 else 0
  -- data
  let dl := bpun_data r2.1 r2.2.1 0 0 load_add bpun_words mem
  -- checksum
  let r3 := if dl.count ≠ 0 then fread_word dl.rest dl.read_word else (dl.rest, dl.read_word, dl.count)
  let checksum_word := if dl.count ≠ 0 then some (swapBytes r3.2.1) else none
  -- action code
  let r4 := if r3.2.2 ≠ 0 then fread_word r3.1 r3.2.1 else r3
  let action_code := if r3.2.2 ≠ 0 then some (swapBytes r4.2.1) else none
  { mem := dl.mem, load_add := load_add, bpun_words := bpun_words, checksum := dl.checksum,
    checksum_word := checksum_word, action_code := action_code }

/-- Model of `bpun_load` on the bytes `file` of `test.bpun` (which is assumed to open).
`read_byte0` and `read_word0` are the values the uninitialised locals happen to hold.
`none` stands for the overflow of the 200-byte digit buffer. -/
def bpun_load (file : List Nat) (read_byte0 read_word0 : Nat) (mem : Memory) :
    Option BpunResult :=
  (bpun_header file read_byte0 ⟨false, true, 0⟩).map
    (fun r => bpun_body r.1 r.2 read_word0 mem)

/-- The two bytes of a word, high byte first. -/
def be16 (w : Nat) : List Nat := [w / 256 % 256, w % 256]

/-- The words of a list, each as two bytes, high byte first. -/
def be16s : List Nat → List Nat
  | [] => []
  | w :: ws => w / 256 % 256 :: w % 256 :: be16s ws

/-- Number of digit characters (after the parity bit is removed) in a header. -/
def digitCount (header : List Nat) : Nat :=
  (header.filter (fun b => decide (48 ≤ b &&& 0x7f ∧ b &&& 0x7f ≤ 57))).length

/-- A BPUN file: header bytes, the terminating `!` byte, load address, word count, payload,
checksum and action code, all words high byte first. -/
def bpunFile (header : List Nat) (bang load_add : Nat) (payload : List Nat)
    (checksum action : Nat) : List Nat :=
  header ++ (bang :: (be16 load_add ++ (be16 payload.length ++
    (be16s payload ++ (be16 checksum ++ be16 action)))))

/-- The file of scenario 5: header `123!`, load address 0, two words 5 and 7, checksum 12. -/
def bpunExample : List Nat := [49, 50, 51, 33, 0, 0, 0, 2, 0, 5, 0, 7, 0, 12, 0, 0]

/-- A well-formed BPUN file with an empty payload: header `!`, load address 16, word count 0,
checksum 0, action code 1. -/
def bpunEmpty : List Nat := [33, 0, 16, 0, 0, 0, 0, 0, 1]

/-! ## The machine state

`nd100.h`, which declares `struct CpuRegs`, `struct IdentChain`, the run modes and the register
macros (`gA`, `gPID`, `gCSR`, `CurrLEVEL`, ...), is not among the examined sources.  The
register structure below has the members that `cpu_state.c` and `trace.c` access. -/

/-- The members of `struct CpuRegs`: `reg[16][16]`, the lock and breakpoint flags, and the
control registers. -/
structure CpuRegs where
  reg : Nat → Nat → Nat
  mylock_IIC : Bool
  mylock_PEA : Bool
  mylock_PES : Bool
  mylock_PGS : Bool
  has_breakpoint : Bool
  has_instr_cntr : Bool
  instructioncounter : Nat
  myreg_IR : Nat
  myreg_PK : Nat
  myreg_PFB : Nat
  reg_PANS : Nat
  reg_PANC : Nat
  reg_OPR : Nat
  reg_LMP : Nat
  reg_PGS : Nat
  reg_PCR : Nat → Nat
  reg_PVL : Nat
  reg_IIC : Nat
  reg_IID : Nat
  reg_IIE : Nat
  reg_PID : Nat
  reg_PIE : Nat
  reg_CSR : Nat
  reg_CCL : Nat
  reg_ACTL : Nat
  reg_LCIL : Nat
  reg_ALD : Nat
  reg_UCIL : Nat
  reg_PES : Nat
  reg_PGC : Nat
  reg_PEA : Nat
  reg_ECCR : Nat

/-- A register structure with every member zero: the result of `calloc` and of `bzero`. -/
def CpuRegs.zero : CpuRegs where
  reg := fun _ _ => 0
  mylock_IIC := false
  mylock_PEA := false
  mylock_PES := false
  mylock_PGS := false
  has_breakpoint := false
  has_instr_cntr := false
  instructioncounter := 0
  myreg_IR := 0
  myreg_PK := 0
  myreg_PFB := 0
  reg_PANS := 0
  reg_PANC := 0
  reg_OPR := 0
  reg_LMP := 0
  reg_PGS := 0
  reg_PCR := fun _ => 0
  reg_PVL := 0
  reg_IIC := 0
  reg_IID := 0
  reg_IIE := 0
  reg_PID := 0
  reg_PIE := 0
  reg_CSR := 0
  reg_CCL := 0
  reg_ACTL := 0
  reg_LCIL := 0
  reg_ALD := 0
  reg_UCIL := 0
  reg_PES := 0
  reg_PGC := 0
  reg_PEA := 0
  reg_ECCR := 0

/-- One element of the IDENT chain, with the members `cpu_state.c` saves. -/
structure IdentChain where
  level : Int
  identcode : Nat
  callerid : Int
deriving DecidableEq

/-- The values of `CurrentCPURunMode` that the examined sources assign. -/
inductive RunMode where
  | STOP
  | RUN
  | SHUTDOWN
deriving DecidableEq

/-- Index of the status register in a register bank (section 3: STS, D, P, B, L, A, T, X at
indices 0..7). -/
def _STS : Nat := 0

/-- Index of the A register in a register bank. -/
def _A : Nat := 5

/-- Modelled from the spec: bit number of the static overflow flag O in STS.  The constant
`_O` of `nd100.h` is not among the examined sources; the status bits are listed in section
4.5 in the order PTM, TG, K, Z, Q, O, C, M. -/
def _O : Nat := 5

/-- Modelled from the spec: bit number of the N100 flag in STS (the bit above the four bits of
the current-level field, which follow the eight flag bits).  The constant `_N100` of
`nd100.h` is not among the examined sources. -/
def _N100 : Nat := 12

/-- Modelled from the spec: the macro `CurrLEVEL` of `nd100.h`, which is not among the
examined sources.  The glossary names ACTL as the currently active program level. -/
def CurrLEVEL (r : CpuRegs) : Nat := r.reg_ACTL

/-- Write one register of one level; the value is stored in an `unsigned short`. -/
def CpuRegs.setReg (r : CpuRegs) (level idx value : Nat) : CpuRegs :=
  { r with reg := fun l i => if l = level ∧ i = idx then value % 65536 else r.reg l i }

/-- Modelled from the spec: `nd_setbit(regnum, stsbit, val)` of `cpu.c`, which is not among
the examined sources: set or clear one bit of a register of the current level. -/
def nd_setbit (r : CpuRegs) (regnum stsbit val : Nat) : CpuRegs :=
  let old := r.reg (CurrLEVEL r) regnum
  r.setReg (CurrLEVEL r) regnum
    (if val ≠ 0 then old ||| (1 <<< stsbit) else old &&& (65535 - (1 <<< stsbit)))

/-- Modelled from the spec: `setbit_STS_MSB(stsbit, val)` of `cpu.c`, which is not among the
examined sources: set or clear one of the upper status bits in the STS of the current
level (level 0 after a master clear, section 3). -/
def setbit_STS_MSB (r : CpuRegs) (stsbit val : Nat) : CpuRegs :=
  let old := r.reg (CurrLEVEL r) _STS
  r.setReg (CurrLEVEL r) _STS
    (if val ≠ 0 then old ||| (1 <<< stsbit) else old &&& (65535 - (1 <<< stsbit)))

/-- Size of the floppy controller buffer in words (`FDD_BUFSIZE`). -/
def FDD_BUFSIZE : Nat := 2048

/-- The members of `struct fdd_unit`; `fp` records whether an open stream is held. -/
structure fdd_unit where
  filename : Option String
  readonly : Bool
  fp : Bool
  drive_format : Int
  curr_track : Int
  diff_track : Int
  dir_track : Int

/-- The members of `struct floppy_data`.  `buff` has `FDD_BUFSIZE` words; `unit` holds the
three unit pointers (`none` is a null pointer). -/
structure floppy_data where
  irq_en : Bool
  unit_select : Int
  buff : List Nat
  bufptr_read : Int
  bufptr : Int
  bufptr_msb : Bool
  unit : List (Option fdd_unit)
  selected_drive : Int
  test_mode : Bool
  test_byte : Nat
  timeout_en : Bool
  sense : Bool
  drive_not_rdy : Bool
  write_protect : Bool
  missing : Bool
  busy : Bool
  rwComplete : Bool
  seekComplete : Bool
  command : Int
  busy_counter : Nat
  sector : Nat
  track : Nat
  sector_autoinc : Bool

/-- The members of `struct hdd_data` that the controller code uses (the `unit` array is
never accessed). -/
structure hdd_data where
  unit_select : Int
  irq_en : Bool
  err_irq_en : Bool
  active : Bool
  finished : Bool
  error : Bool
  err_ill_load : Bool
  err_timeout : Bool
  err_hw : Bool
  err_addr_mismatch : Bool
  err_data : Bool
  err_compare : Bool
  err_dma_channel : Bool
  err_abnormal : Bool
  err_disk_unit : Bool
  on_cylinder : Bool
  second_word : Bool
  mem_addr : Nat
  word_count : Nat
  sector : Nat
  surface : Nat
  track : Nat
  cwr : Nat
  opcode : Nat

/-- A zeroed `struct hdd_data`, as returned by `calloc`. -/
def hdd_data.zero : hdd_data where
  unit_select := 0
  irq_en := false
  err_irq_en := false
  active := false
  finished := false
  error := false
  err_ill_load := false
  err_timeout := false
  err_hw := false
  err_addr_mismatch := false
  err_data := false
  err_compare := false
  err_dma_channel := false
  err_abnormal := false
  err_disk_unit := false
  on_cylinder := false
  second_word := false
  mem_addr := 0
  word_count := 0
  sector := 0
  surface := 0
  track := 0
  cwr := 0
  opcode := 0

/-- The global state that the modelled routines read and write.
`subcode` is the pending sub-code per level of section 5.  `floppy` and `hdd` are the device
records registered as `iodata[880]` and `iodata[01540]`.  `floppyImages` and `hddImage` are
the image files on the host (`hddImage = none`: `open("hdd.img")` fails). -/
structure Machine where
  gReg : CpuRegs
  gIdentChain : List IdentChain
  subcode : Nat → Nat
  VolatileMemory : Memory
  floppy : floppy_data
  hdd : hdd_data
  floppyImages : Fs
  hddImage : Option (List Nat)
  diskNumber : Int
  CurrentCPURunMode : RunMode
  instr_counter : Nat

/-- The macro `gA`: the A register of the current level. -/
def gA (m : Machine) : Nat := m.gReg.reg (CurrLEVEL m.gReg) _A

/-- Assignment to `gA`. -/
def set_gA (m : Machine) (v : Nat) : Machine :=
  { m with gReg := m.gReg.setReg (CurrLEVEL m.gReg) _A v }

/-- The macro `gPID`. -/
def gPID (m : Machine) : Nat := m.gReg.reg_PID

/-! ## Interrupts: `genIRQ` of io.c -/

/-- Modelled from the spec: `AddIdentChain(lvl, identnum, callerid)` of `cpu.c`, which is not
among the examined sources; section 4.7: `enqueue_ident` appends to the IDENT chain. -/
def AddIdentChain (chain : List IdentChain) (lvl : Int) (identnum : Nat) (callerid : Int) :
    List IdentChain :=
  chain ++ [⟨lvl, identnum, callerid⟩]

/-- Modelled from the spec: `interrupt(lvl, sub)` of `cpu.c`, which is not among the examined
sources; section 4.7: `raise(level, subcode)` sets the PID bit of the level and records the
pending sub-code of that level. -/
def interrupt (m : Machine) (lvl sub : Nat) : Machine :=
  { m with
    gReg := { m.gReg with reg_PID := (m.gReg.reg_PID ||| (1 <<< lvl)) % 65536 }
    subcode := fun l => if l = lvl then sub else m.subcode l }

/-- Caller identification of the hard disk worker (`HDD_IRQ_ID`). -/
def HDD_IRQ_ID : Int := 101

/-- Caller identification of the floppy worker (`FLOPPY_ID`). -/
def FLOPPY_ID : Int := 201

/-- Model of `genIRQ(level, ident, chainId)`: `gPID |= (1 << level)`, then `AddIdentChain`,
then `interrupt(level, 0)`.  The semaphore operations are assumed to succeed. -/
def genIRQ (m : Machine) (level ident : Nat) (chainId : Int) : Machine :=
  let m1 := { m with gReg := { m.gReg with reg_PID := (m.gReg.reg_PID ||| (1 <<< level)) % 65536 } }
  let m2 := { m1 with gIdentChain := AddIdentChain m1.gIdentChain level ident chainId }
  interrupt m2 level 0

/-! ## io.c: `Default_IO` -/

/-- Model of `Default_IO(ioadd)`.  The source guards the timeout simulation with `if (1)`, so
only the first branch runs: an odd address (write) does nothing, an even address (read)
clears A.  The second branch sleeps and raises the IOX error interrupt if bit 7 of IIE is
set. -/
def Default_IO (ioadd : Nat) (m : Machine) : Machine :=
  if (1 : Nat) ≠ 0 then
    if ioadd &&& 1 ≠ 0 then m else set_gA m 0
  else
    if m.gReg.reg_IIE &&& 0x80 ≠ 0 then interrupt m 14 (1 <<< 7) else m

/-! ## io.c: the floppy controller (`Floppy_IO`, `floppy_init`, `floppy_thread`) -/

/-- Conversion of an `int` to `unsigned short`. -/
def toUShort (x : Int) : Nat := (x % 65536).toNat

/-- A C truth value as a bit at position `k`: `cond ? (1 << k) : 0`. -/
def bitIf (cond : Bool) (k : Nat) : Nat := if cond then 1 <<< k else 0

/-- Apply `f` to the unit that `dev->unit[dev->selected_drive]` points to.  `none` is the
undefined behaviour of an index outside the three-element array or of a null pointer. -/
def floppy_data.withUnit (dev : floppy_data) (f : fdd_unit → fdd_unit) : Option floppy_data :=
  if 0 ≤ dev.selected_drive ∧ dev.selected_drive < 3 then
    match dev.unit.getD dev.selected_drive.toNat none with
    | some u => some { dev with unit := dev.unit.set dev.selected_drive.toNat (some (f u)) }
    | none => none
  else none

/-- The advance of `bufptr` after a buffer access: `bufptr++; if (bufptr >= FDD_BUFSIZE)
bufptr = 0;`. -/
def bufptr_next (bufptr : Int) : Int :=
  if bufptr + 1 ≥ (FDD_BUFSIZE : Int) then 0 else bufptr + 1

/-- The effect of `IOX WCWD` (write control word) on the controller: bit 1 enables
interrupts, bit 2 is autoload, bit 3 test mode, bit 4 device clear, bit 5 clears the buffer
addresses, and a non-zero high byte starts the command it holds. -/
def floppy_wcwd (tempA : Nat) (dev : floppy_data) : floppy_data :=
  let d1 := if (tempA >>> 1) &&& 0x01 ≠ 0 then { dev with irq_en := true } else dev
  let d2 := if (tempA >>> 2) &&& 0x01 ≠ 0 then
    { d1 with track := 48, sector := 1, bufptr_read := 0 } else d1
  let d3 := if (tempA >>> 3) &&& 0x01 ≠ 0 then { d2 with test_mode := true } else d2
  let d4 := if (tempA >>> 4) &&& 0x01 ≠ 0 then { d3 with bufptr := 0, sector := 1 } else d3
  let d5 := if (tempA >>> 5) &&& 0x01 ≠ 0 then { d4 with bufptr_read := 0, bufptr := 0 } else d4
  if tempA &&& 0xff00 ≠ 0 then
    { d5 with
      busy := true
      busy_counter := if d5.irq_en then 0 else 10
      rwComplete := false
      seekComplete := false
      command := (((tempA &&& 0xff00) >>> 8 : Nat) : Int) }
  else d5

/-- Model of `Floppy_IO(ioadd)` on the controller registered for the floppy addresses; the
register is selected by `ioadd & 7`.  `none` is undefined behaviour (a wild or null unit
pointer).  The io semaphore is assumed to work; posting `sem_floppy` wakes the worker,
which is modelled by `floppy_thread_pass`. -/
def Floppy_IO (ioadd : Nat) (m : Machine) : Option Machine :=
  let a := ioadd &&& 0x07
  let dev := m.floppy
  if a = 0 then
    -- IOX RDAD: read data buffer
    if 0 ≤ dev.bufptr ∧ dev.bufptr < (FDD_BUFSIZE : Int) then
      let m1 := set_gA m (dev.buff.getD dev.bufptr.toNat 0)
      some { m1 with floppy := { dev with bufptr := bufptr_next dev.bufptr } }
    else some m
  else if a = 1 then
    -- IOX WDAT: write data buffer
    if 0 ≤ dev.bufptr ∧ dev.bufptr < (FDD_BUFSIZE : Int) then
      some { m with floppy := { dev with
        buff := dev.buff.set dev.bufptr.toNat (gA m)
        bufptr := bufptr_next dev.bufptr } }
    else some m
  else if a = 2 then
    -- IOX RSR1: read status register 1
    let acc := 0 ||| bitIf dev.irq_en 1
    if dev.busy_counter > 0 then
      let m1 := set_gA m (acc ||| (1 <<< 2))
      some { m1 with floppy := { dev with busy_counter := dev.busy_counter - 1 } }
    else
      some (set_gA m (acc ||| bitIf dev.busy 2 ||| bitIf (!dev.busy) 3 ||| bitIf dev.sense 4
        ||| bitIf dev.rwComplete 6 ||| bitIf dev.seekComplete 7))
  else if a = 3 then
    -- IOX WCWD: write control word
    some { m with floppy := floppy_wcwd (gA m) dev }
  else if a = 4 then
    -- IOX RSR2: read status register 2
    some (set_gA m (0 ||| bitIf dev.drive_not_rdy 8 ||| bitIf dev.write_protect 9
      ||| bitIf dev.missing 11))
  else if a = 5 then
    -- IOX WDAD: write drive address / write difference
    if gA m &&& 0x1 ≠ 0 then
      let tmp := (gA m >>> 8) &&& 0x07
      let d1 := if tmp < 4 then { dev with selected_drive := (tmp : Int) } else dev
      let d2 := if (gA m >>> 11) &&& 0x01 ≠ 0 then { d1 with selected_drive := -1 } else d1
      let tmp2 := (gA m >>> 14) &&& 0x03
      let fmt : Int := if tmp2 = 0 then 0 else if tmp2 = 1 then 0 else if tmp2 = 2 then 1 else 2
      if d2.selected_drive ≠ -1 then
        (d2.withUnit (fun u => { u with drive_format := fmt })).map
          (fun d => { m with floppy := d })
      else some { m with floppy := d2 }
    else
      let tmp := (gA m >>> 8) &&& 0x7f
      if dev.selected_drive ≠ -1 then
        (dev.withUnit (fun u => { u with
          diff_track := (tmp : Int)
          dir_track := (((gA m >>> 15) &&& 0x01 : Nat) : Int) })).map
          (fun d => { m with floppy := d })
      else some m
  else if a = 6 then
    -- Read test
    if 0 ≤ dev.bufptr ∧ dev.bufptr < (FDD_BUFSIZE : Int) then
      let old := dev.buff.getD dev.bufptr.toNat 0
      if dev.bufptr_msb then
        let d1 := { dev with
          buff := dev.buff.set dev.bufptr.toNat
            (((old &&& 0x00ff) ||| ((dev.test_byte <<< 8) &&& 0xff00)) % 65536)
          bufptr_msb := false
          bufptr := dev.bufptr + 1 }
        some { m with floppy :=
          if d1.bufptr ≥ (FDD_BUFSIZE : Int) then { d1 with bufptr := 0 } else d1 }
      else
        some { m with floppy := { dev with
          buff := dev.buff.set dev.bufptr.toNat
            (((old &&& 0xff00) ||| (dev.test_byte &&& 0x00ff)) % 65536)
          bufptr_msb := true } }
    else some m
  else
    -- IOX WSCT: write sector / write test byte
    if dev.test_mode then
      some { m with floppy := { dev with test_byte := (gA m >>> 8) &&& 0xff } }
    else
      some { m with floppy := { dev with
        sector := (gA m >>> 8) &&& 0x7f
        sector_autoinc := decide ((gA m >>> 15) &&& 0x01 ≠ 0) } }

/-- Model of `floppy_init`: a zeroed controller with three zeroed units, drive 0 selected and
sector 1.  Unit 0 gets the configured image name and access mode; `fopen_ok` tells whether
opening the image succeeds.  The allocations are assumed to succeed. -/
def floppy_init (FDD_IMAGE_NAME : Option String) (FDD_IMAGE_RO fopen_ok : Bool) : floppy_data :=
  let u : fdd_unit := ⟨none, false, false, 0, 0, 0, 0⟩
  let u0 : fdd_unit :=
    match FDD_IMAGE_NAME with
    | some name => { u with filename := some name, readonly := FDD_IMAGE_RO, fp := fopen_ok }
    | none => u
  { irq_en := false
    unit_select := 0
    buff := List.replicate FDD_BUFSIZE 0
    bufptr_read := 0
    bufptr := 0
    bufptr_msb := false
    unit := [some u0, some u, some u]
    selected_drive := 0
    test_mode := false
    test_byte := 0
    timeout_en := false
    sense := false
    drive_not_rdy := false
    write_protect := false
    missing := false
    busy := false
    rwComplete := false
    seekComplete := false
    command := 0
    busy_counter := 0
    sector := 1
    track := 0
    sector_autoinc := false }

/-- The local `unit` of `floppy_thread`: a null pointer, a pointer to unit `k` of the
controller, or the indeterminate value read from outside the unit array. -/
inductive UnitPtr where
  | null
  | unit (k : Nat)
  | wild

/-- The statement `if (dev->selected_drive != -1) unit = dev->unit[dev->selected_drive];`. -/
def select_unit (dev : floppy_data) (unit : UnitPtr) : UnitPtr :=
  if dev.selected_drive ≠ -1 then
    if 0 ≤ dev.selected_drive ∧ dev.selected_drive < 3 then
      match dev.unit.getD dev.selected_drive.toNat none with
      | some _ => .unit dev.selected_drive.toNat
      | none => .null
    else .wild
  else unit

/-- The sector number the worker passes to the sector routines:
`xsector = dev->sector - 1; if (xsector < 0) xsector = 0;`. -/
def xsector (dev : floppy_data) : Int :=
  if (dev.sector : Int) - 1 < 0 then 0 else (dev.sector : Int) - 1

/-- Whether the 256-word transfer that starts at `bufptr_read` lies inside the buffer. -/
def transfer_in_buffer (dev : floppy_data) : Prop :=
  0 ≤ dev.bufptr_read ∧ dev.bufptr_read + 256 ≤ (dev.buff.length : Int)

instance (dev : floppy_data) : Decidable (transfer_in_buffer dev) := by
  unfold transfer_in_buffer; exact inferInstance

/-- The command dispatch of `floppy_thread` (the `if ... else if` chain on `dev->command`,
entered when `dev->busy` is set): the new controller state and floppy images.  `none` is
undefined behaviour: a sector transfer that leaves the buffer, or the dereference of a wild
unit pointer.  `c` is the bit pattern of the `int` member `command`. -/
def floppy_command (tmp0 : Nat) (unit : UnitPtr) (diskNumber : Int) (fs : Fs)
    (dev : floppy_data) : Option (floppy_data × Fs) :=
  let c := (dev.command % 4294967296).toNat
  if c &&& (1 <<< 7) ≠ 0 then
    some ({ dev with busy := false }, fs)
  else if c &&& (1 <<< 6) ≠ 0 then
    some ({ dev with track := 0, seekComplete := true, busy := false }, fs)
  else if c &&& (1 <<< 5) ≠ 0 then
    match unit with
    | .null => some ({ dev with seekComplete := true, busy := false }, fs)
    | .wild => none
    | .unit k =>
      match dev.unit.getD k none with
      | none => none
      | some u =>
        let track :=
          if u.dir_track = 1 then
            let t := toUShort ((dev.track : Int) + u.diff_track)
            if t > 77 then 77 else t
          else
            let t := toUShort ((dev.track : Int) - u.diff_track)
            if (t : Int) < 0 then 0 else t
        some ({ dev with track := track, seekComplete := true, busy := false }, fs)
  else if c &&& (1 <<< 3) ≠ 0 then
    if 2 ≤ dev.buff.length then
      some ({ dev with
        buff := (dev.buff.set 0 ((dev.track <<< 8) % 65536)).set 1
          (((dev.sector <<< 8) ||| 0x02) % 65536)
        rwComplete := true
        busy := false }, fs)
    else none
  else if c &&& (1 <<< 4) ≠ 0 then
    if transfer_in_buffer dev then
      some ({ dev with
        buff := sectorread fs tmp0 diskNumber dev.track 0 (xsector dev) dev.buff
          dev.bufptr_read.toNat
        bufptr_read := Int.tmod (dev.bufptr_read + 256) FDD_BUFSIZE
        rwComplete := true
        busy := false }, fs)
    else none
  else if c &&& (1 <<< 2) ≠ 0 ∨ c &&& (1 <<< 1) ≠ 0 then
    if transfer_in_buffer dev then
      some ({ dev with
        bufptr_read := Int.tmod (dev.bufptr_read + 256) FDD_BUFSIZE
        rwComplete := true
        busy := false },
        sectorwrite fs diskNumber dev.track 0 (xsector dev) dev.buff dev.bufptr_read.toNat)
    else none
  else if c &&& (1 <<< 0) ≠ 0 then
    some ({ dev with busy := false }, fs)
  else some (dev, fs)

/-- One pass of the loop of `floppy_thread`, after the worker has been woken: select the unit,
and if the controller is busy execute its command; when the command has ended and
interrupts are enabled, `genIRQ(11, 021, FLOPPY_ID)`.  `tmp0` is the value the uninitialised
local of `sectorread` happens to hold; `unit` is the value the local `unit` has kept from
earlier passes.  The semaphores and the `usleep` are not modelled. -/
def floppy_thread_pass (tmp0 : Nat) (unit : UnitPtr) (m : Machine) :
    Option (UnitPtr × Machine) :=
  let dev := m.floppy
  let unit1 := select_unit dev unit
  if dev.busy then
    match floppy_command tmp0 unit1 m.diskNumber m.floppyImages dev with
    | none => none
    | some (dev1, fs1) =>
      let m1 := { m with floppy := dev1, floppyImages := fs1 }
      if !dev1.busy then
        if dev1.irq_en then some (unit1, genIRQ m1 11 0o21 FLOPPY_ID) else some (unit1, m1)
      else some (unit1, m1)
  else some (unit1, m)

/-! ## io.c: the hard disk worker (`hdd_thread`) -/

/-- Conversion to `long` (64 bits, two's complement). -/
def toLong (x : Int) : Int := (x + 9223372036854775808) % 18446744073709551616 - 9223372036854775808

/-- The byte offset `logical` that `hdd_thread` computes and passes to `lseek`:
`logical = sector + surface * numSect + track * numSect * numSurf; logical *= 1024;`
with `numSect = 18`, `numSurf = 5`, all in `long` arithmetic. -/
def hdd_logical (dev : hdd_data) : Int :=
  let numSect : Int := 18
  let numSurf : Int := 5
  let logical := toLong ((dev.sector : Int) + (dev.surface : Int) * numSect
    + (dev.track : Int) * numSect * numSurf)
  toLong (logical * 1024)

/-- Store bytes one after the other from position `p` of a file (`write` at a file offset). -/
def writeBytes : List Nat → Nat → List Nat → List Nat
  | d, _, [] => d
  | d, p, b :: bs => writeBytes (putByte d p b) (p + 1) bs

/-- The bytes of `count` memory words from word address `addr`, as the little-endian host
stores them (low byte first). -/
def memBytes (mem : Memory) (addr count : Nat) : List Nat :=
  (List.range (2 * count)).map
    (fun i => if i % 2 = 0 then mem (addr + i / 2) % 256 else mem (addr + i / 2) / 256 % 256)

/-- Memory after the host has copied `bytes` to the byte address `2 * addr`. -/
def hostReadInto (mem : Memory) (addr : Nat) (bytes : List Nat) : Memory :=
  fun w =>
    let lo := if addr ≤ w ∧ 2 * (w - addr) < bytes.length
      then bytes.getD (2 * (w - addr)) 0 else mem w % 256
    let hi := if addr ≤ w ∧ 2 * (w - addr) + 1 < bytes.length
      then bytes.getD (2 * (w - addr) + 1) 0 else mem w / 256 % 256
    lo + 256 * hi

/-- Whether the transfer of opcodes 0 and 1 stays inside the 64K-word memory array. -/
def hdd_transfer_in_memory (dev : hdd_data) : Prop :=
  dev.mem_addr + dev.word_count ≤ 65536

instance (dev : hdd_data) : Decidable (hdd_transfer_in_memory dev) := by
  unfold hdd_transfer_in_memory; exact inferInstance

/-- The tail of an active pass of `hdd_thread`: `dev->active = false; dev->finished = true;`
and, as `active` is now false, `genIRQ(11, 017, HDD_IRQ_ID)` if interrupts are enabled. -/
def hdd_finish (m : Machine) (dev : hdd_data) : Machine :=
  let dev1 := { dev with active := false, finished := true }
  let m1 := { m with hdd := dev1 }
  if !dev1.active then
    if dev1.irq_en then genIRQ m1 11 0o17 HDD_IRQ_ID else m1
  else m1

/-- One pass of the loop of `hdd_thread`, after the worker has been woken.  An active
controller opens the image, seeks to `logical`, executes opcode 0 (read into memory) or 1
(write from memory), and finishes; the other opcodes only finish.  The seek fails if the
image cannot be opened or the offset is negative.  `none` is a transfer that leaves the
memory array.  `read` and `write` move raw host bytes, without a byte swap. -/
def hdd_thread_pass (m : Machine) : Option Machine :=
  let dev := m.hdd
  if dev.active then
    let logical := hdd_logical dev
    match m.hddImage with
    | none => some (hdd_finish m dev)
    | some img =>
      if logical < 0 then some (hdd_finish m dev)
      else if dev.opcode = 0 then
        if hdd_transfer_in_memory dev then
          let bytes := (img.drop logical.toNat).take (2 * dev.word_count)
          let m1 := { m with VolatileMemory := hostReadInto m.VolatileMemory dev.mem_addr bytes }
          some (hdd_finish m1
            { dev with mem_addr := (dev.mem_addr + dev.word_count) % 4294967296 })
        else none
      else if dev.opcode = 1 then
        if hdd_transfer_in_memory dev then
          let bytes := memBytes m.VolatileMemory dev.mem_addr dev.word_count
          let m1 := { m with hddImage := some (writeBytes img logical.toNat bytes) }
          some (hdd_finish m1
            { dev with mem_addr := (dev.mem_addr + dev.word_count) % 4294967296 })
        else none
      else some (hdd_finish m dev)
  else some m

/-! ## Master clear: the panel path of io.c and `setup_cpu` of nd100lib.c -/

/-- Model of the `MCL_PRESSED` branch of `panel_thread`: stop the CPU, `bzero` the registers
(`*gReg`), set O and N100 in STS, set bit 2 of CSR.  Waiting for the stop semaphore is not
modelled. -/
def panel_MCL_PRESSED (m : Machine) : Machine :=
  let m1 := { m with CurrentCPURunMode := RunMode.STOP }
  let r1 := nd_setbit CpuRegs.zero _STS _O 1
  let r2 := setbit_STS_MSB r1 _N100 1
  { m1 with gReg := { r2 with reg_CSR := 1 <<< 2 } }

/-- Model of `setup_cpu`: fresh zeroed registers, the IO handlers and device records
(`Setup_IO_Handlers`, then `floppy_init` once more), O and N100 in STS, bit 2 of CSR, an
empty IDENT chain, run mode RUN and a zero instruction counter.  The page table and the
handler table are not part of the modelled state. -/
def setup_cpu (FDD_IMAGE_NAME : Option String) (FDD_IMAGE_RO fopen_ok : Bool) (m : Machine) :
    Machine :=
  let r1 := nd_setbit CpuRegs.zero _STS _O 1
  let r2 := setbit_STS_MSB r1 _N100 1
  { m with
    gReg := { r2 with reg_CSR := 1 <<< 2 }
    floppy := floppy_init FDD_IMAGE_NAME FDD_IMAGE_RO fopen_ok
    hdd := hdd_data.zero
    gIdentChain := []
    CurrentCPURunMode := RunMode.RUN
    instr_counter := 0 }

/-- A machine after `setup_cpu`, with no image files on the host. -/
def machine0 : Machine :=
  { gReg := CpuRegs.zero
    gIdentChain := []
    subcode := fun _ => 0
    VolatileMemory := fun _ => 0
    floppy := floppy_init none false false
    hdd := hdd_data.zero
    floppyImages := fun _ => none
    hddImage := none
    diskNumber := 0
    CurrentCPURunMode := RunMode.RUN
    instr_counter := 0 }

/-- A machine whose A register (level 0) holds `A`, whose floppy controller is freshly
initialised except for the sector register, and whose floppy images all hold `img`. -/
def floppyMachine (A sector : Nat) (img : List Nat) : Machine :=
  { machine0 with
    gReg := machine0.gReg.setReg 0 _A A
    floppy := { floppy_init none false false with sector := sector }
    floppyImages := fun _ => some img }

/-- An image of five sectors: four sectors of zero bytes, then one sector of bytes 1. -/
def img5 : List Nat := List.replicate 2048 0 ++ List.replicate 512 1

/-- Memory safety of one command of the floppy worker: the sector transfer at `bufptr_read`
lies inside the buffer, and the unit pointer held by the worker is null or points to an
allocated unit. -/
def floppy_safe (unit : UnitPtr) (dev : floppy_data) : Prop :=
  transfer_in_buffer dev ∧
  match unit with
  | .wild => False
  | .null => True
  | .unit k => ∃ u, dev.unit.getD k none = some u

/-- A machine whose floppy controller is busy with `command`. -/
def busyFloppyMachine (command : Int) (irq_en : Bool) : Machine :=
  { machine0 with
    floppy := { floppy_init none false false with
      busy := true, command := command, irq_en := irq_en } }

/-- A machine whose hard disk controller is active with `opcode`, on a host where the image
cannot be opened. -/
def activeHddMachine (opcode : Nat) (irq_en : Bool) : Machine :=
  { machine0 with
    hdd := { hdd_data.zero with active := true, opcode := opcode, irq_en := irq_en } }

/-- The machine `floppyMachine A sector img` after `A` has been written to the control word
register of the floppy controller. -/
def wcwdMachine (A sector : Nat) (img : List Nat) : Machine :=
  { floppyMachine A sector img with
    floppy := floppy_wcwd (gA (floppyMachine A sector img)) (floppyMachine A sector img).floppy }

/-! ## io.c: the dispatch table (`Setup_IO_Handlers`) and the console (`Console_IO`) -/

/-- The functions whose addresses `Setup_IO_Handlers` stores in the table `ioarr`. -/
inductive IOHandler where
  | h_Default
  | h_Parity_Mem
  | h_RTC
  | h_Console
  | h_Floppy
  | h_HDD
deriving DecidableEq

/-- The values stored in the table `iodata`: a null pointer, the floppy controller record, the
hard disk controller record registered at 01540, or the one registered at 0500. -/
inductive DataPtr where
  | null
  | floppy_dev
  | hdd_dev
  | hdd_dev2
deriving DecidableEq

/-- The members of `struct tty_io_data`.  The ring pointers are `unsigned char`; the rings hold
256 `unsigned short` entries each. -/
structure tty_io_data where
  snd_arr : Nat → Nat
  snd_fp : Nat
  snd_cp : Nat
  rcv_arr : Nat → Nat
  rcv_fp : Nat
  rcv_cp : Nat
  ttynum : Nat
  in_status : Nat
  in_control : Nat
  out_status : Nat
  out_control : Nat

/-- A zeroed `struct tty_io_data`, as returned by `calloc`. -/
def tty_io_data.zero : tty_io_data where
  snd_arr := fun _ => 0
  snd_fp := 0
  snd_cp := 0
  rcv_arr := fun _ => 0
  rcv_fp := 0
  rcv_cp := 0
  ttynum := 0
  in_status := 0
  in_control := 0
  out_status := 0
  out_control := 0

/-- The machine together with the globals of `io.h`: the handler table `ioarr`, the data table
`iodata`, the console pointers `tty_arr`, the second hard disk record that `hdd_init`
allocates, and `MODE_OPCOM`.  A `none` in `ioarr` or `tty_arr` is a null pointer. -/
structure Emulator extends Machine where
  ioarr : Nat → Option IOHandler
  iodata : Nat → DataPtr
  tty_arr : Nat → Option tty_io_data
  hdd2 : hdd_data
  MODE_OPCOM : Nat

/-- The loop `for (i = startdev; i <= stopdev; i++) table[i] = value;` shared by
`IO_Handler_Add`, `IO_Data_Add` and the clearing of `tty_arr`, with `n` iterations left. -/
def table_fill {α : Type} : Nat → Nat → α → (Nat → α) → (Nat → α)
  | 0, _, _, t => t
  | n + 1, i, v, t => table_fill n (i + 1) v (fun a => if a = i then v else t a)

/-- Model of `IO_Handler_Add(startdev, stopdev, funcpointer, datapointer)`; the data pointer
argument is ignored by the source. -/
def IO_Handler_Add (startdev stopdev : Nat) (funcpointer : IOHandler)
    (ioarr : Nat → Option IOHandler) : Nat → Option IOHandler :=
  table_fill (stopdev + 1 - startdev) startdev (some funcpointer) ioarr

/-- Model of `IO_Data_Add(startdev, stopdev, datastructptr)`. -/
def IO_Data_Add (startdev stopdev : Nat) (datastructptr : DataPtr) (iodata : Nat → DataPtr) :
    Nat → DataPtr :=
  table_fill (stopdev + 1 - startdev) startdev datastructptr iodata

/-- Model of `floppy_init` on the emulator state: a new controller record (see `floppy_init`),
registered as data of the addresses 880..887. -/
def floppy_init_io (FDD_IMAGE_NAME : Option String) (FDD_IMAGE_RO fopen_ok : Bool)
    (e : Emulator) : Emulator :=
  { e with
    floppy := floppy_init FDD_IMAGE_NAME FDD_IMAGE_RO fopen_ok
    iodata := IO_Data_Add 880 887 DataPtr.floppy_dev e.iodata }

/-- Model of `hdd_init`: two zeroed controller records, registered as data of the addresses
01540..01547 and 0500..0507.  The allocations are assumed to succeed. -/
def hdd_init (e : Emulator) : Emulator :=
  let e1 := { e with hdd := hdd_data.zero, iodata := IO_Data_Add 0o1540 0o1547 DataPtr.hdd_dev e.iodata }
  { e1 with hdd2 := hdd_data.zero, iodata := IO_Data_Add 0o500 0o507 DataPtr.hdd_dev2 e1.iodata }

/-- Model of `Setup_IO_Handlers`: clear the 256 console pointers, bind every address to
`Default_IO` and a null data pointer, then bind the parity memory, the real-time clock, the
console and the floppy, run `floppy_init`, bind the hard disk and run `hdd_init`. -/
def Setup_IO_Handlers (FDD_IMAGE_NAME : Option String) (FDD_IMAGE_RO fopen_ok : Bool)
    (e : Emulator) : Emulator :=
  let e1 := { e with tty_arr := table_fill 256 0 none e.tty_arr }
  let e2 := { e1 with ioarr := IO_Handler_Add 0 65535 IOHandler.h_Default e1.ioarr }
  let e3 := { e2 with iodata := IO_Data_Add 0 65535 DataPtr.null e2.iodata }
  let e4 := { e3 with ioarr := IO_Handler_Add 4 7 IOHandler.h_Parity_Mem e3.ioarr }
  let e5 := { e4 with ioarr := IO_Handler_Add 8 11 IOHandler.h_RTC e4.ioarr }
  let e6 := { e5 with ioarr := IO_Handler_Add 192 199 IOHandler.h_Console e5.ioarr }
  let e7 := { e6 with ioarr := IO_Handler_Add 880 887 IOHandler.h_Floppy e6.ioarr }
  let e8 := floppy_init_io FDD_IMAGE_NAME FDD_IMAGE_RO fopen_ok e7
  let e9 := { e8 with ioarr := IO_Handler_Add 0o1540 0o1547 IOHandler.h_HDD e8.ioarr }
  hdd_init e9

/-- Replace the console record `tty_arr[0]`. -/
def Emulator.setTty0 (e : Emulator) (t : tty_io_data) : Emulator :=
  { e with tty_arr := fun i => if i = 0 then some t else e.tty_arr i }

/-- Assignment to `gA` in the emulator state. -/
def Emulator.setA (e : Emulator) (v : Nat) : Emulator :=
  { e with toMachine := set_gA e.toMachine v }

/-- Model of `Console_IO(ioadd)`; the register is selected by the whole address (0300..0307,
octal).  The io semaphore, the wake-up of the output thread and the `slowDown` delay are not
modelled. -/
def Console_IO (ioadd : Nat) (e : Emulator) : Emulator :=
  if ioadd = 0o300 then
    -- read input data
    match e.tty_arr 0 with
    | none => e.setA 0
    | some t =>
      if e.MODE_OPCOM ≠ 0 then e
      else if t.rcv_fp ≠ t.rcv_cp then
        let e1 := e.setA (t.rcv_arr t.rcv_cp &&& 0x00ff)
        let t1 := { t with rcv_cp := (t.rcv_cp + 1) % 256 }
        let t2 := if t1.rcv_fp = t1.rcv_cp
          then { t1 with in_status := t1.in_status &&& 0xfff7 } else t1
        e1.setTty0 t2
      else e.setA 0
  else if ioadd = 0o301 then e
  else if ioadd = 0o302 then
    -- read input status
    match e.tty_arr 0 with
    | none => e.setA 0
    | some t =>
      if e.MODE_OPCOM ≠ 0 then e.setA (t.in_status &&& 0xfff7)
      else e.setA t.in_status
  else if ioadd = 0o303 then
    -- set input control
    match e.tty_arr 0 with
    | none => e
    | some t =>
      let t1 := { t with in_control := gA e.toMachine }
      let t2 := if gA e.toMachine &&& 0x0004 ≠ 0
        then { t1 with in_status := t1.in_status ||| 0x0004 }
        else { t1 with in_status := t1.in_status &&& 0xfffb }
      e.setTty0 t2
  else if ioadd = 0o304 then e.setA 0
  else if ioadd = 0o305 then
    -- write data
    match e.tty_arr 0 with
    | none => e
    | some t =>
      let ch := gA e.toMachine &&& 0x007F
      e.setTty0 { t with
        snd_arr := fun i => if i = t.snd_fp then ch else t.snd_arr i
        snd_fp := (t.snd_fp + 1) % 256 }
  else if ioadd = 0o306 then
    -- read output status
    match e.tty_arr 0 with
    | none => e.setA 0
    | some t => (e.setA t.out_status).setTty0 { t with out_status := t.out_status &&& 0xFFFE }
  else if ioadd = 0o307 then
    -- set output control
    match e.tty_arr 0 with
    | none => e
    | some t => e.setTty0 { t with out_control := gA e.toMachine }
  else e

/-- The values that `n` successive reads of the console input register (address 0300) leave
in A, and the state after the last of them. -/
def console_reads : Nat → Emulator → List Nat × Emulator
  | 0, e => ([], e)
  | n + 1, e =>
    let e1 := Console_IO 0o300 e
    let r := console_reads n e1
    (gA e1.toMachine :: r.1, r.2)

/-- The array `telnet_setup` of `console_socket_thread`: nine `char` objects initialised with
`0xff, 0xfb, 0x01, 0xff, 0xfb, 0x03, 0xff, 0xfd, 0x0f3`. -/
def telnet_setup : List Int :=
  [toChar 0xff, toChar 0xfb, toChar 0x01, toChar 0xff, toChar 0xfb, toChar 0x03,
    toChar 0xff, toChar 0xfd, toChar 0x0f3]

/-- The bytes that `send(connected, telnet_setup, 9, 0)` puts on the connection: the object
representation of the first nine elements of the array. -/
def telnet_sent : List Nat := (telnet_setup.take 9).map (fun c => (c % 256).toNat)

/-- An emulator state around `machine0` with empty tables and no console. -/
def emulator0 : Emulator :=
  { machine0 with
    ioarr := fun _ => none
    iodata := fun _ => DataPtr.null
    tty_arr := fun _ => none
    hdd2 := hdd_data.zero
    MODE_OPCOM := 0 }

/-- A console record whose receive ring holds the two entries 0x141 and 0x42 from pointer
value 255 on, so that the second entry sits at index 0. -/
def consoleTty : tty_io_data :=
  { tty_io_data.zero with
    rcv_arr := fun i => if i = 255 then 0x141 else if i = 0 then 0x42 else 0
    rcv_fp := 1
    rcv_cp := 255
    in_status := 0x000c }

/-- The initial emulator state with `consoleTty` as its console. -/
def consoleEmu : Emulator := emulator0.setTty0 consoleTty

/-! ## nd100lib.c: `nd100emconf` -/

/-- The enumerators that `nd100emconf` assigns to `CurrentCPUType`. -/
inductive _CPUTYPE_ where
  | ND100
  | ND100CE
  | ND100CX
  | ND110
  | ND110CE
  | ND110CX
deriving DecidableEq

/-- The type `_BOOT_TYPE_` of nd100lib.h. -/
inductive _BOOT_TYPE_ where
  | BP
  | BPUN
  | FLOPPY
deriving DecidableEq

/-- A setting of the configuration library: a string, an integer, or a value of another
kind. -/
inductive config_setting_t where
  | str (s : String)
  | int (v : Int)
  | other
deriving DecidableEq

/-- A configuration that was read successfully: the result of `config_lookup` for every
path, `none` for a path that is not present. -/
def config_t : Type := String → Option config_setting_t

/-- The library call `config_setting_get_string`: a null pointer unless the setting is a
string. -/
def config_setting_get_string : config_setting_t → Option String
  | config_setting_t.str s => some s
  | _ => none

/-- The library call `config_setting_get_int`: 0 unless the setting is an integer. -/
def config_setting_get_int : config_setting_t → Int
  | config_setting_t.int v => v
  | _ => 0

/-- The global variables assigned by `nd100emconf`. -/
structure ConfGlobals where
  CurrentCPUType : _CPUTYPE_
  BootType : _BOOT_TYPE_
  STARTADDR : Nat
  debug : Int
  trace : Int
  DISASM : Int
  PANEL_PROCESSOR : Nat
  DAEMON : Int
  emulatemon : Int
  script_console : Option String
  FDD_IMAGE_NAME : Option String
  FDD_IMAGE_RO : Bool
  CONFIG_OK : Int

/-- The globals at program start: objects with static storage are zero-initialised, so the
enumerations hold their first enumerator, the pointers are null and `FDD_IMAGE_RO` is
false. -/
def ConfGlobals.start : ConfGlobals where
  CurrentCPUType := _CPUTYPE_.ND100
  BootType := _BOOT_TYPE_.BP
  STARTADDR := 0
  debug := 0
  trace := 0
  DISASM := 0
  PANEL_PROCESSOR := 0
  DAEMON := 0
  emulatemon := 0
  script_console := none
  FDD_IMAGE_NAME := none
  FDD_IMAGE_RO := false
  CONFIG_OK := 0

/-- The pattern `setting = config_lookup(..); if (setting) x = config_setting_get_int(setting);
else x = 0;`. -/
def conf_int (cfg : config_t) (path : String) : Int :=
  match cfg path with
  | some s => config_setting_get_int s
  | none => 0

/-- Model of `nd100emconf`.  The argument is `none` when `config_read_file` fails, in which
case the function returns 1 at once; otherwise it assigns the globals from the settings and
returns 0.  The allocation is assumed to succeed. -/
def nd100emconf (file : Option config_t) (g : ConfGlobals) : ConfGlobals × Int :=
  match file with
  | none => (g, 1)
  | some cfg =>
    let g1 := { g with CurrentCPUType :=
      (match cfg "cputype" with
      | some setting =>
        match config_setting_get_string setting with
        | some tmpstr =>
          if tmpstr = "nd110cx" then _CPUTYPE_.ND110CX
          else if tmpstr = "nd110ce" then _CPUTYPE_.ND110CE
          else if tmpstr = "nd110" then _CPUTYPE_.ND110
          else if tmpstr = "nd100cx" then _CPUTYPE_.ND100CX
          else if tmpstr = "nd100ce" then _CPUTYPE_.ND100CE
          else _CPUTYPE_.ND100
        | none => _CPUTYPE_.ND100
      | none => _CPUTYPE_.ND100) }
    let g2 := { g1 with BootType :=
      (match cfg "boot" with
      | some setting =>
        match config_setting_get_string setting with
        | some tmpstr =>
          if tmpstr = "bp" then _BOOT_TYPE_.BP
          else if tmpstr = "bpun" then _BOOT_TYPE_.BPUN
          else if tmpstr = "floppy" then _BOOT_TYPE_.FLOPPY
          else g1.BootType
        | none => g1.BootType
      | none => g1.BootType) }
    let g3 := { g2 with
      STARTADDR := (conf_int cfg "start" % 65536).toNat
      debug := conf_int cfg "debug"
      trace := conf_int cfg "trace"
      DISASM := conf_int cfg "disasm"
      PANEL_PROCESSOR := (conf_int cfg "panel" % 65536).toNat
      DAEMON := conf_int cfg "daemonize"
      emulatemon := conf_int cfg "emulatemon" }
    let g4 := { g3 with script_console :=
      (match cfg "script_console" with
      | some setting =>
        match config_setting_get_string setting with
        | some tmpstr => some tmpstr
        | none => g3.script_console
      | none => g3.script_console) }
    let g5 := { g4 with FDD_IMAGE_NAME :=
      (match cfg "floppy_image" with
      | some setting =>
        match config_setting_get_string setting with
        | some tmpstr => some tmpstr
        | none => g4.FDD_IMAGE_NAME
      | none => g4.FDD_IMAGE_NAME) }
    let g6 := { g5 with FDD_IMAGE_RO :=
      (match cfg "floppy_image_access" with
      | some setting =>
        match config_setting_get_string setting with
        | some tmpstr => if tmpstr = "rw" then false else g5.FDD_IMAGE_RO
        | none => true
      | none => true) }
    ({ g6 with CONFIG_OK := 1 }, 0)

/-- A configuration whose only setting is `floppy_image_access = "ro"` next to a floppy image
name. -/
def roConfig : config_t := fun path =>
  if path = "floppy_image_access" then some (config_setting_t.str "ro")
  else if path = "floppy_image" then some (config_setting_t.str "floppy.img")
  else none

/-! ## cpu_state.c: the snapshot file

Text is a list of characters.  A key is a C string, that is a list without the NUL
character.  The stream `fp` of the source is split into the unread part of the file (reading)
and the text written so far (writing). -/

/-- The terminating character of a C string. -/
def NUL : Char := Char.ofNat 0

/-- The newline character. -/
def NL : Char := Char.ofNat 10

/-- The C string held in a character array: the characters before the first NUL. -/
def cstr (l : List Char) : List Char := l.takeWhile (fun c => c != NUL)

/-- The members of `state`: the `load` flag and the `line` buffer (as the C string it holds);
the stream is the unread `input` and the written `output`. -/
structure state where
  load : Bool
  line : List Char
  input : List Char
  output : List Char

/-- The characters that `fgets` transfers when the buffer has room for `n` of them: up to `n`
characters, stopping after a newline; the second component is what stays unread. -/
def fgets_chars : Nat → List Char → List Char × List Char
  | 0, inp => ([], inp)
  | _ + 1, [] => ([], [])
  | n + 1, c :: cs =>
    if c = NL then ([c], cs)
    else ((c :: (fgets_chars n cs).1), (fgets_chars n cs).2)

/-- Model of `fgets(s->line, sizeof(s->line), s->fp)` with the 2048 byte buffer: at end of file
nothing is read and the buffer keeps its contents. -/
def fgets (s : state) : state :=
  if s.input = [] then s
  else { s with line := cstr (fgets_chars 2047 s.input).1, input := (fgets_chars 2047 s.input).2 }

/-- Model of `next`. -/
def next (s : state) : state := if s.load then fgets s else s

/-- The test `strncmp(s1, s2, n) == 0` on C strings. -/
def strncmp_eq (s1 s2 : List Char) (n : Nat) : Bool := s1.take n == s2.take n

/-- Model of `matches(s, prefix)`, renamed because `matches` is a reserved word: the text after
`key=` when the line starts with it.  A line that ends right after the key has its NUL at
index `i`. -/
def matches_key (s : state) (key : List Char) : Option (List Char) :=
  if s.load then
    if strncmp_eq s.line key key.length ∧ s.line.getD key.length NUL = '=' then
      some (s.line.drop (key.length + 1))
    else none
  else none

/-- The conversions `%o`, `%x`, `%d` of `printf` for a non-negative value, zero-padded to
`width` characters. -/
def fmt_u (base width n : Nat) : List Char :=
  List.replicate (width - (Nat.toDigits base n).length) '0' ++ Nat.toDigits base n

/-- The conversion `%d` (or `%ld`) of `printf`. -/
def fmt_d (v : Int) : List Char :=
  if v < 0 then '-' :: Nat.toDigits 10 v.natAbs else Nat.toDigits 10 v.natAbs

/-- Conversion to `int` (32 bits, two's complement). -/
def toInt (x : Int) : Int := (x + 2147483648) % 4294967296 - 2147483648

/-- The value of a character as a digit, letters counting from 10, as in `strtoul`. -/
def digitVal (c : Char) : Option Nat :=
  if 48 ≤ c.toNat ∧ c.toNat ≤ 57 then some (c.toNat - 48)
  else if 97 ≤ c.toNat ∧ c.toNat ≤ 122 then some (c.toNat - 87)
  else if 65 ≤ c.toNat ∧ c.toNat ≤ 90 then some (c.toNat - 55)
  else none

/-- The value of a character as a digit of the given base. -/
def digitOf (base : Nat) (c : Char) : Option Nat :=
  match digitVal c with
  | some d => if d < base then some d else none
  | none => none

/-- Accumulate the leading digits of a text. -/
def parseAcc (base : Nat) : Nat → List Char → Nat
  | acc, [] => acc
  | acc, c :: cs =>
    match digitOf base c with
    | some d => parseAcc base (acc * base + d) cs
    | none => acc

/-- The test `isspace` in the C locale. -/
def isspace (c : Char) : Bool := c.toNat = 32 ∨ (9 ≤ c.toNat ∧ c.toNat ≤ 13)

/-- Whether the text starts with `0x` or `0X` followed by a hexadecimal digit. -/
def hasHexMark : List Char → Bool
  | z :: x :: h :: _ => z = '0' ∧ (x = 'x' ∨ x = 'X') ∧ (digitOf 16 h).isSome
  | _ => false

/-- The integer conversion shared by `sscanf` (`%o`, `%x`, `%d`, `%i`) and `strtoul`: skip
white space, take at most `width` characters, an optional sign, for base 16 and base 0 an
optional `0x`, for base 0 a leading `0` selecting octal, then the digits.  The result is
`none` when there is no digit (matching failure).  The value is not reduced here; the callers
reduce it to the width of the object they store into. -/
def scan_number (base : Nat) (width : Option Nat) (str : List Char) : Option Int :=
  let s1 := str.dropWhile isspace
  let s2 := (match width with
    | some w => s1.take w
    | none => s1)
  let neg : Bool := s2.head? = some '-'
  let s3 := if s2.head? = some '-' ∨ s2.head? = some '+' then s2.tail else s2
  let marked : Bool := (base = 16 ∨ base = 0) ∧ hasHexMark s3
  let b := if marked then 16
    else if base = 0 then (if s3.head? = some '0' then 8 else 10)
    else base
  let s4 := if marked then s3.drop 2 else s3
  match s4 with
  | [] => none
  | c :: _ =>
    match digitOf b c with
    | none => none
    | some _ => some (if neg then - (parseAcc b 0 s4 : Int) else (parseAcc b 0 s4 : Int))

/-- Model of `strtoul(scan, NULL, 16)`: 0 when there is no digit; the result is an
`unsigned long`. -/
def strtoul16 (scan : List Char) : Nat :=
  (((scan_number 16 none scan).getD 0) % 18446744073709551616).toNat

/-- Model of `state_ulong`: on load, a matching line is converted with `%li` into the
64-bit target and the next line is read; on save, `key=%ld` is written. -/
def state_ulong (s : state) (key : List Char) (value : Nat) : state × Nat :=
  if s.load then
    match matches_key s key with
    | some str =>
      (next s, (match scan_number 0 none str with
        | some n => (n % 18446744073709551616).toNat
        | none => value))
    | none => (s, value)
  else
    ({ s with output := s.output ++ (key ++ ('=' :: fmt_d (toLong value)) ++ [NL]) }, value)

/-- Model of `state_int`: on load, a matching line is converted with `%i`; on save,
`key=%d` is written. -/
def state_int (s : state) (key : List Char) (value : Int) : state × Int :=
  if s.load then
    match matches_key s key with
    | some str =>
      (next s, (match scan_number 0 none str with
        | some n => toInt n
        | none => value))
    | none => (s, value)
  else
    ({ s with output := s.output ++ (key ++ ('=' :: fmt_d value) ++ [NL]) }, value)

/-- Model of `state_word`: on load, a matching line is converted with `%o` into the local
`tmp` (whose indeterminate initial value is `tmp0`) and `tmp & 0xffff` is stored; on save,
`key=0%o` is written. -/
def state_word (tmp0 : Int) (s : state) (key : List Char) (value : Nat) : state × Nat :=
  if s.load then
    match matches_key s key with
    | some str =>
      let tmp : Int := (match scan_number 8 none str with
        | some n => toInt n
        | none => tmp0)
      (next s, (tmp % 65536).toNat)
    | none => (s, value)
  else
    ({ s with output := s.output ++ (key ++ ('=' :: '0' :: fmt_u 8 0 value) ++ [NL]) }, value)

/-- Model of `state_bool`: on load, a matching line is converted with the format `d%d` (a
literal `d`, then a decimal number) into the local `tmp` and `tmp != 0` is stored; on save,
`key=1` or `key=0` is written. -/
def state_bool (tmp0 : Int) (s : state) (key : List Char) (value : Bool) : state × Bool :=
  if s.load then
    match matches_key s key with
    | some str =>
      let tmp : Int := (match str with
        | c :: r =>
          if c = 'd' then
            (match scan_number 10 none r with
            | some n => toInt n
            | none => tmp0)
          else tmp0
        | [] => tmp0)
      (next s, decide (tmp ≠ 0))
    | none => (s, value)
  else
    ({ s with output := s.output ++ (key ++ ('=' :: fmt_d (if value then 1 else 0)) ++ [NL]) },
      value)

/-- Model of `isMemEmpty(mem, size)`, the array being `value` from index `start` on. -/
def isMemEmpty (value : Nat → Nat) : Nat → Nat → Bool
  | _, 0 => true
  | start, n + 1 => if value start ≠ 0 then false else isMemEmpty value (start + 1) n

/-- The length `blockLen` of a memory block. -/
def blockLen : Nat := 512

/-- The loop `for (j = 0; j < blockLen; j++) fprintf(s->fp, "%02x", value[i+j]);` with `n`
iterations left. -/
def print_block (value : Nat → Nat) (i : Nat) : Nat → Nat → List Char
  | 0, _ => []
  | n + 1, j => fmt_u 16 2 (value (i + j)) ++ print_block value i n (j + 1)

/-- The text that the save path of `state_block` writes for the block at `i`:
`fprintf(s->fp, "%s-%08x=", key_prefix, i)`, the bytes of the block, and a newline. -/
def save_record ( key_prefix : List Char) (value : Nat → Nat) (i : Nat) : List Char :=
  key_prefix ++ ('-' :: fmt_u 16 8 i) ++ ('=' :: print_block value i blockLen 0) ++ [NL]

/-- The save loop of `state_block` with `n` iterations left: a record for every block that
`isMemEmpty` rejects. -/
def state_block_save ( key_prefix : List Char) (value : Nat → Nat) : Nat → Nat → List Char
  | 0, _ => []
  | n + 1, i =>
    (if !isMemEmpty value i blockLen then save_record key_prefix value i else []) ++
      state_block_save key_prefix value n (i + blockLen)

/-- The loop `for (j = 0; j < blockLen && *p; j++)` of the load path with `n` iterations
left: two characters are converted with `strtoul` and stored at `value[offset + j]`; a single
last character is dropped.  The result is `none` when the index is outside the array of
`size` bytes. -/
def load_block (size : Nat) (offset : Int) : Nat → Nat → List Char → (Nat → Nat) →
    Option (Nat → Nat)
  | 0, _, _, value => some value
  | _ + 1, _, [], value => some value
  | _ + 1, _, [_], value => some value
  | n + 1, j, c1 :: c2 :: p, value =>
    if 0 ≤ offset + j ∧ offset + j < size then
      load_block size offset n (j + 1) p
        (fun a => if a = (offset + j).toNat then strtoul16 [c1, c2] % 256 else value a)
    else none

/-- The body of the load loop of `state_block` for one line that starts with the key:
after a `-` the offset is converted with `%08x`, the text up to and including `=` is
skipped, and the block is loaded. -/
def load_line ( key_prefix : List Char) (size : Nat) (line : List Char) (value : Nat → Nat) :
    Option (Nat → Nat) :=
  match line.drop key_prefix.length with
  | [] => some value
  | c :: p =>
    if c = '-' then
      match scan_number 16 (some 8) p with
      | some n =>
        load_block size (toInt n) blockLen 0 ((p.dropWhile (fun c => c != '=')).drop 1) value
      | none => some value
    else some value

/-- The load loop `while (!strncmp(s->line, key_prefix, i)) { ...; next(s); }` with `fuel`
iterations allowed.  When the line matches at end of file, `next` changes nothing and the loop
never ends: the result is `none`, as it is for an access outside the array. -/
def state_block_load ( key_prefix : List Char) (size : Nat) :
    Nat → state → (Nat → Nat) → Option (state × (Nat → Nat))
  | 0, _, _ => none
  | fuel + 1, s, value =>
    if strncmp_eq s.line key_prefix key_prefix.length then
      match load_line key_prefix size s.line value with
      | none => none
      | some value1 =>
        if s.input = [] then none
        else state_block_load key_prefix size fuel (next s) value1
    else some (s, value)

/-- Model of `state_block(s, key_prefix, value, size)`, `value` being an array of `size`
bytes.  Every iteration of the load loop but the last reads at least one character, so
the length of the unread input plus one bounds their number.  The save loop reads whole
blocks: with a `size` that is not a multiple of `blockLen` it reads past the array, and the
result is `none`. -/
def state_block (s : state) ( key_prefix : List Char) (value : Nat → Nat) (size : Nat) :
    Option (state × (Nat → Nat)) :=
  if s.load then state_block_load key_prefix size (s.input.length + 1) s value
  else if size % blockLen = 0 then
    some ({ s with output := s.output ++ state_block_save key_prefix value (size / blockLen) 0 },
      value)
  else none

/-- The record format in the words of the specification: `n` written with exactly `k` digits
of the given base, most significant first. -/
def digitsFixed (base : Nat) : Nat → Nat → List Char
  | 0, _ => []
  | k + 1, n => digitsFixed base k (n / base) ++ [Nat.digitChar (n % base)]

/-- A state of the save path with nothing written yet. -/
def saveState : state := { load := false, line := [], input := [], output := [] }

/-- A memory image of two blocks whose only non-zero byte is 0xAB at index 513. -/
def sampleMem : Nat → Nat := fun a => if a = 513 then 0xAB else 0

/-! ## cpu_state.c: `cpustate` -/

/-- Modelled from the spec: the word view `n_Array` of the type `_NDRAM_` of nd100.h, which is
not among the examined sources; section 3: physical memory is an array of words that is also
addressable as bytes.  `cpustate` reaches the same object as bytes through `c_Array` and as
words through `n_Array`; the memory is kept as the bytes of `c_Array`, and on the
little-endian host assumed throughout word `k` is made of the bytes `2k` (low) and
`2k + 1` (high). -/
def n_Array (c_Array : Nat → Nat) (k : Nat) : Nat := c_Array (2 * k) + 256 * c_Array (2 * k + 1)

/-- Modelled from the spec: assignment of the `unsigned short` value `v` to `n_Array[k]`, see
`n_Array`. -/
def n_Array_set (c_Array : Nat → Nat) (k v : Nat) : Nat → Nat :=
  fun a => if a = 2 * k then v % 256 else if a = 2 * k + 1 then v / 256 % 256 else c_Array a

/-- The members of `struct tm` that `cpustate` reads. -/
structure tm where
  tm_sec : Int
  tm_min : Int
  tm_hour : Int
  tm_mday : Int
  tm_mon : Int
  tm_year : Int

/-- The objects that `cpustate` reaches through its pointer arguments: `*instr_counter`,
the bytes of `*VolatileMemory`, `*gReg`, the entries of `gPT->pt_arr` and the chain
`*gIdentChain`. -/
structure Snapshot where
  instr_counter : Nat
  c_Array : Nat → Nat
  gReg : CpuRegs
  pt_arr : Nat → Nat
  gIdentChain : List IdentChain

/-- A call `state_word(&s, key, &gReg->member)`. -/
def reg_word (tmp0 : Int) (key : List Char) (get : CpuRegs → Nat)
    (set : CpuRegs → Nat → CpuRegs) (p : state × CpuRegs) : state × CpuRegs :=
  ((state_word tmp0 p.1 key (get p.2)).1, set p.2 (state_word tmp0 p.1 key (get p.2)).2)

/-- A call `state_bool(&s, key, &gReg->member)`. -/
def reg_bool (tmp0 : Int) (key : List Char) (get : CpuRegs → Bool)
    (set : CpuRegs → Bool → CpuRegs) (p : state × CpuRegs) : state × CpuRegs :=
  ((state_bool tmp0 p.1 key (get p.2)).1, set p.2 (state_bool tmp0 p.1 key (get p.2)).2)

/-- The body of the inner register loop: `sprintf(key, "REG%02d.%02d", i, j)` and
`state_word(&s, key, &gReg->reg[i][j])`. -/
def reg_step (tmp0 : Int) (i : Nat) (p : state × CpuRegs) (j : Nat) : state × CpuRegs :=
  reg_word tmp0 ("REG".toList ++ fmt_u 10 2 i ++ ('.' :: fmt_u 10 2 j))
    (fun r => r.reg i j)
    (fun r v => { r with reg := fun l k => if l = i ∧ k = j then v else r.reg l k }) p

/-- The body of the outer register loop: the inner loop `for (j = 0; j < 16; j++)`. -/
def regs_row (tmp0 : Int) (p : state × CpuRegs) (i : Nat) : state × CpuRegs :=
  (List.range 16).foldl (reg_step tmp0 i) p

/-- The two nested loops over `gReg->reg[i][j]` with the keys `REG%02d.%02d`. -/
def state_regs (tmp0 : Int) (p : state × CpuRegs) : state × CpuRegs :=
  (List.range 16).foldl (regs_row tmp0) p

/-- The body of the loop over `gReg->reg_PCR[j]`: the key `PCR%02d` and `state_word`. -/
def pcr_step (tmp0 : Int) (p : state × CpuRegs) (j : Nat) : state × CpuRegs :=
  reg_word tmp0 ("PCR".toList ++ fmt_u 10 2 j) (fun r => r.reg_PCR j)
    (fun r v => { r with reg_PCR := fun k => if k = j then v else r.reg_PCR k }) p

/-- The loop over `gReg->reg_PCR[j]` with the keys `PCR%02d`. -/
def state_pcr (tmp0 : Int) (p : state × CpuRegs) : state × CpuRegs :=
  (List.range 16).foldl (pcr_step tmp0) p

/-- The calls `state_bool(&s, key, &gReg->member)` of `cpustate`, in source order. -/
def control_flags : List (String × (CpuRegs → Bool) × (CpuRegs → Bool → CpuRegs)) :=
  [("MIIC", fun r => r.mylock_IIC, fun r v => { r with mylock_IIC := v }),
   ("MPEA", fun r => r.mylock_PEA, fun r v => { r with mylock_PEA := v }),
   ("MPES", fun r => r.mylock_PES, fun r v => { r with mylock_PES := v }),
   ("MPGS", fun r => r.mylock_PGS, fun r v => { r with mylock_PGS := v }),
   ("HBRK", fun r => r.has_breakpoint, fun r v => { r with has_breakpoint := v }),
   ("HICN", fun r => r.has_instr_cntr, fun r v => { r with has_instr_cntr := v })]

/-- The calls `state_word(&s, key, &gReg->member)` of `cpustate` between the flags and the
`PCR` loop, in source order. -/
def control_words1 : List (String × (CpuRegs → Nat) × (CpuRegs → Nat → CpuRegs)) :=
  [("INCT", fun r => r.instructioncounter, fun r v => { r with instructioncounter := v }),
   ("MIR", fun r => r.myreg_IR, fun r v => { r with myreg_IR := v }),
   ("MPK", fun r => r.myreg_PK, fun r v => { r with myreg_PK := v }),
   ("MPFB", fun r => r.myreg_PFB, fun r v => { r with myreg_PFB := v }),
   ("PANS", fun r => r.reg_PANS, fun r v => { r with reg_PANS := v }),
   ("PANC", fun r => r.reg_PANC, fun r v => { r with reg_PANC := v }),
   ("OPR", fun r => r.reg_OPR, fun r v => { r with reg_OPR := v }),
   ("LMP", fun r => r.reg_LMP, fun r v => { r with reg_LMP := v }),
   ("PGS", fun r => r.reg_PGS, fun r v => { r with reg_PGS := v })]

/-- The calls `state_word(&s, key, &gReg->member)` of `cpustate` after the `PCR` loop, in
source order. -/
def control_words2 : List (String × (CpuRegs → Nat) × (CpuRegs → Nat → CpuRegs)) :=
  [("PVL", fun r => r.reg_PVL, fun r v => { r with reg_PVL := v }),
   ("IID", fun r => r.reg_IID, fun r v => { r with reg_IID := v }),
   ("IIE", fun r => r.reg_IIE, fun r v => { r with reg_IIE := v }),
   ("PID", fun r => r.reg_PID, fun r v => { r with reg_PID := v }),
   ("PIE", fun r => r.reg_PIE, fun r v => { r with reg_PIE := v }),
   ("CSR", fun r => r.reg_CSR, fun r v => { r with reg_CSR := v }),
   ("CCL", fun r => r.reg_CCL, fun r v => { r with reg_CCL := v }),
   ("ACTL", fun r => r.reg_ACTL, fun r v => { r with reg_ACTL := v }),
   ("LCIL", fun r => r.reg_LCIL, fun r v => { r with reg_LCIL := v }),
   ("ALD", fun r => r.reg_ALD, fun r v => { r with reg_ALD := v }),
   ("UCIL", fun r => r.reg_UCIL, fun r v => { r with reg_UCIL := v }),
   ("PES", fun r => r.reg_PES, fun r v => { r with reg_PES := v }),
   ("PGC", fun r => r.reg_PGC, fun r v => { r with reg_PGC := v }),
   ("PEA", fun r => r.reg_PEA, fun r v => { r with reg_PEA := v }),
   ("ECCR", fun r => r.reg_ECCR, fun r v => { r with reg_ECCR := v })]

/-- One call `state_bool(&s, key, &gReg->member)` of the table `control_flags`. -/
def flag_step (tmp0 : Int) (p : state × CpuRegs)
    (c : String × (CpuRegs → Bool) × (CpuRegs → Bool → CpuRegs)) : state × CpuRegs :=
  reg_bool tmp0 c.1.toList c.2.1 c.2.2 p

/-- One call `state_word(&s, key, &gReg->member)` of the tables `control_words1` and
`control_words2`. -/
def word_step (tmp0 : Int) (p : state × CpuRegs)
    (c : String × (CpuRegs → Nat) × (CpuRegs → Nat → CpuRegs)) : state × CpuRegs :=
  reg_word tmp0 c.1.toList c.2.1 c.2.2 p

/-- The calls of `cpustate` for the flags and control registers, in source order: the
flags, the first group of words, the `PCR` loop, the second group of words. -/
def state_control (tmp0 : Int) (p : state × CpuRegs) : state × CpuRegs :=
  control_words2.foldl (word_step tmp0)
    (state_pcr tmp0 (control_words1.foldl (word_step tmp0) (control_flags.foldl (flag_step tmp0) p)))

/-- The body of the loop over `gPT->pt_arr[i]`: the key `PT%03d` and `state_ulong`. -/
def pt_step (p : state × (Nat → Nat)) (i : Nat) : state × (Nat → Nat) :=
  ((state_ulong p.1 ("PT".toList ++ fmt_u 10 3 i) (p.2 i)).1,
    fun k => if k = i then (state_ulong p.1 ("PT".toList ++ fmt_u 10 3 i) (p.2 i)).2 else p.2 k)

/-- The loop over `gPT->pt_arr[i]` with the keys `PT%03d`; `ptCount` is the number of
entries, `sizeof(gPT->pt_arr) / sizeof(ulong)`. -/
def state_pt (ptCount : Nat) (p : state × (Nat → Nat)) : state × (Nat → Nat) :=
  (List.range ptCount).foldl pt_step p

/-- The loop over the IDENT chain on the save path, from entry number `i` on: the records
`IDC%03d` (caller id), `IDL%03d` (level) and `IDI%03d` (ident code) of every entry.  The
calls run on the save path, where they leave their targets unchanged. -/
def save_chain (tmp0 : Int) : Nat → List IdentChain → state → state
  | _, [], s => s
  | i, e :: rest, s =>
    save_chain tmp0 (i + 1) rest
      (state_word tmp0
        (state_int
          (state_int s ("IDC".toList ++ fmt_u 10 3 i) e.callerid).1
          ("IDL".toList ++ fmt_u 10 3 i) e.level).1
        ("IDI".toList ++ fmt_u 10 3 i) e.identcode).1

/-- The block at the end of `cpustate`: the six words from `n_Array[0125]` on receive the
members of the host's local time, converted to `unsigned short`. -/
def time_hack (now : tm) (c_Array : Nat → Nat) : Nat → Nat :=
  n_Array_set
    (n_Array_set
      (n_Array_set
        (n_Array_set
          (n_Array_set
            (n_Array_set c_Array 0o125 (toUShort now.tm_sec))
            (0o125 + 1) (toUShort now.tm_min))
          (0o125 + 2) (toUShort now.tm_hour))
        (0o125 + 3) (toUShort now.tm_mday))
      (0o125 + 4) (toUShort (now.tm_mon + 1)))
    (0o125 + 5) (toUShort (now.tm_year + 1900))

/-- The words of the specification on the time: the six memory words at octal 125, 126, 127,
130, 131, 132 hold seconds, minutes, hours, day of month, month numbered 1..12 and the
four-digit year of the local time `now`. -/
def holds_time (now : tm) (c_Array : Nat → Nat) : Prop :=
  (n_Array c_Array 0o125 : Int) = now.tm_sec ∧
  (n_Array c_Array 0o126 : Int) = now.tm_min ∧
  (n_Array c_Array 0o127 : Int) = now.tm_hour ∧
  (n_Array c_Array 0o130 : Int) = now.tm_mday ∧
  (n_Array c_Array 0o131 : Int) = now.tm_mon + 1 ∧
  1 ≤ n_Array c_Array 0o131 ∧ n_Array c_Array 0o131 ≤ 12 ∧
  (n_Array c_Array 0o132 : Int) = now.tm_year + 1900

/-- Model of `cpustate(load, instr_counter, VolatileMemory, gReg, gPT, gIdentChain)`.

`fp` is `none` when `fopen` fails, and then nothing happens; otherwise it holds the contents
of the file (used on load).  `line0` is the indeterminate initial content of the line buffer,
`tmp0` that of the locals `tmp`; `memSize` is `sizeof(VolatileMemory->c_Array)`, `ptCount` the
number of page table entries, `now` the host's local time.  The result is the objects after
the call and the text written to the file; it is `none` when `state_block` does not return.
On load nothing is done for the IDENT chain (the branch `if (load) { }` is empty). -/
def cpustate (load : Bool) (fp : Option (List Char)) (line0 : List Char) (tmp0 : Int)
    (memSize ptCount : Nat) (now : tm) (x : Snapshot) : Option (Snapshot × List Char) :=
  match fp with
  | none => some (x, [])
  | some content =>
    let s0 : state :=
      { load := load, line := line0, input := if load then content else [], output := [] }
    let s1 := if s0.load then next s0 else s0
    let a := state_ulong s1 "INSTR_COUNT".toList x.instr_counter
    match state_block a.1 "MEM".toList x.c_Array memSize with
    | none => none
    | some b =>
      let p := state_control tmp0 (state_regs tmp0 (b.1, x.gReg))
      let q := state_pt ptCount (p.1, x.pt_arr)
      let s9 := if load then q.1 else save_chain tmp0 0 x.gIdentChain q.1
      some ({ instr_counter := a.2, c_Array := time_hack now b.2, gReg := p.2, pt_arr := q.2,
              gIdentChain := x.gIdentChain }, s9.output)

/-- A snapshot with every object zero and one entry in the IDENT chain: level 11, ident
code 021, caller id 201. -/
def chainSnapshot : Snapshot :=
  { instr_counter := 0, c_Array := fun _ => 0, gReg := CpuRegs.zero, pt_arr := fun _ => 0,
    gIdentChain := [⟨11, 0o21, 201⟩] }

/-- The state of a freshly started emulator: every object zero and an empty IDENT chain. -/
def freshSnapshot : Snapshot :=
  { instr_counter := 0, c_Array := fun _ => 0, gReg := CpuRegs.zero, pt_arr := fun _ => 0,
    gIdentChain := [] }

/-- A local time: 2024-02-29 23:59:58. -/
def sampleTime : tm :=
  { tm_sec := 58, tm_min := 59, tm_hour := 23, tm_mday := 29, tm_mon := 1, tm_year := 124 }

/-- The later state is on the save path and its output extends the output of the earlier
one. -/
def state.grows (s s1 : state) : Prop := s1.load = false ∧ ∃ suf, s1.output = s.output ++ suf

/-- The three records of the IDENT chain entry of `chainSnapshot`. -/
def chainText : List Char :=
  "IDC000=201".toList ++ NL :: ("IDL000=11".toList ++ NL :: ("IDI000=021".toList ++ [NL]))

/-! ## io.c: the console input workers, `HDD_IO`, and runs of the floppy controller -/

/-- The free space that `console_stdio_in` and `console_socket_in` compute from the ring
pointers (`unsigned char`), in signed arithmetic:
`numbytes = (cp < pp) ? 256-pp+cp-2 : (pp < cp) ? cp-pp-2 : 254;`
`numbytes = (numbytes > 0) ? numbytes : 0;`. -/
def console_numbytes (pp cp : Nat) : Int :=
  let numbytes : Int :=
    if cp < pp then 256 - (pp : Int) + (cp : Int) - 2
    else if pp < cp then (cp : Int) - (pp : Int) - 2
    else 254
  if numbytes > 0 then numbytes else 0

/-- The loop `parity = 0; for (cnt2 = 0; cnt2 < 8; cnt2++) parity ^= ((ch >> cnt2) & 1);` on the
bits 0..7 of `ch`. -/
def parity_loop (bits : Nat) : Nat :=
  (List.range 8).foldl (fun parity cnt2 => parity ^^^ ((bits >>> cnt2) &&& 1)) 0

/-- What `console_stdio_in` does with one character for the word size selection
`sel = (control & 0x1800) >> 11`: line feed becomes carriage return, the character is masked
(`sel` 1, 2, 3: `0x7f`, `0x3f`, `0x1f`; 0: not at all), and under the constant guard `if(1)`
bit 7 is set when the parity loop yields 1.  `ch` is a `char`; the bit operations act on its
bits 0..7, `(ch % 256).toNat`, and the result is converted back to `char`. -/
def console_stdio_ch (sel : Nat) (ch : Int) : Int :=
  let ch1 : Int := if ch = 10 then 13 else ch
  let bits1 : Nat := (ch1 % 256).toNat
  let bits2 : Nat :=
    if sel = 0 then bits1
    else if sel = 1 then bits1 &&& 0x7f
    else if sel = 2 then bits1 &&& 0x3f
    else bits1 &&& 0x1f
  let bits3 : Nat := if parity_loop bits2 ≠ 0 then bits2 ||| 0x80 else bits2
  toChar (bits3 : Int)

/-- The word that `console_stdio_in` stores in the receive ring for the input character `ch`
under the input control word `control`: `tty_arr[0]->rcv_arr[pp] = ch;` converts the `char`
to `unsigned short`. -/
def console_stdio_store (control : Nat) (ch : Int) : Nat :=
  toUShort (console_stdio_ch ((control &&& 0x1800) >>> 11) ch)

/-- The number of 1 bits among the bits 0..7 of `b`, as the specification counts them. -/
def bitCount8 (b : Nat) : Nat :=
  (b >>> 0) % 2 + (b >>> 1) % 2 + (b >>> 2) % 2 + (b >>> 3) % 2 + (b >>> 4) % 2 + (b >>> 5) % 2
    + (b >>> 6) % 2 + (b >>> 7) % 2

/-- Specification side of the stored character: the input character, line feed replaced by
carriage return,
masked to the word size selected by `sel`, the value of bits 11..12 of the control word
(8, 7, 6 or 5 bits). -/
def maskedChar (sel : Nat) (ch : Int) : Nat :=
  ((if ch = 10 then (13 : Int) else ch) % 256).toNat %
    (if sel = 0 then 256 else if sel = 1 then 128 else if sel = 2 then 64 else 32)

/-- The byte offset in the image that `sectorread` and `sectorwrite` compute:
`flat_sector = (((int)cyl)+((int)side))*8+((int)sector); offset = flat_sector*512;`. -/
def sector_offset (cyl side sector : Int) : Int :=
  ((toChar cyl + toChar side) * 8 + toChar sector) * 512

/-- Model of `hdd_dev_clear`: `memset` to zero, then `on_cylinder = false` and
`finished = true`. -/
def hdd_dev_clear : hdd_data :=
  { hdd_data.zero with on_cylinder := false, finished := true }

/-- The status word of `IOX` read status (register 4 of `HDD_IO`). -/
def hdd_status (dev : hdd_data) : Nat :=
  let error := dev.err_hw || dev.err_data || dev.err_compare || dev.err_timeout
    || dev.err_abnormal || dev.err_ill_load || dev.err_disk_unit || dev.err_dma_channel
    || dev.err_addr_mismatch
  0 ||| bitIf dev.irq_en 0 ||| bitIf dev.err_irq_en 1 ||| bitIf dev.active 2
    ||| bitIf dev.finished 3 ||| bitIf error 4 ||| bitIf dev.err_ill_load 5
    ||| bitIf dev.err_timeout 6 ||| bitIf dev.err_hw 7 ||| bitIf dev.err_addr_mismatch 8
    ||| bitIf dev.err_data 9 ||| bitIf dev.err_compare 10 ||| bitIf dev.err_dma_channel 11
    ||| bitIf dev.err_abnormal 12 ||| bitIf dev.err_disk_unit 13 ||| bitIf dev.on_cylinder 14

/-- The effect of register 5 of `HDD_IO` (write control word `acc`) on the controller, and
whether `sem_hdd` is posted: bit 4 clears the device, then the word is stored and decoded,
and `if (dev->active && dev->finished) { dev->finished = false; nd_sem_post(&sem_hdd); }`. -/
def hdd_wcwd (acc : Nat) (dev : hdd_data) : hdd_data × Bool :=
  let d1 := if acc &&& (1 <<< 4) ≠ 0 then
    { hdd_dev_clear with on_cylinder := true, finished := true, active := false } else dev
  let d2 := { d1 with
    cwr := acc
    unit_select := (((acc &&& 0x180) >>> 7 : Nat) : Int)
    opcode := (acc &&& 0x7800) >>> 11
    active := decide (acc &&& (1 <<< 2) ≠ 0)
    irq_en := decide (acc &&& 1 ≠ 0) }
  if d2.active && d2.finished then ({ d2 with finished := false }, true) else (d2, false)

/-- Model of `HDD_IO(ioadd)` on the controller registered for the addresses 01540..01547;
the register is selected by `ioadd & 7`.  The second component tells whether `sem_hdd` was
posted, which wakes the worker modelled by `hdd_thread_pass`.  The io semaphore is assumed
to work.  `mem_addr` and `word_count` are `uint`; shifts are taken on the bit pattern. -/
def HDD_IO (ioadd : Nat) (m : Machine) : Machine × Bool :=
  let a := ioadd &&& 0x07
  let dev := m.hdd
  if a = 0 then
    -- Read Mem Addr / Word count
    let v :=
      if dev.cwr &&& 0x8000 ≠ 0 then
        if !dev.second_word then dev.word_count &&& 0xffff else (dev.word_count >>> 16) &&& 0xff
      else
        if !dev.second_word then dev.mem_addr &&& 0xffff else (dev.mem_addr >>> 16) &&& 0xff
    let m1 := set_gA m v
    ({ m1 with hdd := { dev with second_word := !dev.second_word } }, false)
  else if a = 1 then
    -- Load Mem Addr / Word count
    let d1 :=
      if dev.cwr &&& 0x8000 ≠ 0 then
        { dev with word_count := ((dev.word_count <<< 16) &&& 0x00ff0000) ||| gA m }
      else
        { dev with mem_addr := ((dev.mem_addr <<< 16) &&& 0x00ff0000) ||| gA m }
    ({ m with hdd := { d1 with second_word := !d1.second_word } }, false)
  else if a = 2 then
    -- Read Seek Condition / Read ECC Count
    if dev.cwr &&& 0x8000 ≠ 0 then (m, false)
    else
      (set_gA m (((0 ||| 0x0 ||| (((dev.unit_select % 4).toNat) <<< 8)) ||| (1 <<< 12)) % 65536),
        false)
  else if a = 3 then
    -- Load Block Address I / Load Block Address II
    if dev.cwr &&& 0x8000 ≠ 0 then
      ({ m with hdd := { dev with track := gA m } }, false)
    else
      ({ m with hdd := { dev with sector := gA m &&& 0xff, surface := (gA m >>> 8) &&& 0xff } },
        false)
  else if a = 4 then
    -- Read Status / Read ECC Pattern
    if dev.cwr &&& 0x8000 ≠ 0 then (set_gA m 0xF800, false)
    else
      let d1 := { dev with second_word := false }
      let m1 := set_gA m (hdd_status d1)
      ({ m1 with hdd := d1 }, false)
  else if a = 5 then
    -- Write Control Word
    (({ m with hdd := (hdd_wcwd (gA m) dev).1 }), (hdd_wcwd (gA m) dev).2)
  else if a = 6 then
    -- Read Block Address I / Read Block Address II
    if dev.cwr &&& 0x8000 ≠ 0 then (set_gA m dev.track, false)
    else (set_gA m ((dev.sector &&& 0xff) ||| ((dev.surface <<< 8) &&& 0xff00)), false)
  else
    -- Load Word Count / Load ECC Control
    if dev.cwr &&& 0x8000 ≠ 0 then (m, false)
    else
      let d1 :=
        if dev.second_word then
          { dev with word_count := (dev.word_count &&& 0xffff) ||| ((gA m <<< 16) &&& 0xff0000) }
        else
          { dev with word_count := (dev.word_count &&& 0xff0000) ||| gA m }
      ({ m with hdd := { d1 with second_word := !d1.second_word } }, false)

/-- A machine after `setup_cpu` and `hdd_init`, with `A` in the A register of level 0. -/
def hddMachine (A : Nat) : Machine :=
  { machine0 with gReg := machine0.gReg.setReg 0 _A A }

/-- The drive selection of `IOX WDAD` with bit 0 of A set (register 5 of `Floppy_IO`), up to
the point where the unit is accessed: `tmp = (gA >> 8) & 0x07; if (tmp < 4)
dev->selected_drive = tmp; if ((gA >> 11) & 0x01) dev->selected_drive = -1;`. -/
def wdad_select (A : Nat) (dev : floppy_data) : floppy_data :=
  let tmp := (A >>> 8) &&& 0x07
  let d1 := if tmp < 4 then { dev with selected_drive := (tmp : Int) } else dev
  if (A >>> 11) &&& 0x01 ≠ 0 then { d1 with selected_drive := -1 } else d1

/-- One event in the life of the floppy controller: the CPU executes `IOX ioadd` on a floppy
address with `A` in the A register; the worker `floppy_thread` makes one pass (`tmp0` is the
value of the uninitialised local of `sectorread`); or the rest of the emulator runs and
leaves the machine as `m1` except for the controller record, which only `Floppy_IO` and the
worker touch. -/
inductive FloppyOp where
  | iox (A ioadd : Nat)
  | pass (tmp0 : Nat)
  | other (m1 : Machine)

/-- The effect of one event on the worker's local `unit` and the machine; `none` is
undefined behaviour. -/
def floppy_step (s : UnitPtr × Machine) : FloppyOp → Option (UnitPtr × Machine)
  | .iox A ioadd => ( Floppy_IO ioadd (set_gA s.2 A)).map (fun m => (s.1, m))
  | .pass tmp0 => floppy_thread_pass tmp0 s.1 s.2
  | .other m1 => some (s.1, { m1 with floppy := s.2.floppy })

/-- A sequence of events, from the left. -/
def floppy_run : List FloppyOp → UnitPtr × Machine → Option (UnitPtr × Machine)
  | [], s => some s
  | op :: ops, s => (floppy_step s op).bind (floppy_run ops)

/-- Whether an event is an `IOX WDAD` that writes the drive address 3 without the deselect
bit 11: the one event for which `floppy_step` is undefined on the states reached from
`floppy_init`.  The A register holds `A` as an `unsigned short`. -/
def FloppyOp.selects_drive_3 : FloppyOp → Bool
  | .iox A ioadd =>
    decide (ioadd &&& 0x07 = 5) && decide ((A % 65536) &&& 0x1 ≠ 0) &&
      decide (((A % 65536) >>> 8) &&& 0x07 = 3) && decide (((A % 65536) >>> 11) &&& 0x01 = 0)
  | _ => false

/-- The invariant of the floppy controller record `dev` and the worker's local `unit`: the
buffer has `FDD_BUFSIZE` words, `bufptr` and `bufptr_read` index it, `bufptr_read` is a
multiple of 256, a busy controller has a command byte in 1..255, the selected drive is -1 or
indexes the unit array, the three unit pointers are not null, and the worker's pointer is
null or points to one of the units. -/
def floppy_inv (unit : UnitPtr) (dev : floppy_data) : Prop :=
  dev.buff.length = FDD_BUFSIZE ∧
  (0 ≤ dev.bufptr ∧ dev.bufptr < (FDD_BUFSIZE : Int)) ∧
  (0 ≤ dev.bufptr_read ∧ dev.bufptr_read < (FDD_BUFSIZE : Int) ∧ dev.bufptr_read % 256 = 0) ∧
  (dev.busy = true → 1 ≤ dev.command ∧ dev.command ≤ 255) ∧
  (dev.selected_drive = -1 ∨ (0 ≤ dev.selected_drive ∧ dev.selected_drive < 3)) ∧
  (∀ k : Nat, k < 3 → ∃ x, dev.unit.getD k none = some x) ∧
  (match unit with
   | .wild => False
   | .null => True
   | .unit k => k < 3)

/-- A machine with the read-only image `floppy.img` in unit 0 (`floppy_init` with
`FDD_IMAGE_RO` set), a buffer full of the word 0x4142, the controller busy with the command
WRITE DATA (4), and image 0 on the host holding 512 zero bytes. -/
def roFloppyMachine : Machine :=
  { machine0 with
    floppy := { floppy_init (some "floppy.img") true true with
      buff := List.replicate FDD_BUFSIZE 0x4142
      busy := true
      command := 4 }
    floppyImages := img512 }

/-- A freshly initialised controller after a track difference of 1 towards lower tracks has
been written for unit 0 and the command SEEK (32) has been started. -/
def seekDev : floppy_data :=
  { floppy_init none false false with
    busy := true
    command := 32
    unit := [some ⟨none, false, false, 0, 0, 1, 0⟩, some ⟨none, false, false, 0, 0, 0, 0⟩,
      some ⟨none, false, false, 0, 0, 0, 0⟩] }

/-- A short session with the controller: clear the buffer address, write a word to the
buffer, start READ DATA, let the worker run, read a word from the buffer, select drive 1,
set a track difference, start SEEK, and let the worker run again. -/
def floppySession : List FloppyOp :=
  [.iox 0x0020 0o1563, .iox 0x1234 0o1561, .iox 0x1000 0o1563, .pass 0, .iox 0 0o1560,
   .iox 0x0101 0o1565, .iox 0x8500 0o1565, .other machine0, .iox 0x2002 0o1563, .pass 0]

/-! # Theorems

All definitions of the embedding are above this line; below are the lemmas and the
statements proved from them. -/

/-! ## Lemmas on bytes, files and the sector loops -/

theorem and_ff00_shift (x : Nat) : (x &&& 0xff00) >>> 8 = x / 256 % 256 := by
  have e : (x &&& 0xff00) >>> 8 = (x >>> 8) &&& (2^8 - 1) := by
    apply Nat.eq_of_testBit_eq
    intro i
    have : (0xff00 : Nat) = (2^8 - 1) <<< 8 := by decide
    rw [this]
    simp only [Nat.testBit_shiftRight, Nat.testBit_and, Nat.testBit_shiftLeft]
    have : 8 + i - 8 = i := by omega
    simp [this]
  rw [e, Nat.and_pow_two_sub_one_eq_mod, Nat.shiftRight_eq_div_pow]

theorem and_ff (x : Nat) : x &&& 0x00ff = x % 256 := by
  have : (0xff : Nat) = 2^8 - 1 := by decide
  rw [this, Nat.and_pow_two_sub_one_eq_mod]

theorem swapBytes_eq (x : Nat) : swapBytes x = x / 256 % 256 + x % 256 * 256 := by
  unfold swapBytes
  simp only [and_ff00_shift, and_ff]
  rw [Nat.or_comm, Nat.shiftLeft_eq]
  have h := Nat.mul_add_lt_is_or (by omega : x / 256 % 256 < 2 ^ 8) (x % 256)
  have e : x % 256 * 2 ^ 8 = 2 ^ 8 * (x % 256) := by ring
  rw [e, ← h]
  omega

theorem swapBytes_lo (x : Nat) : swapBytes x % 256 = x / 256 % 256 := by
  rw [swapBytes_eq]; omega

theorem swapBytes_hi (x : Nat) : swapBytes x / 256 % 256 = x % 256 := by
  rw [swapBytes_eq, Nat.add_mul_div_right _ _ (by decide : 0 < 256),
    Nat.div_eq_of_lt (Nat.mod_lt _ (by decide))]
  omega

theorem swapBytes_pair (b0 b1 : Nat) (h0 : b0 < 256) (h1 : b1 < 256) :
    swapBytes (b0 + 256 * b1) = b0 * 256 + b1 := by
  rw [swapBytes_eq]
  have e1 : (b0 + 256 * b1) / 256 = b1 := by omega
  have e2 : (b0 + 256 * b1) % 256 = b0 := by omega
  rw [e1, e2]; omega

theorem getD_set (l : List Nat) (i j v : Nat) (h : i < l.length) :
    (l.set i v).getD j 0 = if j = i then v else l.getD j 0 := by
  simp only [List.getD_eq_getElem?_getD, List.getElem?_set]
  by_cases e : i = j
  · subst e; simp [h]
  · have : ¬ j = i := fun h => e h.symm
    simp [e, this]

theorem putByte_length (d : List Nat) (p b : Nat) :
    (putByte d p b).length = max d.length (p + 1) := by
  unfold putByte
  split
  · simp; omega
  · simp; omega

theorem putByte_getD (d : List Nat) (p b j : Nat) :
    (putByte d p b).getD j 0 = if j = p then b else d.getD j 0 := by
  unfold putByte
  split
  · rename_i h; exact getD_set d p j b h
  · rename_i h
    simp only [List.getD_eq_getElem?_getD]
    by_cases hj : j < d.length
    · have : ¬ j = p := by omega
      simp [this, List.getElem?_append_left, hj, List.append_assoc]
    · by_cases hp : j = p
      · subst hp
        have : (d ++ List.replicate (j - d.length) 0).length = j := by simp; omega
        rw [List.getElem?_append_right (by omega)]
        simp [this]
      · simp only [hp, if_false]
        have h1 : d[j]? = none := by simp; omega
        rw [h1]
        by_cases hlt : j < p
        · rw [List.append_assoc, List.getElem?_append_right (by omega)]
          rw [List.getElem?_append_left (by simp; omega)]
          simp only [List.getElem?_replicate]
          split <;> rfl
        · have : (d ++ List.replicate (p - d.length) 0 ++ [b])[j]? = none := by
            simp; omega
          rw [this]

theorem fwrite_u16_pos (f : FILE) (w : Nat) : (fwrite_u16 f w).pos = f.pos + 2 := rfl

theorem fwrite_u16_length (f : FILE) (w : Nat) :
    (fwrite_u16 f w).data.length = max f.data.length (f.pos + 2) := by
  simp only [fwrite_u16, putByte_length]; omega

theorem fwrite_u16_getD (f : FILE) (w j : Nat) :
    (fwrite_u16 f w).data.getD j 0 =
      if j = f.pos then w % 256 else if j = f.pos + 1 then w / 256 % 256
      else f.data.getD j 0 := by
  simp only [fwrite_u16, putByte_getD]
  by_cases h1 : j = f.pos
  · have : ¬ j = f.pos + 1 := by omega
    simp [h1]
  · simp [h1]


theorem sectorwrite_loop_spec (n : Nat) : ∀ (f : FILE) (mem : List Nat) (addr : Nat),
    (sectorwrite_loop n f mem addr).pos = f.pos + 2 * n ∧
    (sectorwrite_loop n f mem addr).data.length
      = (if n = 0 then f.data.length else max f.data.length (f.pos + 2 * n)) ∧
    ∀ j, (sectorwrite_loop n f mem addr).data.getD j 0 =
      if f.pos ≤ j ∧ j < f.pos + 2 * n then beByte mem addr (j - f.pos) else f.data.getD j 0 := by
  induction n with
  | zero =>
    intro f mem addr
    refine ⟨rfl, rfl, fun j => ?_⟩
    have : ¬ (f.pos ≤ j ∧ j < f.pos + 2 * 0) := by omega
    rw [if_neg this]; rfl
  | succ n ih =>
    intro f mem addr
    obtain ⟨h1, h2, h3⟩ := ih (fwrite_u16 f (swapBytes (mem.getD addr 0))) mem (addr + 1)
    simp only [sectorwrite_loop]
    refine ⟨?_, ?_, fun j => ?_⟩
    · rw [h1, fwrite_u16_pos]; omega
    · rw [h2, fwrite_u16_length, fwrite_u16_pos]
      by_cases hn : n = 0
      · subst hn; simp
      · rw [if_neg hn, if_neg (by omega)]; omega
    · rw [h3, fwrite_u16_pos, fwrite_u16_getD, swapBytes_lo, swapBytes_hi]
      by_cases c1 : j = f.pos
      · subst c1
        have a : ¬ (f.pos + 2 ≤ f.pos ∧ f.pos < f.pos + 2 + 2 * n) := by omega
        have b : f.pos ≤ f.pos ∧ f.pos < f.pos + 2 * (n + 1) := by omega
        rw [if_neg a, if_pos b, if_pos rfl]
        simp [beByte]
      · by_cases c2 : j = f.pos + 1
        · subst c2
          have a : ¬ (f.pos + 2 ≤ f.pos + 1 ∧ f.pos + 1 < f.pos + 2 + 2 * n) := by omega
          have b : f.pos ≤ f.pos + 1 ∧ f.pos + 1 < f.pos + 2 * (n + 1) := by omega
          rw [if_neg a, if_pos b, if_neg c1, if_pos rfl]
          simp [beByte]
        · by_cases c3 : f.pos + 2 ≤ j ∧ j < f.pos + 2 + 2 * n
          · have b : f.pos ≤ j ∧ j < f.pos + 2 * (n + 1) := by omega
            simp only [c3, b, if_true, and_self, beByte]
            have e1 : (j - (f.pos + 2)) % 2 = (j - f.pos) % 2 := by omega
            have e2 : addr + 1 + (j - (f.pos + 2)) / 2 = addr + (j - f.pos) / 2 := by omega
            rw [e1, e2]
          · have b : ¬ (f.pos ≤ j ∧ j < f.pos + 2 * (n + 1)) := by omega
            simp only [c3, b, if_false, c1, c2]

theorem fread_u16_full (f : FILE) (tmp : Nat) (h : f.pos + 2 ≤ f.data.length) :
    fread_u16 f tmp
      = ({ f with pos := f.pos + 2 }, f.data.getD f.pos 0 + 256 * f.data.getD (f.pos + 1) 0) := by
  unfold fread_u16; rw [if_pos h]

theorem sectorread_loop_spec (n : Nat) : ∀ (f : FILE) (tmp : Nat) (mem : List Nat) (addr : Nat),
    f.pos + 2 * n ≤ f.data.length → addr + n ≤ mem.length →
    (sectorread_loop n f tmp mem addr).length = mem.length ∧
    ∀ j, (sectorread_loop n f tmp mem addr).getD j 0 =
      if addr ≤ j ∧ j < addr + n then
        swapBytes (f.data.getD (f.pos + 2 * (j - addr)) 0
          + 256 * f.data.getD (f.pos + 2 * (j - addr) + 1) 0)
      else mem.getD j 0 := by
  induction n with
  | zero =>
    intro f tmp mem addr _ _
    refine ⟨rfl, fun j => ?_⟩
    have : ¬ (addr ≤ j ∧ j < addr + 0) := by omega
    rw [if_neg this]; rfl
  | succ n ih =>
    intro f tmp mem addr hf hm
    simp only [sectorread_loop]
    rw [fread_u16_full f tmp (by omega)]
    obtain ⟨h1, h2⟩ := ih { f with pos := f.pos + 2 }
      (f.data.getD f.pos 0 + 256 * f.data.getD (f.pos + 1) 0)
      (mem.set addr (swapBytes (f.data.getD f.pos 0 + 256 * f.data.getD (f.pos + 1) 0)))
      (addr + 1) (by simp only; omega) (by rw [List.length_set]; omega)
    refine ⟨by rw [h1, List.length_set], fun j => ?_⟩
    rw [h2]
    by_cases c1 : addr + 1 ≤ j ∧ j < addr + 1 + n
    · have b : addr ≤ j ∧ j < addr + (n + 1) := by omega
      rw [if_pos c1, if_pos b]
      have e : f.pos + 2 + 2 * (j - (addr + 1)) = f.pos + 2 * (j - addr) := by omega
      simp only [e]
    · rw [if_neg c1, getD_set _ _ _ _ (by omega)]
      by_cases c2 : j = addr
      · subst c2
        have b : j ≤ j ∧ j < j + (n + 1) := by omega
        rw [if_pos rfl, if_pos b]
        simp
      · have b : ¬ (addr ≤ j ∧ j < addr + (n + 1)) := by omega
        rw [if_neg c2, if_neg b]

theorem window_length (d : List Nat) (pos k : Nat) :
    ((d.drop pos).take k).length = min k (d.length - pos) := by
  rw [List.length_take, List.length_drop]

theorem window_getD (d : List Nat) (pos k i : Nat) (hi : i < k) :
    ((d.drop pos).take k).getD i 0 = d.getD (pos + i) 0 := by
  simp only [List.getD_eq_getElem?_getD, List.getElem?_take, List.getElem?_drop, hi, if_true]

theorem window_step (d : List Nat) (pos k e : Nat) :
    (d.drop (pos + e)).take k = (((d.drop pos).take (k + e)).drop e) := by
  rw [List.drop_take, ← List.drop_drop]
  simp

theorem fread_u16_window (d d1 : List Nat) (pos pos1 k tmp : Nat) (hk : 2 ≤ k)
    (h : (d.drop pos).take k = (d1.drop pos1).take k) :
    ∃ e v, e ≤ 2 ∧ fread_u16 ⟨d, pos⟩ tmp = (⟨d, pos + e⟩, v) ∧
      fread_u16 ⟨d1, pos1⟩ tmp = (⟨d1, pos1 + e⟩, v) := by
  have hl := congrArg List.length h
  rw [window_length, window_length] at hl
  have g0 := window_getD d pos k 0 (by omega)
  have g1 := window_getD d pos k 1 (by omega)
  have g0' := window_getD d1 pos1 k 0 (by omega)
  have g1' := window_getD d1 pos1 k 1 (by omega)
  rw [h] at g0 g1
  rw [g0'] at g0
  rw [g1'] at g1
  simp only [Nat.add_zero] at g0
  unfold fread_u16
  by_cases c2 : pos + 2 ≤ d.length
  · have c2' : pos1 + 2 ≤ d1.length := by omega
    simp only [c2, c2', if_true]
    exact ⟨2, _, Nat.le_refl _, rfl, by rw [g0, g1]⟩
  · have c2' : ¬ pos1 + 2 ≤ d1.length := by omega
    simp only [c2, c2', if_false]
    by_cases c1 : pos + 1 ≤ d.length
    · have c1' : pos1 + 1 ≤ d1.length := by omega
      simp only [c1, c1', if_true]
      exact ⟨1, _, by omega, rfl, by rw [g0]⟩
    · have c1' : ¬ pos1 + 1 ≤ d1.length := by omega
      simp only [c1, c1', if_false]
      exact ⟨0, _, by omega, rfl, rfl⟩

theorem sectorread_loop_window (n : Nat) : ∀ (d d1 : List Nat) (pos pos1 tmp : Nat)
    (mem : List Nat) (addr : Nat),
    (d.drop pos).take (2 * n) = (d1.drop pos1).take (2 * n) →
    sectorread_loop n ⟨d, pos⟩ tmp mem addr = sectorread_loop n ⟨d1, pos1⟩ tmp mem addr := by
  induction n with
  | zero => intro _ _ _ _ _ _ _ _; rfl
  | succ n ih =>
    intro d d1 pos pos1 tmp mem addr h
    obtain ⟨e, v, he, h1, h2⟩ := fread_u16_window d d1 pos pos1 (2 * (n + 1)) tmp (by omega) h
    simp only [sectorread_loop, h1, h2]
    apply ih
    rw [window_step d pos (2 * n) e, window_step d1 pos1 (2 * n) e]
    have e1 : ((d.drop pos).take (2 * n + e)) = ((d.drop pos).take (2 * (n + 1))).take (2 * n + e) := by
      rw [List.take_take]; congr 1; omega
    have e2 : ((d1.drop pos1).take (2 * n + e)) = ((d1.drop pos1).take (2 * (n + 1))).take (2 * n + e) := by
      rw [List.take_take]; congr 1; omega
    rw [e1, e2, h]
theorem ext_getD (l1 l2 : List Nat) (hl : l1.length = l2.length)
    (h : ∀ j, j < l1.length → l1.getD j 0 = l2.getD j 0) : l1 = l2 := by
  apply List.ext_getElem hl
  intro j h1 h2
  have := h j h1
  rw [List.getD_eq_getElem _ _ h1, List.getD_eq_getElem _ _ h2] at this
  exact this


theorem fseek_fst (d : List Nat) (offset : Int) :
    (fseek ⟨d, 0⟩ offset).1 = ⟨d, seekPos offset⟩ := by
  unfold fseek seekPos
  split <;> rfl

/-- C1: if the image of `diskNumber` can be opened, writing a 256-word buffer `B` to a
sector and reading the same sector back into any 256-word buffer yields `B`, word for word. -/
theorem sector_roundtrip (fs : Fs) (tmp0 : Nat) (diskNumber cyl side sector : Int)
    (d B B' : List Nat) (hopen : fs diskNumber = some d)
    (hB : B.length = 256) (hw : ∀ w ∈ B, w < 65536) (hB' : B'.length = 256) :
    sectorread (sectorwrite fs diskNumber cyl side sector B 0) tmp0
      diskNumber cyl side sector B' 0 = B := by
  simp only [sectorwrite, hopen, sectorread, fclose, if_true, fseek_fst]
  generalize seekPos (((toChar cyl + toChar side) * 8 + toChar sector) * 512) = p
  obtain ⟨w1, w2, w3⟩ := sectorwrite_loop_spec 256 ⟨d, p⟩ B 0
  obtain ⟨r1, r2⟩ := sectorread_loop_spec 256 ⟨(sectorwrite_loop 256 ⟨d, p⟩ B 0).data, p⟩ tmp0 B' 0
    (by simp only [w2]; simp) (by omega)
  apply ext_getD _ _ (by rw [r1, hB', hB])
  intro j hj
  rw [r1, hB'] at hj
  rw [r2, if_pos (by omega)]
  simp only [w3]
  rw [if_pos (by omega), if_pos (by omega)]
  have e1 : p + 2 * (j - 0) - p = 2 * j := by omega
  have e2 : p + 2 * (j - 0) + 1 - p = 2 * j + 1 := by omega
  simp only [e1, e2, beByte]
  have m1 : 2 * j % 2 = 0 := by omega
  have m2 : ¬ (2 * j + 1) % 2 = 0 := by omega
  have d1 : 2 * j / 2 = j := by omega
  have d2 : (2 * j + 1) / 2 = j := by omega
  rw [if_pos m1, if_neg m2, d1, d2, Nat.zero_add]
  have hlt : B.getD j 0 < 65536 := by
    rw [List.getD_eq_getElem _ _ (by omega)]
    exact hw _ (List.getElem_mem _)
  rw [swapBytes_pair _ _ (Nat.mod_lt _ (by decide)) (Nat.mod_lt _ (by decide))]
  omega



theorem toChar_id (x : Int) (h : -128 ≤ x ∧ x ≤ 127) : toChar x = x := by
  unfold toChar; omega

theorem seekPos_nonneg (o : Int) (h : 0 ≤ o) : seekPos o = o.toNat := by
  unfold seekPos; rw [if_neg (by omega)]

theorem getD_lt_of_forall (l : List Nat) (b j : Nat) (h : ∀ w ∈ l, w < b) (hj : j < l.length) :
    l.getD j 0 < b := by
  rw [List.getD_eq_getElem _ _ hj]
  exact h _ (List.getElem_mem _)

theorem getD_replicate (n v j : Nat) (h : j < n) : (List.replicate n v).getD j 0 = v := by
  rw [List.getD_eq_getElem _ _ (by rw [List.length_replicate]; exact h), List.getElem_replicate]

/-- Witness of C1: one sector of the 512-byte image written and read back. -/
theorem sector_roundtrip_witness :
    img512 0 = some (List.replicate 512 0) ∧
    sectorread (sectorwrite img512 0 0 0 0 (List.replicate 256 0x1234) 0) 7
      0 0 0 0 (List.replicate 256 0) 0 = List.replicate 256 0x1234 :=
  ⟨rfl, sector_roundtrip img512 7 0 0 0 0 (List.replicate 512 0) (List.replicate 256 0x1234)
    (List.replicate 256 0) rfl (List.length_replicate _ _)
    (by intro w hw; rw [List.eq_of_mem_replicate hw]; decide) (List.length_replicate _ _)⟩

/-- C2 (as amended): for `char` arguments whose flat sector number `(cyl + side) * 8 + sector`
is not negative, with `off = ((cyl + side) * 8 + sector) * 512`:
`sectorwrite` stores word `i` of the buffer high byte first in bytes `off + 2i`, `off + 2i + 1`
of the image, extends the image to `off + 512` bytes if it was shorter, changes no byte outside
`off .. off + 511` and no other image; the result of `sectorread` depends on no byte of the
image outside `off .. off + 511`, and on an image holding those 512 bytes it sets word `i` of
the buffer to `256 * byte(off + 2i) + byte(off + 2i + 1)` and changes no word outside the
256-word buffer. -/
theorem sector_layout (fs : Fs) (tmp0 : Nat) (diskNumber cyl side sector : Int)
    (d mem : List Nat) (addr : Nat)
    (hc : -128 ≤ cyl ∧ cyl ≤ 127) (hs : -128 ≤ side ∧ side ≤ 127)
    (hx : -128 ≤ sector ∧ sector ≤ 127) (hoff : 0 ≤ (cyl + side) * 8 + sector)
    (hopen : fs diskNumber = some d) (hbytes : ∀ b ∈ d, b < 256)
    (hmem : addr + 256 ≤ mem.length) (hwords : ∀ w ∈ mem, w < 65536) :
    (∃ d1, sectorwrite fs diskNumber cyl side sector mem addr diskNumber = some d1 ∧
      d1.length = max d.length ((((cyl + side) * 8 + sector) * 512).toNat + 512) ∧
      (∀ i, i < 256 →
        d1.getD ((((cyl + side) * 8 + sector) * 512).toNat + 2 * i) 0
          = mem.getD (addr + i) 0 / 256 ∧
        d1.getD ((((cyl + side) * 8 + sector) * 512).toNat + 2 * i + 1) 0
          = mem.getD (addr + i) 0 % 256) ∧
      (∀ j, j < (((cyl + side) * 8 + sector) * 512).toNat ∨
          (((cyl + side) * 8 + sector) * 512).toNat + 512 ≤ j →
        d1.getD j 0 = d.getD j 0)) ∧
    (∀ k, k ≠ diskNumber → sectorwrite fs diskNumber cyl side sector mem addr k = fs k) ∧
    (∀ (fs1 : Fs) (d1 : List Nat), fs1 diskNumber = some d1 →
      (d1.drop (((cyl + side) * 8 + sector) * 512).toNat).take 512
        = (d.drop (((cyl + side) * 8 + sector) * 512).toNat).take 512 →
      sectorread fs1 tmp0 diskNumber cyl side sector mem addr
        = sectorread fs tmp0 diskNumber cyl side sector mem addr) ∧
    ((((cyl + side) * 8 + sector) * 512).toNat + 512 ≤ d.length →
      (sectorread fs tmp0 diskNumber cyl side sector mem addr).length = mem.length ∧
      (∀ i, i < 256 →
        (sectorread fs tmp0 diskNumber cyl side sector mem addr).getD (addr + i) 0
          = 256 * d.getD ((((cyl + side) * 8 + sector) * 512).toNat + 2 * i) 0
            + d.getD ((((cyl + side) * 8 + sector) * 512).toNat + 2 * i + 1) 0) ∧
      (∀ j, j < addr ∨ addr + 256 ≤ j →
        (sectorread fs tmp0 diskNumber cyl side sector mem addr).getD j 0 = mem.getD j 0)) := by
  simp only [sectorwrite, sectorread, hopen, fclose, fseek_fst, toChar_id _ hc, toChar_id _ hs,
    toChar_id _ hx]
  rw [seekPos_nonneg _ (by omega)]
  generalize (((cyl + side) * 8 + sector) * 512).toNat = p
  obtain ⟨_, w2, w3⟩ := sectorwrite_loop_spec 256 ⟨d, p⟩ mem addr
  refine ⟨⟨_, if_pos trivial, ?_, ?_, ?_⟩, ?_, ?_, ?_⟩
  · rw [w2]; simp
  · intro i hi
    have hlt := getD_lt_of_forall mem 65536 (addr + i) hwords (by omega)
    constructor
    · rw [w3, if_pos (by simp only; omega)]
      have e : p + 2 * i - p = 2 * i := by omega
      simp only [e, beByte]
      rw [if_pos (by omega)]
      have e2 : 2 * i / 2 = i := by omega
      rw [e2]; omega
    · rw [w3, if_pos (by simp only; omega)]
      have e : p + 2 * i + 1 - p = 2 * i + 1 := by omega
      simp only [e, beByte]
      rw [if_neg (by omega)]
      have e2 : (2 * i + 1) / 2 = i := by omega
      rw [e2]
  · intro j hj
    rw [w3, if_neg (by simp only; omega)]
  · intro k hk
    rw [if_neg hk]
  · intro fs1 d1 hopen1 hwin
    simp only [hopen1]
    exact sectorread_loop_window 256 d1 d p p tmp0 mem addr hwin
  · intro hlen
    obtain ⟨r1, r2⟩ := sectorread_loop_spec 256 ⟨d, p⟩ tmp0 mem addr (by simp only; omega) hmem
    refine ⟨r1, ?_, ?_⟩
    · intro i hi
      rw [r2, if_pos (by omega)]
      have e : addr + i - addr = i := by omega
      simp only [e]
      have b0 := getD_lt_of_forall d 256 (p + 2 * i) hbytes (by omega)
      have b1 := getD_lt_of_forall d 256 (p + 2 * i + 1) hbytes (by omega)
      rw [swapBytes_pair _ _ b0 b1]; omega
    · intro j hj
      rw [r2, if_neg (by omega)]

/-- Witness of C2 (as amended): cylinder 0, side 0, sector 1 of a 1024-byte image. -/
theorem sector_layout_witness :
    (0 : Int) ≤ (0 + 0) * 8 + 1 ∧
    ∃ d1, sectorwrite (fun _ => some (List.replicate 1024 0)) 0 0 0 1
        (List.replicate 256 0x1234) 0 0 = some d1 ∧
      d1.getD 512 0 = 0x12 ∧ d1.getD 513 0 = 0x34 ∧ d1.getD 0 0 = 0 :=
  ⟨by decide, by
    obtain ⟨⟨d1, h1, _, h3, h4⟩, _, _, _⟩ := sector_layout (fun _ => some (List.replicate 1024 0)) 0
      0 0 0 1 (List.replicate 1024 0) (List.replicate 256 0x1234) 0
      (by decide) (by decide) (by decide) (by decide) rfl
      (by intro w hw; rw [List.eq_of_mem_replicate hw]; decide)
      (by rw [List.length_replicate])
      (by intro w hw; rw [List.eq_of_mem_replicate hw]; decide)
    have e : ((((0 : Int) + 0) * 8 + 1) * 512).toNat = 512 := by decide
    rw [e] at h3 h4
    have a : d1.getD 512 0 = (List.replicate 256 0x1234).getD 0 0 / 256 := (h3 0 (by decide)).1
    have b : d1.getD 513 0 = (List.replicate 256 0x1234).getD 0 0 % 256 := (h3 0 (by decide)).2
    have c : d1.getD 0 0 = (List.replicate 1024 0).getD 0 0 := h4 0 (Or.inl (by decide))
    rw [getD_replicate _ _ _ (by decide)] at a b c
    exact ⟨d1, h1, a, b, c⟩⟩

/-- Counterexample to C2 as stated: for cylinder `-1`, side 0, sector 0 the claimed offset is
`-4096`; the seek is rejected and `sectorwrite` overwrites the image from byte 0 on, so
byte 0, which is not among the 512 bytes starting at `-4096`, changes from `0x00` to `0x12`,
and `sectorread` returns the word stored in bytes 0 and 1. -/
theorem sector_layout_counterexample :
    ((-1 + 0) * 8 + 0) * 512 = (-4096 : Int) ∧
    ¬ ((-4096 : Int) ≤ 0 ∧ (0 : Int) < -4096 + 512) ∧
    (img512 0).map (fun d => d.getD 0 0) = some 0 ∧
    (sectorwrite img512 0 (-1) 0 0 (List.replicate 256 0x1234) 0 0).map (fun d => d.getD 0 0)
      = some 0x12 ∧
    (sectorread (fun _ => some ([0x12, 0x34] ++ List.replicate 510 0)) 0 0 (-1) 0 0
      (List.replicate 256 0) 0).getD 0 0 = 0x1234 := by
  refine ⟨by decide, by decide, rfl, ?_, ?_⟩
  · have h3 := (sectorwrite_loop_spec 256 ⟨List.replicate 512 0, 0⟩
      (List.replicate 256 0x1234) 0).2.2 0
    simp only [sectorwrite, img512, fclose, fseek_fst, if_true, Option.map]
    have e : seekPos (((toChar (-1) + toChar 0) * 8 + toChar 0) * 512) = 0 := by decide
    rw [e, h3]
    simp only [beByte]
    rw [getD_replicate _ _ _ (by decide)]
    decide
  · have r2 := (sectorread_loop_spec 256 ⟨[0x12, 0x34] ++ List.replicate 510 0, 0⟩ 0
      (List.replicate 256 0) 0 (by simp only [List.length_append, List.length_replicate,
        List.length_cons, List.length_nil]; decide) (by rw [List.length_replicate])).2 0
    simp only [sectorread, fseek_fst]
    have e : seekPos (((toChar (-1) + toChar 0) * 8 + toChar 0) * 512) = 0 := by decide
    rw [e, r2]
    decide

/-! ## Lemmas on `bpun_load` -/

theorem MemoryWrite_word (mem : Memory) (v a x : Nat) (u : Bool) :
    MemoryWrite mem v a u 2 x = if x = a then v else mem x := by
  unfold MemoryWrite
  split
  · rw [if_neg (by decide), if_neg (by decide)]
  · rfl

theorem bpun_header_body_bang (b : Nat) (s : HdrState) (hb : b &&& 0x7f = 33) :
    bpun_header_body b s = some { s with isnum := false, isheader := false } := by
  unfold bpun_header_body
  simp only [hb]
  rw [if_neg (by decide), if_neg (by decide), if_pos trivial]

theorem bpun_header_body_other (b : Nat) (s : HdrState) (hb : b &&& 0x7f ≠ 33)
    (hs : s.slen + (if 48 ≤ b &&& 0x7f ∧ b &&& 0x7f ≤ 57 then 1 else 0) < 199) :
    ∃ s1, bpun_header_body b s = some s1 ∧ s1.isheader = s.isheader ∧
      s1.slen ≤ s.slen + (if 48 ≤ b &&& 0x7f ∧ b &&& 0x7f ≤ 57 then 1 else 0) := by
  unfold bpun_header_body
  by_cases hd : 48 ≤ b &&& 0x7f ∧ b &&& 0x7f ≤ 57
  · rw [if_pos hd] at hs ⊢
    simp only [if_pos hd]
    rw [if_pos (by omega)]
    exact ⟨_, rfl, rfl, Nat.le_refl _⟩
  · rw [if_neg hd] at hs ⊢
    simp only [if_neg hd]
    by_cases h13 : b &&& 0x7f = 13
    · rw [if_pos h13]
      refine ⟨_, rfl, rfl, ?_⟩
      simp only
      split <;> omega
    · rw [if_neg h13, if_neg hb]
      exact ⟨_, rfl, rfl, Nat.le_refl _⟩

theorem digitCount_cons (b : Nat) (hs : List Nat) :
    digitCount (b :: hs)
      = (if 48 ≤ b &&& 0x7f ∧ b &&& 0x7f ≤ 57 then 1 else 0) + digitCount hs := by
  unfold digitCount
  rw [List.filter_cons]
  by_cases hd : 48 ≤ b &&& 0x7f ∧ b &&& 0x7f ≤ 57
  · have : decide (48 ≤ b &&& 0x7f ∧ b &&& 0x7f ≤ 57) = true := decide_eq_true hd
    rw [if_pos this, if_pos hd, List.length_cons]; omega
  · have : ¬ decide (48 ≤ b &&& 0x7f ∧ b &&& 0x7f ≤ 57) = true := by
      intro h; exact hd (of_decide_eq_true h)
    rw [if_neg this, if_neg hd]; omega

theorem bpun_header_spec (bang : Nat) (rest : List Nat) (hbang : bang &&& 0x7f = 33) :
    ∀ (header : List Nat) (rb : Nat) (s : HdrState),
      (∀ b ∈ header, b &&& 0x7f ≠ 33) → s.isheader = true →
      s.slen + digitCount header < 199 →
      bpun_header (header ++ bang :: rest) rb s = some (rest, 1) := by
  intro header
  induction header with
  | nil =>
    intro rb s _ _ _
    simp only [List.nil_append, bpun_header, bpun_header_body_bang bang s hbang]
    rfl
  | cons b hs ih =>
    intro rb s hne hh hd
    rw [digitCount_cons] at hd
    obtain ⟨s1, e1, e2, e3⟩ := bpun_header_body_other b s
      (hne b (List.mem_cons_self _ _)) (by omega)
    simp only [List.cons_append, bpun_header, e1]
    rw [if_pos (by rw [e2, hh])]
    exact ih _ s1 (fun x hx => hne x (List.mem_cons_of_mem _ hx)) (by rw [e2, hh]) (by omega)

theorem be16_pair (w : Nat) (h : w < 65536) :
    swapBytes (w / 256 % 256 + 256 * (w % 256)) = w := by
  rw [swapBytes_pair _ _ (Nat.mod_lt _ (by decide)) (Nat.mod_lt _ (by decide))]
  omega

theorem bpun_data_spec : ∀ (ws tail : List Nat) (rw counter cs load_add bpun_words : Nat)
    (mem : Memory), ws ≠ [] → counter + ws.length = bpun_words → bpun_words < 65536 →
    (∀ w ∈ ws, w < 65536) →
    (bpun_data (be16s ws ++ tail) rw counter cs load_add bpun_words mem).rest = tail ∧
    (bpun_data (be16s ws ++ tail) rw counter cs load_add bpun_words mem).count = 2 ∧
    (∀ i, i < ws.length →
      (bpun_data (be16s ws ++ tail) rw counter cs load_add bpun_words mem).mem
        ((counter + i + load_add) % 65536) = ws.getD i 0) ∧
    (∀ a, (∀ i, i < ws.length → a ≠ (counter + i + load_add) % 65536) →
      (bpun_data (be16s ws ++ tail) rw counter cs load_add bpun_words mem).mem a = mem a) := by
  intro ws
  induction ws with
  | nil => intro _ _ _ _ _ _ _ h; exact absurd rfl h
  | cons w ws ih =>
    intro tail rw counter cs load_add bpun_words mem _ hlen hbw hws
    have hw : w < 65536 := hws w (List.mem_cons_self _ _)
    have hc1 : (counter + 1) % 65536 = counter + 1 := by
      rw [List.length_cons] at hlen; omega
    simp only [be16s, List.cons_append, bpun_data, be16_pair w hw, hc1, List.append_eq]
    by_cases hnil : ws = []
    · subst hnil
      rw [List.length_cons, List.length_nil] at hlen
      rw [if_neg (by omega)]
      refine ⟨rfl, rfl, ?_, ?_⟩
      · intro i hi
        rw [List.length_cons, List.length_nil] at hi
        have : i = 0 := by omega
        subst this
        simp only [MemoryWrite_word, Nat.add_zero, if_true, List.getD_cons_zero]
      · intro a ha
        have := ha 0 (by rw [List.length_cons]; omega)
        simp only [MemoryWrite_word]
        rw [if_neg (by simpa using this)]
    · have hpos : 0 < ws.length := List.length_pos.mpr hnil
      rw [List.length_cons] at hlen
      rw [if_pos (by omega)]
      obtain ⟨h1, h2, h3, h4⟩ := ih tail (w / 256 % 256 + 256 * (w % 256)) (counter + 1)
        ((w + cs) &&& 0xffff) load_add bpun_words
        (MemoryWrite mem w ((counter + load_add) % 65536) false 2) hnil (by omega) hbw
        (fun x hx => hws x (List.mem_cons_of_mem _ hx))
      refine ⟨h1, h2, ?_, ?_⟩
      · intro i hi
        rw [List.length_cons] at hi
        cases i with
        | zero =>
          rw [h4]
          · simp only [MemoryWrite_word, Nat.add_zero, if_true, List.getD_cons_zero]
          · intro i hi2; omega
        | succ k =>
          have := h3 k (by omega)
          rw [List.getD_cons_succ]
          have e : counter + (k + 1) + load_add = counter + 1 + k + load_add := by omega
          rw [e]; exact this
      · intro a ha
        rw [h4]
        · have := ha 0 (by rw [List.length_cons]; omega)
          simp only [MemoryWrite_word]
          rw [if_neg (by simpa using this)]
        · intro i hi
          have := ha (i + 1) (by rw [List.length_cons]; omega)
          have e : counter + (i + 1) + load_add = counter + 1 + i + load_add := by omega
          rw [e] at this; exact this


theorem bpun_body_fields (la n rw0 : Nat) (tail : List Nat) (mem : Memory)
    (hla : la < 65536) (hn : n < 65536) :
    (bpun_body (be16 la ++ (be16 n ++ tail)) 1 rw0 mem).load_add = la ∧
    (bpun_body (be16 la ++ (be16 n ++ tail)) 1 rw0 mem).bpun_words = n ∧
    (bpun_body (be16 la ++ (be16 n ++ tail)) 1 rw0 mem).mem
      = (bpun_data tail (n / 256 % 256 + 256 * (n % 256)) 0 0 la n mem).mem := by
  simp only [bpun_body, be16, List.cons_append, List.nil_append, fread_word, ne_eq,
    one_ne_zero, not_false_eq_true, if_true, OfNat.ofNat_ne_zero, be16_pair la hla,
    be16_pair n hn, and_self]

/-- C4: for every well-formed BPUN file (header without `!`, terminated by a `!` byte, then
load address, word count and that many payload words, all high byte first, then checksum and
action code), `bpun_load` returns, and afterwards the memory words at `load_add`,
`load_add + 1`, ... (modulo `2^16`) are the payload words in order.  The header may hold at
most 198 digit characters, the capacity of the digit buffer.  The checksum is not needed for
this: the loader only logs it. -/
theorem bpun_load_payload (header : List Nat) (bang load_add : Nat) (payload : List Nat)
    (checksum action read_byte0 read_word0 : Nat) (mem : Memory)
    (hhdr : ∀ b ∈ header, b &&& 0x7f ≠ 33) (hdig : digitCount header < 199)
    (hbang : bang &&& 0x7f = 33) (hla : load_add < 65536)
    (hn : payload.length < 65536) (hp : ∀ w ∈ payload, w < 65536) :
    ∃ r, bpun_load (bpunFile header bang load_add payload checksum action)
          read_byte0 read_word0 mem = some r ∧
      r.load_add = load_add ∧ r.bpun_words = payload.length ∧
      ∀ i, i < payload.length → r.mem ((load_add + i) % 65536) = payload.getD i 0 := by
  unfold bpun_load bpunFile
  rw [bpun_header_spec bang _ hbang header read_byte0 ⟨false, true, 0⟩ hhdr rfl
    (by simp only; omega)]
  obtain ⟨f1, f2, f3⟩ := bpun_body_fields load_add payload.length read_word0
    (be16s payload ++ (be16 checksum ++ be16 action)) mem hla hn
  refine ⟨_, rfl, f1, f2, ?_⟩
  intro i hi
  have hne : payload ≠ [] := by
    intro h; rw [h] at hi; exact absurd hi (Nat.not_lt_zero _)
  obtain ⟨_, _, h3, _⟩ := bpun_data_spec payload (be16 checksum ++ be16 action)
    (payload.length / 256 % 256 + 256 * (payload.length % 256)) 0 0 load_add payload.length
    mem hne (Nat.zero_add _) hn hp
  have := h3 i hi
  simp only [f3]
  have e : (load_add + i) % 65536 = (0 + i + load_add) % 65536 := by
    congr 1; omega
  rw [e]; exact this

/-- Witness of C4: the file `123!` 0000 0002 0005 0007 000C 0000 of scenario 5
loads 5 and 7 at addresses 0 and 1. -/
theorem bpun_load_payload_witness :
    bpunFile [49, 50, 51] 33 0 [5, 7] 12 0 = bpunExample ∧
    ∃ r, bpun_load bpunExample 0 0 (fun _ => 0) = some r ∧ r.mem 0 = 5 ∧ r.mem 1 = 7 := by
  obtain ⟨r, h1, _, _, h4⟩ := bpun_load_payload [49, 50, 51] 33 0 [5, 7] 12 0 0 0 (fun _ => 0)
    (by decide) (by decide) (by decide) (by decide) (by decide) (by decide)
  exact ⟨rfl, r, h1, h4 0 (by decide), h4 1 (by decide)⟩

/-- C5 (evaluation at the failing input): the well-formed file `!` 0010 0000 0000 0001 has load
address 16, word count 0, checksum 0 and action code 1.  The data loop is a `do ... while`
and runs once: the checksum word is stored at address 16 (a word holding 99 becomes 0),
and the word then logged as the checksum is the action code 1. -/
theorem bpun_load_empty_payload :
    bpunFile [] 33 16 [] 0 1 = bpunEmpty ∧
    (bpun_load bpunEmpty 0 0 (fun a => if a = 16 then 99 else 0)).map
        (fun r => (r.bpun_words, r.mem 16, r.checksum_word)) = some (0, 0, some 1) := by
  decide

/-! ## The hard disk offset, master clear and the default IO handler -/

/-- C3: for 16-bit track, surface and sector, the byte offset at which `hdd_thread` seeks in
the image is `((track * 5 + surface) * 18 + sector) * 1024`. -/
theorem hdd_seek_offset (dev : hdd_data) (ht : dev.track < 65536) (hs : dev.surface < 65536)
    (hx : dev.sector < 65536) :
    hdd_logical dev
      = (((dev.track : Int) * 5 + (dev.surface : Int)) * 18 + (dev.sector : Int)) * 1024 := by
  simp only [hdd_logical, toLong]
  omega

/-- Witness of C3: track 822, surface 4, sector 17, the last sector of the 75 MB geometry. -/
theorem hdd_seek_offset_witness :
    hdd_logical { hdd_data.zero with track := 822, surface := 4, sector := 17 }
      = ((822 * 5 + 4) * 18 + 17) * 1024 :=
  hdd_seek_offset { hdd_data.zero with track := 822, surface := 4, sector := 17 }
    (by decide) (by decide) (by decide)

/-- C6 (evaluation at the failing input): with one entry (level 11, ident 021, caller 201) in the
IDENT chain, the master clear of the panel leaves that entry in the chain (it does set bit 2
of CSR and stop the CPU); `setup_cpu` in the same state empties the chain. -/
theorem panel_MCL_keeps_ident_chain :
    (panel_MCL_PRESSED { machine0 with gIdentChain := [⟨11, 0o21, 201⟩] }).gIdentChain
      = [⟨11, 0o21, 201⟩] ∧
    (panel_MCL_PRESSED { machine0 with gIdentChain := [⟨11, 0o21, 201⟩] }).gReg.reg_CSR = 4 ∧
    (panel_MCL_PRESSED { machine0 with gIdentChain := [⟨11, 0o21, 201⟩] }).CurrentCPURunMode
      = RunMode.STOP ∧
    (setup_cpu none false false
      { machine0 with gIdentChain := [⟨11, 0o21, 201⟩] }).gIdentChain = [] := by
  refine ⟨rfl, ?_, rfl, rfl⟩
  decide

/-- C10: for every IO address handled by `Default_IO` and every machine state: an even address
(read) sets the A register of the current level to 0 and leaves every other register, the
control registers and the rest of the state as they were; an odd address (write) changes
nothing. -/
theorem Default_IO_effect (k : Nat) (m : Machine) :
    gA ( Default_IO (2 * k) m) = 0 ∧
    ( Default_IO (2 * k) m) = { m with gReg := m.gReg.setReg (CurrLEVEL m.gReg) _A 0 } ∧
    (∀ l i, ¬ (l = CurrLEVEL m.gReg ∧ i = _A) →
      ( Default_IO (2 * k) m).gReg.reg l i = m.gReg.reg l i) ∧
    Default_IO (2 * k + 1) m = m := by
  have e0 : (2 * k) &&& 1 = 0 := by rw [Nat.and_one_is_mod]; omega
  have e1 : (2 * k + 1) &&& 1 = 1 := by rw [Nat.and_one_is_mod]; omega
  refine ⟨?_, ?_, ?_, ?_⟩
  · simp [ Default_IO, e0, set_gA, gA, CpuRegs.setReg, CurrLEVEL]
  · simp [ Default_IO, e0, set_gA]
  · intro l i h
    simp only [ Default_IO, e0, set_gA, CpuRegs.setReg, ne_eq, one_ne_zero, not_false_eq_true,
      if_true, not_true_eq_false, if_false]
    rw [if_neg h]
  · simp [ Default_IO, e1]

/-! ## The floppy worker -/

theorem floppy_wcwd_read_data (A : Nat) (dev : floppy_data)
    (hcmd : (A &&& 0xff00) >>> 8 = 16) (h2 : (A >>> 2) &&& 0x01 = 0)
    (h5 : (A >>> 5) &&& 0x01 = 0) :
    (floppy_wcwd A dev).busy = true ∧ (floppy_wcwd A dev).command = 16 ∧
    (floppy_wcwd A dev).track = dev.track ∧ (floppy_wcwd A dev).buff = dev.buff ∧
    (floppy_wcwd A dev).bufptr_read = dev.bufptr_read ∧
    (floppy_wcwd A dev).sector = (if (A >>> 4) &&& 0x01 ≠ 0 then 1 else dev.sector) := by
  have hne : A &&& 0xff00 ≠ 0 := by
    intro h; rw [h] at hcmd; exact absurd hcmd (by decide)
  unfold floppy_wcwd
  simp only [h2, h5, hcmd, ne_eq, not_true_eq_false, if_false, hne, not_false_eq_true, if_true]
  by_cases b1 : (A >>> 1) &&& 0x01 = 0 <;> by_cases b3 : (A >>> 3) &&& 0x01 = 0 <;>
    by_cases b4 : (A >>> 4) &&& 0x01 = 0 <;>
    simp only [b1, b3, b4, ne_eq, not_true_eq_false, not_false_eq_true, if_true, if_false,
      and_self] <;>
    exact ⟨trivial, rfl, trivial⟩

theorem floppy_command_read_data (tmp0 : Nat) (unit : UnitPtr) (diskNumber : Int) (fs : Fs)
    (dev : floppy_data) (hc : dev.command = 16) (hbuf : transfer_in_buffer dev) :
    floppy_command tmp0 unit diskNumber fs dev
      = some ({ dev with
          buff := sectorread fs tmp0 diskNumber dev.track 0 (xsector dev) dev.buff
            dev.bufptr_read.toNat
          bufptr_read := Int.tmod (dev.bufptr_read + 256) FDD_BUFSIZE
          rwComplete := true
          busy := false }, fs) := by
  unfold floppy_command
  rw [hc]
  have e : ((16 : Int) % 4294967296).toNat = 16 := by decide
  simp only [e]
  rw [if_neg (by decide), if_neg (by decide), if_neg (by decide), if_neg (by decide),
    if_pos (by decide), if_pos hbuf]

theorem Floppy_IO_wcwd (ioadd : Nat) (m : Machine) (ha : ioadd &&& 0x07 = 3) :
    Floppy_IO ioadd m = some { m with floppy := floppy_wcwd (gA m) m.floppy } := by
  unfold Floppy_IO
  simp only [ha]
  rw [if_neg (by decide), if_neg (by decide), if_neg (by decide), if_pos trivial]

theorem floppy_pass_read_data (tmp0 : Nat) (unit : UnitPtr) (m : Machine)
    (hbusy : m.floppy.busy = true) (hc : m.floppy.command = 16)
    (hbuf : transfer_in_buffer m.floppy) :
    ∃ u m2, floppy_thread_pass tmp0 unit m = some (u, m2) ∧
      m2.floppy = { m.floppy with
        buff := sectorread m.floppyImages tmp0 m.diskNumber m.floppy.track 0 (xsector m.floppy)
          m.floppy.buff m.floppy.bufptr_read.toNat
        bufptr_read := Int.tmod (m.floppy.bufptr_read + 256) FDD_BUFSIZE
        rwComplete := true
        busy := false } := by
  unfold floppy_thread_pass
  simp only [hbusy, if_true, floppy_command_read_data tmp0 _ m.diskNumber m.floppyImages
    m.floppy hc hbuf, Bool.not_false]
  by_cases hirq : m.floppy.irq_en = true
  · simp only [hirq, if_true]
    exact ⟨_, _, rfl, rfl⟩
  · simp only [hirq, if_false]
    exact ⟨_, _, rfl, rfl⟩

theorem sectorread_getD (fs : Fs) (tmp0 : Nat) (diskNumber cyl side sector : Int)
    (d mem : List Nat) (addr : Nat) (hopen : fs diskNumber = some d)
    (hlen : seekPos (((toChar cyl + toChar side) * 8 + toChar sector) * 512) + 512 ≤ d.length)
    (hmem : addr + 256 ≤ mem.length) (j : Nat) :
    (sectorread fs tmp0 diskNumber cyl side sector mem addr).getD j 0 =
      if addr ≤ j ∧ j < addr + 256 then
        swapBytes
          (d.getD (seekPos (((toChar cyl + toChar side) * 8 + toChar sector) * 512)
              + 2 * (j - addr)) 0
            + 256 * d.getD (seekPos (((toChar cyl + toChar side) * 8 + toChar sector) * 512)
              + 2 * (j - addr) + 1) 0)
      else mem.getD j 0 := by
  simp only [sectorread, hopen, fseek_fst]
  exact (sectorread_loop_spec 256 ⟨d, _⟩ tmp0 mem addr (by simp only; omega) hmem).2 j

theorem img5_length : img5.length = 2560 := by
  unfold img5; rw [List.length_append, List.length_replicate, List.length_replicate]

theorem img5_low (j : Nat) (h : j < 2048) : img5.getD j 0 = 0 := by
  unfold img5
  rw [List.getD_append _ _ _ _ (by rw [List.length_replicate]; exact h),
    getD_replicate _ _ _ h]

theorem img5_high (j : Nat) (h1 : 2048 ≤ j) (h2 : j < 2560) : img5.getD j 0 = 1 := by
  unfold img5
  rw [List.getD_append_right _ _ _ _ (by rw [List.length_replicate]; exact h1),
    List.length_replicate, getD_replicate _ _ _ (by omega)]

theorem floppyMachine_in_buffer (A sector : Nat) (img : List Nat) :
    transfer_in_buffer (floppyMachine A sector img).floppy := by
  unfold transfer_in_buffer
  show (0 : Int) ≤ 0 ∧ (0 : Int) + 256 ≤ ((List.replicate FDD_BUFSIZE 0).length : Int)
  rw [List.length_replicate]
  decide

/-- C7 (as amended): for every controller state whose 256-word transfer at `bufptr_read` lies
inside the buffer, when the control word register (address low bits 3) is written with a
value whose high byte is 16 (READ_DATA) and whose bits 2 and 5 are clear, both the register
write and one pass of the floppy worker return, and afterwards `rwComplete` is true, `busy`
is false, the buffer is what `sectorread` makes of the previous buffer at the previous
`bufptr_read` for (diskNumber, track, side 0, sector `s`), where `s` is 0 if bit 4 (device
clear, which resets the sector register to 1) is set in the written value and
`max(sector - 1, 0)` otherwise, and `bufptr_read` has advanced by 256 modulo 2048. -/
theorem floppy_read_data (ioadd tmp0 : Nat) (unit : UnitPtr) (m : Machine)
    (ha : ioadd &&& 0x07 = 3) (hcmd : (gA m &&& 0xff00) >>> 8 = 16)
    (h2 : (gA m >>> 2) &&& 0x01 = 0) (h5 : (gA m >>> 5) &&& 0x01 = 0)
    (hbuf : transfer_in_buffer m.floppy) :
    ∃ m1 u m2, Floppy_IO ioadd m = some m1 ∧ floppy_thread_pass tmp0 unit m1 = some (u, m2) ∧
      m2.floppy.rwComplete = true ∧ m2.floppy.busy = false ∧
      m2.floppy.buff = sectorread m.floppyImages tmp0 m.diskNumber m.floppy.track 0
        (if (gA m >>> 4) &&& 0x01 ≠ 0 then 0 else max ((m.floppy.sector : Int) - 1) 0)
        m.floppy.buff m.floppy.bufptr_read.toNat ∧
      m2.floppy.bufptr_read = (m.floppy.bufptr_read + 256) % 2048 := by
  obtain ⟨w1, w2, w3, w4, w5, w6⟩ := floppy_wcwd_read_data (gA m) m.floppy hcmd h2 h5
  have hbuf1 : transfer_in_buffer (floppy_wcwd (gA m) m.floppy) := by
    unfold transfer_in_buffer at hbuf ⊢
    rw [w4, w5]; exact hbuf
  have hxs : xsector (floppy_wcwd (gA m) m.floppy)
      = (if (gA m >>> 4) &&& 0x01 ≠ 0 then 0 else max ((m.floppy.sector : Int) - 1) 0) := by
    unfold xsector
    rw [w6]
    by_cases b4 : (gA m >>> 4) &&& 0x01 ≠ 0
    · rw [if_pos b4, if_pos b4]; rfl
    · rw [if_neg b4, if_neg b4]
      split <;> omega
  have hmod : Int.tmod (m.floppy.bufptr_read + 256) FDD_BUFSIZE
      = (m.floppy.bufptr_read + 256) % 2048 := by
    unfold transfer_in_buffer at hbuf
    exact Int.tmod_eq_emod (by omega) (by decide)
  obtain ⟨u, m2, hp, hf⟩ := floppy_pass_read_data tmp0 unit
    { m with floppy := floppy_wcwd (gA m) m.floppy } w1 w2 hbuf1
  refine ⟨_, u, m2, Floppy_IO_wcwd ioadd m ha, hp, ?_⟩
  rw [hf]
  simp only [hxs, w3, w4, w5, hmod, and_self]

/-- Witness of C7 (as amended): scenario 6, track 0, sector 1, control word 0x1000 written to
address 1563 (octal): the buffer receives `sectorread(diskNumber, 0, 0, 0)`. -/
theorem floppy_read_data_witness :
    ∃ m1 u m2, Floppy_IO 0o1563 (floppyMachine 0x1000 1 img5) = some m1 ∧
      floppy_thread_pass 0 UnitPtr.null m1 = some (u, m2) ∧
      m2.floppy.rwComplete = true ∧ m2.floppy.busy = false ∧
      m2.floppy.buff = sectorread (fun _ => some img5) 0 0 0 0 0
        (List.replicate FDD_BUFSIZE 0) 0 ∧
      m2.floppy.bufptr_read = 256 :=
  floppy_read_data 0o1563 0 UnitPtr.null (floppyMachine 0x1000 1 img5) (by decide) (by decide)
    (by decide) (by decide) (floppyMachine_in_buffer _ _ _)

/-- Counterexample to C7 as stated: the sector register holds 5 and the control word 0x1010
is written (high byte 16, bits 2 and 5 clear, bit 4 set).  Device clear resets the sector
register to 1, so the worker reads sector 0 of the image, whose first word is 0, while
`sectorread` for sector `max(5 - 1, 0) = 4` delivers the first word 0x0101. -/
theorem floppy_read_data_counterexample :
    (0x1010 &&& 0xff00) >>> 8 = 16 ∧ (0x1010 >>> 2) &&& 0x01 = 0 ∧ (0x1010 >>> 5) &&& 0x01 = 0 ∧
    gA (floppyMachine 0x1010 5 img5) = 0x1010 ∧
    (∃ m1 u m2, Floppy_IO 0o1563 (floppyMachine 0x1010 5 img5) = some m1 ∧
      floppy_thread_pass 0 UnitPtr.null m1 = some (u, m2) ∧
      m2.floppy.buff.getD 0 0 = 0) ∧
    (sectorread (floppyMachine 0x1010 5 img5).floppyImages 0
      (floppyMachine 0x1010 5 img5).diskNumber (floppyMachine 0x1010 5 img5).floppy.track 0
      (max (((floppyMachine 0x1010 5 img5).floppy.sector : Int) - 1) 0)
      (floppyMachine 0x1010 5 img5).floppy.buff
      (floppyMachine 0x1010 5 img5).floppy.bufptr_read.toNat).getD 0 0 = 0x0101 := by
  refine ⟨by decide, by decide, by decide, by decide, ?_, ?_⟩
  · have e5 : (wcwdMachine 0x1010 5 img5).floppy.buff = List.replicate FDD_BUFSIZE 0 := rfl
    have e7 : (wcwdMachine 0x1010 5 img5).floppy.bufptr_read = 0 := by decide
    have hbuf : transfer_in_buffer (wcwdMachine 0x1010 5 img5).floppy := by
      unfold transfer_in_buffer
      rw [e5, e7, List.length_replicate]
      decide
    obtain ⟨u, m2, hp, hf⟩ := floppy_pass_read_data 0 UnitPtr.null (wcwdMachine 0x1010 5 img5)
      (by decide) (by decide) hbuf
    refine ⟨wcwdMachine 0x1010 5 img5, u, m2, Floppy_IO_wcwd 0o1563 _ (by decide), hp, ?_⟩
    have e1 : (wcwdMachine 0x1010 5 img5).floppyImages = fun _ => some img5 := rfl
    have e2 : (wcwdMachine 0x1010 5 img5).diskNumber = 0 := rfl
    have e3 : ((wcwdMachine 0x1010 5 img5).floppy.track : Int) = 0 := by decide
    have e4 : xsector (wcwdMachine 0x1010 5 img5).floppy = 0 := by decide
    have e6 : (wcwdMachine 0x1010 5 img5).floppy.bufptr_read.toNat = 0 := by decide
    rw [hf]
    simp only [e1, e2, e3, e4, e5, e6]
    rw [sectorread_getD (fun _ => some img5) 0 0 0 0 0 img5 _ 0 rfl
      (by rw [img5_length]; decide) (by rw [List.length_replicate]; decide)]
    have hp0 : seekPos (((toChar 0 + toChar 0) * 8 + toChar 0) * 512) = 0 := by decide
    rw [hp0, if_pos (by decide)]
    rw [img5_low _ (by decide), img5_low _ (by decide)]
    decide
  · show (sectorread (fun _ => some img5) 0 0 0 0 4 (List.replicate FDD_BUFSIZE 0) 0).getD 0 0
      = 0x0101
    rw [sectorread_getD (fun _ => some img5) 0 0 0 0 4 img5 _ 0 rfl
      (by rw [img5_length]; decide) (by rw [List.length_replicate]; decide)]
    have hp4 : seekPos (((toChar 0 + toChar 0) * 8 + toChar 4) * 512) = 2048 := by decide
    rw [hp4, if_pos (by decide)]
    rw [img5_high _ (by decide) (by decide), img5_high _ (by decide) (by decide)]
    decide

/-! ## Completion interrupts of the floppy and hard disk workers -/

set_option maxRecDepth 100000 in
theorem low_byte_bits : ∀ c, c < 256 →
    (c &&& (1 <<< 7) = 0 ∧ c &&& (1 <<< 6) = 0 ∧ c &&& (1 <<< 5) = 0 ∧ c &&& (1 <<< 3) = 0 ∧
    c &&& (1 <<< 4) = 0 ∧ c &&& (1 <<< 2) = 0 ∧ c &&& (1 <<< 1) = 0 ∧ c &&& (1 <<< 0) = 0) →
    c = 0 := by
  decide

theorem or_bit_twice (x k : Nat) (hx : x < 65536) (hk : k < 16) :
    ((x ||| (1 <<< k)) % 65536 ||| (1 <<< k)) % 65536 = x ||| (1 <<< k) := by
  have h1 : (1 <<< k) < 2 ^ 16 := by
    rw [Nat.one_shiftLeft]; exact Nat.pow_lt_pow_right (by decide) hk
  have h2 : x ||| (1 <<< k) < 2 ^ 16 := Nat.or_lt_two_pow hx h1
  have e : (65536 : Nat) = 2 ^ 16 := by decide
  rw [e, Nat.mod_eq_of_lt h2, Nat.or_assoc, Nat.or_self, Nat.mod_eq_of_lt h2]

theorem genIRQ_effect (m : Machine) (level ident : Nat) (chainId : Int)
    (hpid : gPID m < 65536) (hl : level < 16) :
    gPID (genIRQ m level ident chainId) = gPID m ||| (1 <<< level) ∧
    (genIRQ m level ident chainId).gIdentChain
      = m.gIdentChain ++ [⟨(level : Int), ident, chainId⟩] ∧
    (genIRQ m level ident chainId).hdd = m.hdd := by
  refine ⟨?_, rfl, rfl⟩
  show ((m.gReg.reg_PID ||| (1 <<< level)) % 65536 ||| (1 <<< level)) % 65536 = _
  exact or_bit_twice _ _ hpid hl

theorem floppy_command_ends (tmp0 : Nat) (unit : UnitPtr) (diskNumber : Int) (fs : Fs)
    (dev : floppy_data) (hc : 1 ≤ dev.command ∧ dev.command ≤ 255)
    (hsafe : floppy_safe unit dev) :
    ∃ dev1 fs1, floppy_command tmp0 unit diskNumber fs dev = some (dev1, fs1) ∧
      dev1.busy = false ∧ dev1.irq_en = dev.irq_en := by
  obtain ⟨hbuf, hunit⟩ := hsafe
  have hlen : 2 ≤ dev.buff.length := by
    unfold transfer_in_buffer at hbuf; omega
  have hc1 : (dev.command % 4294967296).toNat < 256 := by omega
  have hc2 : (dev.command % 4294967296).toNat ≠ 0 := by omega
  unfold floppy_command
  simp only []
  by_cases b7 : (dev.command % 4294967296).toNat &&& (1 <<< 7) ≠ 0
  · rw [if_pos b7]; exact ⟨_, _, rfl, rfl, rfl⟩
  rw [if_neg b7]
  by_cases b6 : (dev.command % 4294967296).toNat &&& (1 <<< 6) ≠ 0
  · rw [if_pos b6]; exact ⟨_, _, rfl, rfl, rfl⟩
  rw [if_neg b6]
  by_cases b5 : (dev.command % 4294967296).toNat &&& (1 <<< 5) ≠ 0
  · rw [if_pos b5]
    cases unit with
    | null => exact ⟨_, _, rfl, rfl, rfl⟩
    | wild => exact absurd hunit id
    | unit k =>
      obtain ⟨u, hu⟩ := hunit
      simp only [hu]
      exact ⟨_, _, rfl, rfl, rfl⟩
  rw [if_neg b5]
  by_cases b3 : (dev.command % 4294967296).toNat &&& (1 <<< 3) ≠ 0
  · rw [if_pos b3, if_pos hlen]; exact ⟨_, _, rfl, rfl, rfl⟩
  rw [if_neg b3]
  by_cases b4 : (dev.command % 4294967296).toNat &&& (1 <<< 4) ≠ 0
  · rw [if_pos b4, if_pos hbuf]; exact ⟨_, _, rfl, rfl, rfl⟩
  rw [if_neg b4]
  by_cases b21 : (dev.command % 4294967296).toNat &&& (1 <<< 2) ≠ 0 ∨
      (dev.command % 4294967296).toNat &&& (1 <<< 1) ≠ 0
  · rw [if_pos b21, if_pos hbuf]; exact ⟨_, _, rfl, rfl, rfl⟩
  rw [if_neg b21]
  by_cases b0 : (dev.command % 4294967296).toNat &&& (1 <<< 0) ≠ 0
  · rw [if_pos b0]; exact ⟨_, _, rfl, rfl, rfl⟩
  exfalso
  apply hc2
  exact low_byte_bits _ hc1
    ⟨Classical.not_not.mp b7, Classical.not_not.mp b6, Classical.not_not.mp b5,
      Classical.not_not.mp b3, Classical.not_not.mp b4,
      Classical.not_not.mp (fun h => b21 (Or.inl h)),
      Classical.not_not.mp (fun h => b21 (Or.inr h)), Classical.not_not.mp b0⟩

/-- C8: for every command (command byte 1..255) that the floppy worker processes without
leaving the buffer or following an invalid unit pointer, the pass returns; if interrupts are
enabled, PID afterwards is the old PID with bit 11 set and one entry with level 11, ident
code 021 (octal) and the caller id of the floppy is appended at the end of the IDENT chain;
if interrupts are disabled, PID and the IDENT chain are unchanged. -/
theorem floppy_irq (tmp0 : Nat) (unit : UnitPtr) (m : Machine)
    (hbusy : m.floppy.busy = true) (hc : 1 ≤ m.floppy.command ∧ m.floppy.command ≤ 255)
    (hsafe : floppy_safe (select_unit m.floppy unit) m.floppy) (hpid : gPID m < 65536) :
    ∃ u m2, floppy_thread_pass tmp0 unit m = some (u, m2) ∧
      if m.floppy.irq_en then
        gPID m2 = gPID m ||| (1 <<< 11) ∧
        m2.gIdentChain = m.gIdentChain ++ [⟨11, 0o21, FLOPPY_ID⟩]
      else gPID m2 = gPID m ∧ m2.gIdentChain = m.gIdentChain := by
  obtain ⟨dev1, fs1, e1, e2, e3⟩ := floppy_command_ends tmp0 (select_unit m.floppy unit)
    m.diskNumber m.floppyImages m.floppy hc hsafe
  unfold floppy_thread_pass
  simp only [hbusy, if_true, e1, e2, Bool.not_false, e3]
  by_cases hirq : m.floppy.irq_en = true
  · simp only [hirq, if_true]
    refine ⟨_, _, rfl, ?_⟩
    obtain ⟨g1, g2, _⟩ := genIRQ_effect { m with floppy := dev1, floppyImages := fs1 } 11 0o21
      FLOPPY_ID hpid (by decide)
    exact ⟨g1, g2⟩
  · simp only [hirq, if_false]
    exact ⟨_, _, rfl, rfl, rfl⟩

theorem busyFloppyMachine_safe (command : Int) (irq_en : Bool) :
    floppy_safe (select_unit (busyFloppyMachine command irq_en).floppy UnitPtr.null)
      (busyFloppyMachine command irq_en).floppy := by
  refine ⟨?_, ⟨_, rfl⟩⟩
  unfold transfer_in_buffer
  show (0 : Int) ≤ 0 ∧ (0 : Int) + 256 ≤ ((List.replicate FDD_BUFSIZE 0).length : Int)
  rw [List.length_replicate]
  decide

/-- Witness of C8: a SEEK command (32) with interrupts enabled posts level 11, ident 021. -/
theorem floppy_irq_witness :
    ∃ u m2, floppy_thread_pass 0 UnitPtr.null (busyFloppyMachine 32 true) = some (u, m2) ∧
      gPID m2 = 2048 ∧ m2.gIdentChain = [⟨11, 0o21, 201⟩] :=
  floppy_irq 0 UnitPtr.null (busyFloppyMachine 32 true) rfl (by decide)
    (busyFloppyMachine_safe 32 true) (by decide)

theorem hdd_finish_effect (m : Machine) (dev : hdd_data) (hpid : gPID m < 65536) :
    (hdd_finish m dev).hdd.active = false ∧ (hdd_finish m dev).hdd.finished = true ∧
    if dev.irq_en then
      gPID (hdd_finish m dev) = gPID m ||| (1 <<< 11) ∧
      (hdd_finish m dev).gIdentChain = m.gIdentChain ++ [⟨11, 0o17, HDD_IRQ_ID⟩]
    else gPID (hdd_finish m dev) = gPID m ∧ (hdd_finish m dev).gIdentChain = m.gIdentChain := by
  unfold hdd_finish
  simp only [Bool.not_false, if_true]
  by_cases hirq : dev.irq_en = true
  · simp only [hirq, if_true]
    obtain ⟨g1, g2, _⟩ := genIRQ_effect
      { m with hdd := { dev with active := false, finished := true } } 11 0o17 HDD_IRQ_ID
      hpid (by decide)
    exact ⟨rfl, rfl, g1, g2⟩
  · simp only [hirq, if_false]
    exact ⟨rfl, rfl, rfl, rfl⟩

/-- C9: for every hard disk controller state with `active` set (and, for the transfer opcodes 0
and 1, a transfer that stays inside the memory array), one pass of the worker returns and
leaves `active` false and `finished` true; if interrupts are enabled, PID afterwards is the
old PID with bit 11 set and an entry with level 11, ident code 017 (octal) and the caller id
of the hard disk is appended to the IDENT chain; otherwise PID and the IDENT chain are
unchanged.  This holds for every opcode and whether or not the seek succeeded. -/
theorem hdd_irq (m : Machine) (hact : m.hdd.active = true)
    (hsafe : m.hdd.opcode ≤ 1 → hdd_transfer_in_memory m.hdd) (hpid : gPID m < 65536) :
    ∃ m2, hdd_thread_pass m = some m2 ∧ m2.hdd.active = false ∧ m2.hdd.finished = true ∧
      if m.hdd.irq_en then
        gPID m2 = gPID m ||| (1 <<< 11) ∧
        m2.gIdentChain = m.gIdentChain ++ [⟨11, 0o17, HDD_IRQ_ID⟩]
      else gPID m2 = gPID m ∧ m2.gIdentChain = m.gIdentChain := by
  unfold hdd_thread_pass
  simp only [hact, if_true]
  cases himg : m.hddImage with
  | none => exact ⟨_, rfl, hdd_finish_effect m m.hdd hpid⟩
  | some img =>
    simp only []
    by_cases hneg : hdd_logical m.hdd < 0
    · rw [if_pos hneg]
      exact ⟨_, rfl, hdd_finish_effect m m.hdd hpid⟩
    rw [if_neg hneg]
    by_cases h0 : m.hdd.opcode = 0
    · rw [if_pos h0, if_pos (hsafe (by omega))]
      exact ⟨_, rfl, hdd_finish_effect _ _ hpid⟩
    rw [if_neg h0]
    by_cases h1 : m.hdd.opcode = 1
    · rw [if_pos h1, if_pos (hsafe (by omega))]
      exact ⟨_, rfl, hdd_finish_effect _ _ hpid⟩
    rw [if_neg h1]
    exact ⟨_, rfl, hdd_finish_effect m m.hdd hpid⟩

/-- Witness of C9: opcode 4 (initiate seek) with interrupts enabled, image not openable. -/
theorem hdd_irq_witness :
    ∃ m2, hdd_thread_pass (activeHddMachine 4 true) = some m2 ∧ m2.hdd.active = false ∧
      m2.hdd.finished = true ∧ gPID m2 = 2048 ∧ m2.gIdentChain = [⟨11, 0o17, 101⟩] :=
  hdd_irq (activeHddMachine 4 true) rfl (by decide) (by decide)

/-! ## `Default_IO` and the IOX error interrupt -/

/-- C11 (as amended): for every IO address, every value of IIE and every machine state,
`Default_IO` raises no interrupt: PID, the pending sub-codes, the IDENT chain and IIE are left
as they were.  The branch that raises the IOX error is behind the constant guard `if (1)`. -/
theorem Default_IO_no_interrupt (ioadd : Nat) (m : Machine) :
    ( Default_IO ioadd m).gReg.reg_PID = m.gReg.reg_PID ∧
    ( Default_IO ioadd m).subcode = m.subcode ∧
    ( Default_IO ioadd m).gIdentChain = m.gIdentChain ∧
    ( Default_IO ioadd m).gReg.reg_IIE = m.gReg.reg_IIE := by
  unfold Default_IO
  rw [if_pos (by decide)]
  by_cases h : ioadd &&& 1 ≠ 0
  · rw [if_pos h]
    exact ⟨rfl, rfl, rfl, rfl⟩
  · rw [if_neg h]
    exact ⟨rfl, rfl, rfl, rfl⟩

/-- C11 (counterexample): with bit 7 of IIE set, `Default_IO` on the unmapped address 0100
leaves bit 14 of PID clear and records no sub-code on level 14, whereas raising the IOX error
would set both. -/
theorem Default_IO_no_interrupt_counterexample :
    let m : Machine := { machine0 with gReg := { machine0.gReg with reg_IIE := 0x80 } }
    m.gReg.reg_IIE &&& 0x80 ≠ 0 ∧
    ( Default_IO 0o100 m).gReg.reg_PID = 0 ∧
    ( Default_IO 0o100 m).subcode 14 = 0 ∧
    (interrupt m 14 (1 <<< 7)).gReg.reg_PID = 0x4000 ∧
    (interrupt m 14 (1 <<< 7)).subcode 14 = 0x80 := by
  refine ⟨by decide, ?_, ?_, by decide, by decide⟩
  · simp [ Default_IO, set_gA, CpuRegs.setReg, machine0, CpuRegs.zero]
  · simp [ Default_IO, set_gA, machine0]

/-! ## The dispatch table after `Setup_IO_Handlers` -/

lemma table_fill_apply {α : Type} (n i : Nat) (v : α) (t : Nat → α) (a : Nat) :
    table_fill n i v t a = if i ≤ a ∧ a < i + n then v else t a := by
  induction n generalizing i t with
  | zero =>
    have : ¬ (i ≤ a ∧ a < i + 0) := by omega
    simp only [table_fill, if_neg this]
  | succ n ih =>
    simp only [table_fill, ih]
    by_cases h1 : i + 1 ≤ a ∧ a < i + 1 + n
    · have h2 : i ≤ a ∧ a < i + (n + 1) := by omega
      rw [if_pos h1, if_pos h2]
    · rw [if_neg h1]
      by_cases h3 : a = i
      · have h2 : i ≤ a ∧ a < i + (n + 1) := by omega
        rw [if_pos h3, if_pos h2]
      · have h2 : ¬ (i ≤ a ∧ a < i + (n + 1)) := by omega
        rw [if_neg h3, if_neg h2]

lemma Setup_IO_Handlers_iodata (nm : Option String) (ro ok : Bool) (e : Emulator) (a : Nat)
    (ha : a < 65536) :
    ( Setup_IO_Handlers nm ro ok e).iodata a =
      if 0o500 ≤ a ∧ a ≤ 0o507 then DataPtr.hdd_dev2
      else if 0o1540 ≤ a ∧ a ≤ 0o1547 then DataPtr.hdd_dev
      else if 0o1560 ≤ a ∧ a ≤ 0o1567 then DataPtr.floppy_dev
      else DataPtr.null := by
  simp only [ Setup_IO_Handlers, hdd_init, floppy_init_io, IO_Data_Add, table_fill_apply]
  split_ifs <;> first | rfl | omega

/-- C12: after `Setup_IO_Handlers` every address `a` in 0..65535 has a handler: `Parity_Mem_IO`
on 4..7, `RTC_IO` on 010..013, `Console_IO` on 0300..0307, `HDD_IO` on 01540..01547,
`Floppy_IO` on 01560..01567 and `Default_IO` elsewhere; an address bound to `Floppy_IO` has the
floppy controller record as its data, an address bound to `HDD_IO` the hard disk controller
record, and both records are the freshly initialised ones. -/
theorem Setup_IO_Handlers_table (nm : Option String) (ro ok : Bool) (e : Emulator) (a : Nat)
    (ha : a < 65536) :
    ( Setup_IO_Handlers nm ro ok e).ioarr a =
      some (if 4 ≤ a ∧ a ≤ 7 then IOHandler.h_Parity_Mem
        else if 0o10 ≤ a ∧ a ≤ 0o13 then IOHandler.h_RTC
        else if 0o300 ≤ a ∧ a ≤ 0o307 then IOHandler.h_Console
        else if 0o1540 ≤ a ∧ a ≤ 0o1547 then IOHandler.h_HDD
        else if 0o1560 ≤ a ∧ a ≤ 0o1567 then IOHandler.h_Floppy
        else IOHandler.h_Default) ∧
    (( Setup_IO_Handlers nm ro ok e).ioarr a = some IOHandler.h_Floppy →
      ( Setup_IO_Handlers nm ro ok e).iodata a = DataPtr.floppy_dev) ∧
    (( Setup_IO_Handlers nm ro ok e).ioarr a = some IOHandler.h_HDD →
      ( Setup_IO_Handlers nm ro ok e).iodata a = DataPtr.hdd_dev) ∧
    ( Setup_IO_Handlers nm ro ok e).floppy = floppy_init nm ro ok ∧
    ( Setup_IO_Handlers nm ro ok e).hdd = hdd_data.zero := by
  have hio : ( Setup_IO_Handlers nm ro ok e).ioarr a =
      some (if 4 ≤ a ∧ a ≤ 7 then IOHandler.h_Parity_Mem
        else if 0o10 ≤ a ∧ a ≤ 0o13 then IOHandler.h_RTC
        else if 0o300 ≤ a ∧ a ≤ 0o307 then IOHandler.h_Console
        else if 0o1540 ≤ a ∧ a ≤ 0o1547 then IOHandler.h_HDD
        else if 0o1560 ≤ a ∧ a ≤ 0o1567 then IOHandler.h_Floppy
        else IOHandler.h_Default) := by
    simp only [ Setup_IO_Handlers, hdd_init, floppy_init_io, IO_Handler_Add, table_fill_apply]
    split_ifs <;> first | rfl | omega
  have hda := Setup_IO_Handlers_iodata nm ro ok e a ha
  refine ⟨hio, ?_, ?_, rfl, rfl⟩
  · intro h
    rw [hio] at h
    rw [hda]
    split_ifs at h ⊢ <;> first | rfl | omega | exact absurd h (by decide)
  · intro h
    rw [hio] at h
    rw [hda]
    split_ifs at h ⊢ <;> first | rfl | omega | exact absurd h (by decide)

/-- C12 (witness): the table entries of the floppy data register 01560 after
`Setup_IO_Handlers` on the initial emulator state. -/
theorem Setup_IO_Handlers_table_witness :
    (0o1560 : Nat) < 65536 ∧
    ( Setup_IO_Handlers none false false emulator0).ioarr 0o1560 = some IOHandler.h_Floppy ∧
    ( Setup_IO_Handlers none false false emulator0).iodata 0o1560 = DataPtr.floppy_dev := by
  have h := Setup_IO_Handlers_table none false false emulator0 0o1560 (by decide)
  exact ⟨by decide, h.1, h.2.1 h.1⟩

/-! ## The telnet negotiation prefix -/

/-- C14: the negotiation prefix sent by `console_socket_thread` on an accepted connection is
the nine bytes FF FB 01 FF FB 03 FF FD F3: the initialiser of `telnet_setup` ends with
`0x0f3`.  The ninth byte is neither the 0F of the specification nor the 03 of IAC DO
SUPPRESS-GO-AHEAD, the sequence that the comment on the array names. -/
theorem telnet_sent_bytes :
    telnet_sent = [0xFF, 0xFB, 0x01, 0xFF, 0xFB, 0x03, 0xFF, 0xFD, 0xF3] ∧
    telnet_sent ≠ [0xFF, 0xFB, 0x01, 0xFF, 0xFB, 0x03, 0xFF, 0xFD, 0x0F] ∧
    telnet_sent ≠ [0xFF, 0xFB, 0x01, 0xFF, 0xFB, 0x03, 0xFF, 0xFD, 0x03] ∧
    telnet_sent.getD 8 0 = 0xF3 := by
  decide

/-! ## The console receive ring -/

lemma gA_setA (e : Emulator) (v : Nat) (hv : v < 65536) : gA (e.setA v).toMachine = v := by
  simp only [Emulator.setA, set_gA, gA, CpuRegs.setReg, CurrLEVEL, and_self, if_true]
  exact Nat.mod_eq_of_lt hv

lemma and_ff_lt (v : Nat) : v &&& 0x00ff < 65536 := by
  have : v &&& 0x00ff ≤ 0x00ff := Nat.and_le_right
  omega

/-- One read of the input data register while the ring holds data. -/
lemma Console_IO_read_data (e : Emulator) (t : tty_io_data) (ht : e.tty_arr 0 = some t)
    (hop : e.MODE_OPCOM = 0) (hne : t.rcv_fp ≠ t.rcv_cp) :
    Console_IO 0o300 e =
      (e.setA (t.rcv_arr t.rcv_cp &&& 0x00ff)).setTty0
        (if t.rcv_fp = (t.rcv_cp + 1) % 256
          then { t with rcv_cp := (t.rcv_cp + 1) % 256, in_status := t.in_status &&& 0xfff7 }
          else { t with rcv_cp := (t.rcv_cp + 1) % 256 }) := by
  unfold Console_IO
  rw [if_pos rfl]
  simp only [ht, hop, ne_eq, not_true_eq_false, if_false, hne, not_false_eq_true, if_true]

/-- One read of the input data register while the ring is empty. -/
lemma Console_IO_read_empty (e : Emulator) (t : tty_io_data) (ht : e.tty_arr 0 = some t)
    (hop : e.MODE_OPCOM = 0) (heq : t.rcv_fp = t.rcv_cp) :
    Console_IO 0o300 e = e.setA 0 := by
  unfold Console_IO
  rw [if_pos rfl]
  simp only [ht, hop, ne_eq, not_true_eq_false, if_false, heq]

/-- The ring invariant behind C13, for a non-empty content `c :: rest`. -/
lemma console_reads_ring (rest : List Nat) :
    ∀ (c : Nat) (e : Emulator) (t : tty_io_data),
      e.tty_arr 0 = some t → e.MODE_OPCOM = 0 → (c :: rest).length ≤ 255 → t.rcv_cp < 256 →
      t.rcv_fp = (t.rcv_cp + (c :: rest).length) % 256 →
      (∀ i, i < (c :: rest).length → t.rcv_arr ((t.rcv_cp + i) % 256) = (c :: rest).getD i 0) →
      (console_reads (c :: rest).length e).1 = (c :: rest).map (fun x => x &&& 0x00ff) ∧
      (console_reads (c :: rest).length e).2.tty_arr 0 =
        some { t with rcv_cp := t.rcv_fp, in_status := t.in_status &&& 0xfff7 } ∧
      (console_reads (c :: rest).length e).2.MODE_OPCOM = 0 ∧
      (∀ k, k < (c :: rest).length → ∃ tk, (console_reads k e).2.tty_arr 0 = some tk ∧
        tk.in_status = t.in_status) := by
  induction rest with
  | nil =>
    intro c e t ht hop _ hcp hfp hring
    have hfp1 : t.rcv_fp = (t.rcv_cp + 1) % 256 := hfp
    have hne : t.rcv_fp ≠ t.rcv_cp := by rw [hfp1]; omega
    have h0 : t.rcv_arr t.rcv_cp = c := by
      have := hring 0 (by simp)
      rwa [Nat.add_zero, Nat.mod_eq_of_lt hcp] at this
    have hstep := Console_IO_read_data e t ht hop hne
    rw [if_pos hfp1] at hstep
    refine ⟨?_, ?_, ?_, ?_⟩
    · show [gA ( Console_IO 0o300 e).toMachine] = [c &&& 0x00ff]
      rw [hstep, ← h0]
      show [gA (e.setA (t.rcv_arr t.rcv_cp &&& 0x00ff)).toMachine] = _
      rw [gA_setA _ _ (and_ff_lt _)]
    · show ( Console_IO 0o300 e).tty_arr 0 = _
      rw [hstep, hfp1]
      simp [Emulator.setTty0]
    · show ( Console_IO 0o300 e).MODE_OPCOM = 0
      rw [hstep]
      exact hop
    · intro k hk
      have hk0 : k = 0 := by simp at hk; exact hk
      subst hk0
      exact ⟨t, ht, rfl⟩
  | cons d rest ih =>
    intro c e t ht hop hlen hcp hfp hring
    have hl : (c :: d :: rest).length = rest.length + 2 := by simp
    rw [hl] at hlen hfp
    have hne : t.rcv_fp ≠ t.rcv_cp := by rw [hfp]; omega
    have hne1 : t.rcv_fp ≠ (t.rcv_cp + 1) % 256 := by rw [hfp]; omega
    have h0 : t.rcv_arr t.rcv_cp = c := by
      have := hring 0 (by simp)
      rwa [Nat.add_zero, Nat.mod_eq_of_lt hcp] at this
    have hstep := Console_IO_read_data e t ht hop hne
    rw [if_neg hne1] at hstep
    have ht1 : ( Console_IO 0o300 e).tty_arr 0 =
        some { t with rcv_cp := (t.rcv_cp + 1) % 256 } := by
      rw [hstep]
      simp [Emulator.setTty0]
    have hop1 : ( Console_IO 0o300 e).MODE_OPCOM = 0 := by
      rw [hstep]
      exact hop
    have hA : gA ( Console_IO 0o300 e).toMachine = c &&& 0x00ff := by
      rw [hstep, ← h0]
      show gA (e.setA (t.rcv_arr t.rcv_cp &&& 0x00ff)).toMachine = _
      rw [gA_setA _ _ (and_ff_lt _)]
    have hl1 : (d :: rest).length = rest.length + 1 := by simp
    have hrec := ih d ( Console_IO 0o300 e) { t with rcv_cp := (t.rcv_cp + 1) % 256 } ht1 hop1
      (by rw [hl1]; omega) (Nat.mod_lt _ (by decide))
      (by
        show t.rcv_fp = ((t.rcv_cp + 1) % 256 + (d :: rest).length) % 256
        rw [hfp, hl1]
        omega)
      (by
        intro i hi
        rw [hl1] at hi
        have := hring (i + 1) (by rw [hl]; omega)
        show t.rcv_arr (((t.rcv_cp + 1) % 256 + i) % 256) = _
        have e1 : ((t.rcv_cp + 1) % 256 + i) % 256 = (t.rcv_cp + (i + 1)) % 256 := by omega
        rw [e1, this]
        rfl)
    obtain ⟨r1, r2, r3, r4⟩ := hrec
    have hunf : console_reads (c :: d :: rest).length e =
        (gA ( Console_IO 0o300 e).toMachine :: (console_reads (d :: rest).length
          ( Console_IO 0o300 e)).1,
          (console_reads (d :: rest).length ( Console_IO 0o300 e)).2) := rfl
    refine ⟨?_, ?_, ?_, ?_⟩
    · rw [hunf]
      show gA ( Console_IO 0o300 e).toMachine :: _ = _
      rw [hA, r1]
      rfl
    · rw [hunf]
      exact r2
    · rw [hunf]
      exact r3
    · intro k hk
      cases k with
      | zero => exact ⟨t, ht, rfl⟩
      | succ k =>
        have hk1 : k < (d :: rest).length := by
          simp only [List.length_cons] at hk ⊢
          omega
        obtain ⟨tk, q1, q2⟩ := r4 k hk1
        exact ⟨tk, q1, q2⟩

/-- C13: with the console allocated and OPCOM mode off, let the receive ring hold the
entries `cs` (between 1 and 255 of them) from the consumer pointer up to the producer pointer,
at any pointer value and wrapping past 255.  Then `cs.length` successive reads of address 0300
put the low bytes of the entries into A in order; the input status is untouched before the
last of these reads and has bit 3 cleared by it, the consumer pointer then equals the
producer pointer; and one further read puts 0 into A and leaves the console record (ring
pointers included) unchanged. -/
theorem Console_IO_ring_reads (cs : List Nat) (e : Emulator) (t : tty_io_data)
    (ht : e.tty_arr 0 = some t) (hop : e.MODE_OPCOM = 0)
    (h1 : 1 ≤ cs.length) (h255 : cs.length ≤ 255) (hcp : t.rcv_cp < 256)
    (hfp : t.rcv_fp = (t.rcv_cp + cs.length) % 256)
    (hring : ∀ i, i < cs.length → t.rcv_arr ((t.rcv_cp + i) % 256) = cs.getD i 0) :
    (console_reads cs.length e).1 = cs.map (fun c => c &&& 0xFF) ∧
    (∀ k, k < cs.length → ∃ tk, (console_reads k e).2.tty_arr 0 = some tk ∧
      tk.in_status = t.in_status) ∧
    (console_reads cs.length e).2.tty_arr 0 =
      some { t with rcv_cp := t.rcv_fp, in_status := t.in_status &&& 0xfff7 } ∧
    (t.in_status &&& 0xfff7) &&& 0x0008 = 0 ∧
    gA ( Console_IO 0o300 (console_reads cs.length e).2).toMachine = 0 ∧
    ( Console_IO 0o300 (console_reads cs.length e).2).tty_arr 0 =
      (console_reads cs.length e).2.tty_arr 0 := by
  cases cs with
  | nil => simp at h1
  | cons c rest =>
    obtain ⟨r1, r2, r3, r4⟩ := console_reads_ring rest c e t ht hop h255 hcp hfp hring
    have hbit : (t.in_status &&& 0xfff7) &&& 0x0008 = 0 := by
      rw [Nat.and_assoc]
      exact Nat.and_zero _
    have hlast := Console_IO_read_empty (console_reads (c :: rest).length e).2
      { t with rcv_cp := t.rcv_fp, in_status := t.in_status &&& 0xfff7 } r2 r3 rfl
    refine ⟨r1, r4, r2, hbit, ?_, ?_⟩
    · rw [hlast]
      exact gA_setA _ 0 (by decide)
    · rw [hlast]
      rfl

/-- C13 (witness): two entries placed at ring indices 255 and 0; two reads return 0x41 and
0x42, and a third returns 0. -/
theorem Console_IO_ring_reads_witness :
    (console_reads 2 consoleEmu).1 = [0x41, 0x42] ∧
    gA ( Console_IO 0o300 (console_reads 2 consoleEmu).2).toMachine = 0 := by
  have hring : ∀ i, i < [0x141, 0x42].length →
      consoleTty.rcv_arr ((consoleTty.rcv_cp + i) % 256) = [0x141, 0x42].getD i 0 := by
    intro i hi
    have hi2 : i < 2 := hi
    interval_cases i <;> rfl
  have h := Console_IO_ring_reads [0x141, 0x42] consoleEmu consoleTty rfl rfl (by decide)
    (by decide) (by decide) rfl hring
  exact ⟨h.1, h.2.2.2.2.1⟩

/-! ## The floppy access mode read by `nd100emconf` -/

/-- C20: after `nd100emconf` has read a configuration, `FDD_IMAGE_RO` is true when
`floppy_image_access` is absent or not a string, false when it is "rw", and left at its
previous value for every other string, "ro" included.  From the start-up value (false) the
configuration `floppy_image_access = "ro"` therefore yields a writable image: `floppy_init`
then records `readonly = false` for unit 0. -/
theorem nd100emconf_floppy_access :
    (∀ (cfg : config_t) (g : ConfGlobals),
      (nd100emconf (some cfg) g).1.FDD_IMAGE_RO =
        match cfg "floppy_image_access" with
        | none => true
        | some setting =>
          match config_setting_get_string setting with
          | none => true
          | some tmpstr => if tmpstr = "rw" then false else g.FDD_IMAGE_RO) ∧
    (nd100emconf (some roConfig) ConfGlobals.start).1.FDD_IMAGE_RO = false ∧
    (nd100emconf (some roConfig) ConfGlobals.start).1.FDD_IMAGE_NAME = some "floppy.img" ∧
    ((floppy_init (nd100emconf (some roConfig) ConfGlobals.start).1.FDD_IMAGE_NAME
      (nd100emconf (some roConfig) ConfGlobals.start).1.FDD_IMAGE_RO true).unit.getD 0 none).map
        (fun u => u.readonly) = some false := by
  refine ⟨?_, ?_, ?_, ?_⟩
  · intro cfg g
    simp only [nd100emconf]
    cases cfg "floppy_image_access" with
    | none => rfl
    | some setting =>
      cases hs : config_setting_get_string setting with
      | none => simp only [hs]
      | some tmpstr => simp only [hs]
  · simp [nd100emconf, roConfig, ConfGlobals.start, config_setting_get_string]
  · simp [nd100emconf, roConfig, ConfGlobals.start, config_setting_get_string]
  · simp [nd100emconf, roConfig, ConfGlobals.start, config_setting_get_string, floppy_init]

/-! ## Digits: `printf` output against positional notation -/

lemma digitsFixed_length (b k n : Nat) : (digitsFixed b k n).length = k := by
  induction k generalizing n with
  | zero => rfl
  | succ k ih => simp [digitsFixed, ih]

lemma digitsFixed_zero (b k : Nat) : digitsFixed b k 0 = List.replicate k '0' := by
  induction k with
  | zero => rfl
  | succ k ih =>
    have h0 : Nat.digitChar 0 = '0' := rfl
    simp only [digitsFixed, Nat.zero_div, Nat.zero_mod, ih, h0]
    exact (List.replicate_succ' k '0').symm

/-- The digits that `Nat.toDigitsCore` produces are the positional digits of some width `m`
within any width `k` that the number fits. -/
lemma toDigitsCore_fixed (b : Nat) (hb : 2 ≤ b) (fuel : Nat) :
    ∀ (n : Nat) (ds : List Char) (k : Nat), n < fuel → n < b ^ k → 1 ≤ k →
      ∃ m, 1 ≤ m ∧ m ≤ k ∧ Nat.toDigitsCore b fuel n ds = digitsFixed b m n ++ ds ∧
        digitsFixed b k n = List.replicate (k - m) '0' ++ digitsFixed b m n := by
  induction fuel with
  | zero => intro n ds k h; omega
  | succ fuel ih =>
    intro n ds k hf hk h1
    rw [Nat.toDigitsCore.eq_2]
    obtain ⟨k1, rfl⟩ : ∃ k1, k = k1 + 1 := ⟨k - 1, by omega⟩
    by_cases hz : n / b = 0
    · rw [if_pos hz]
      refine ⟨1, le_refl 1, h1, ?_, ?_⟩
      · simp [digitsFixed]
      · simp only [digitsFixed, hz, digitsFixed_zero, Nat.add_sub_cancel, List.nil_append,
          List.append_assoc]
    · rw [if_neg hz]
      have hlt : n / b < n := Nat.div_lt_self (by
        rcases Nat.eq_zero_or_pos n with h0 | h0
        · rw [h0, Nat.zero_div] at hz; exact absurd rfl hz
        · exact h0) (by omega)
      have hk1 : 1 ≤ k1 := by
        rcases Nat.eq_zero_or_pos k1 with h0 | h0
        · subst h0
          rw [Nat.zero_add, Nat.pow_one] at hk
          exact absurd (Nat.div_eq_of_lt hk) hz
        · exact h0
      have hdiv : n / b < b ^ k1 := by
        rw [Nat.div_lt_iff_lt_mul (by omega)]
        rw [Nat.pow_succ] at hk
        exact hk
      obtain ⟨m, hm1, hm2, e1, e2⟩ := ih (n / b) (Nat.digitChar (n % b) :: ds) k1 (by omega)
        hdiv hk1
      refine ⟨m + 1, by omega, by omega, ?_, ?_⟩
      · rw [e1]
        simp [digitsFixed]
      · have : k1 + 1 - (m + 1) = k1 - m := by omega
        rw [this]
        simp only [digitsFixed, e2, List.append_assoc]

lemma fmt_u_fixed (b k n : Nat) (hb : 2 ≤ b) (hk : 1 ≤ k) (hn : n < b ^ k) :
    fmt_u b k n = digitsFixed b k n := by
  obtain ⟨m, _, _, e1, e2⟩ := toDigitsCore_fixed b hb (n + 1) n [] k (by omega) hn hk
  have e3 : Nat.toDigits b n = digitsFixed b m n := by
    unfold Nat.toDigits
    rw [e1, List.append_nil]
  unfold fmt_u
  rw [e3, digitsFixed_length, e2]

/-- Without padding, `printf` writes the positional digits of some width up to `k`. -/
lemma fmt_u_zero_width (b k n : Nat) (hb : 2 ≤ b) (hk : 1 ≤ k) (hn : n < b ^ k) :
    ∃ m, 1 ≤ m ∧ m ≤ k ∧ fmt_u b 0 n = digitsFixed b m n ∧
      digitsFixed b k n = List.replicate (k - m) '0' ++ digitsFixed b m n := by
  obtain ⟨m, h1, h2, e1, e2⟩ := toDigitsCore_fixed b hb (n + 1) n [] k (by omega) hn hk
  refine ⟨m, h1, h2, ?_, e2⟩
  unfold fmt_u Nat.toDigits
  rw [e1, List.append_nil, Nat.zero_sub]
  rfl

lemma isMemEmpty_iff (value : Nat → Nat) (n start : Nat) :
    isMemEmpty value start n = true ↔ ∀ j, j < n → value (start + j) = 0 := by
  induction n generalizing start with
  | zero => simp [isMemEmpty]
  | succ n ih =>
    simp only [isMemEmpty]
    by_cases h : value start = 0
    · simp only [h, ne_eq, not_true_eq_false, if_false, ih]
      constructor
      · intro hall j hj
        rcases Nat.eq_zero_or_pos j with h0 | h0
        · subst h0; exact h
        · have := hall (j - 1) (by omega)
          have e : start + 1 + (j - 1) = start + j := by omega
          rwa [e] at this
      · intro hall j hj
        have := hall (j + 1) (by omega)
        have e : start + (j + 1) = start + 1 + j := by omega
        rwa [e] at this
    · simp only [h, ne_eq, not_false_eq_true, if_true]
      constructor
      · intro hf; exact absurd hf (by decide)
      · intro hall
        exact absurd (hall 0 (by omega)) h

lemma print_block_spec (value : Nat → Nat) (i n j : Nat)
    (hb : ∀ t, t < n → value (i + (j + t)) < 256) :
    print_block value i n j =
      (List.range n).flatMap (fun t => digitsFixed 16 2 (value (i + (j + t)))) := by
  induction n generalizing j with
  | zero => rfl
  | succ n ih =>
    rw [List.range_succ_eq_map, List.flatMap_cons, List.flatMap_map, print_block,
      ih (j + 1) (fun t ht => by
        have := hb (t + 1) (by omega)
        have e : j + (t + 1) = j + 1 + t := by omega
        rwa [e] at this)]
    have h0 := hb 0 (by omega)
    rw [fmt_u_fixed 16 2 _ (by decide) (by decide) (by simpa using h0)]
    congr 1
    apply List.flatMap_congr
    intro t _
    have e : j + 1 + t = j + t.succ := by omega
    rw [e]

/-- C15: on the save path, for a memory image of `nb` whole blocks of bytes, `state_block`
writes, in address order, one record for every 512-byte block that holds a non-zero byte and
nothing for an all-zero block; a record is the key, `-`, the block offset as 8 hexadecimal
digits, `=`, the 512 bytes of the block in address order as two hexadecimal digits each, and
a newline.  With the key `MEM` this is `MEM-<8 hex digits>=<1024 hex digits>`. -/
theorem state_block_save_records (s : state) ( key_prefix : List Char) (value : Nat → Nat)
    (nb : Nat) (hs : s.load = false) (hsize : 512 * nb < 2 ^ 31)
    (hb : ∀ a, a < 512 * nb → value a < 256) :
    state_block s key_prefix value (512 * nb) =
      some ({ s with output := s.output ++ (List.range nb).flatMap (fun k =>
        if ∀ j, j < 512 → value (512 * k + j) = 0 then []
        else key_prefix ++ ('-' :: digitsFixed 16 8 (512 * k)) ++
          ('=' :: (List.range 512).flatMap
            (fun j => digitsFixed 16 2 (value (512 * k + j)))) ++ [NL]) }, value) ∧
    (∀ k, (digitsFixed 16 8 (512 * k)).length = 8) ∧
    (∀ k, ((List.range 512).flatMap
      (fun j => digitsFixed 16 2 (value (512 * k + j)))).length = 1024) := by
  have hbl : blockLen = 512 := rfl
  have hloop : ∀ n i, i + 512 * n < 2 ^ 31 → (∀ a, a < i + 512 * n → value a < 256) →
      state_block_save key_prefix value n i =
        (List.range n).flatMap (fun k =>
          if ∀ j, j < 512 → value (i + 512 * k + j) = 0 then []
          else key_prefix ++ ('-' :: digitsFixed 16 8 (i + 512 * k)) ++
            ('=' :: (List.range 512).flatMap
              (fun j => digitsFixed 16 2 (value (i + 512 * k + j)))) ++ [NL]) := by
    intro n
    induction n with
    | zero => intro i _ _; rfl
    | succ n ih =>
      intro i hsz hby
      rw [List.range_succ_eq_map, List.flatMap_cons, List.flatMap_map, state_block_save,
        ih (i + blockLen) (by rw [hbl]; omega) (fun a ha => hby a (by rw [hbl] at ha; omega))]
      refine congrArg₂ (fun x y => x ++ y) ?_ ?_
      · by_cases hz : ∀ j, j < 512 → value (i + j) = 0
        · have hE : isMemEmpty value i blockLen = true := (isMemEmpty_iff value 512 i).2 hz
          have hz2 : ∀ j, j < 512 → value (i + 512 * 0 + j) = 0 := by simpa using hz
          rw [if_pos hz2, hE]
          rfl
        · have hE : isMemEmpty value i blockLen ≠ true := fun h =>
            hz ((isMemEmpty_iff value 512 i).1 h)
          have hz2 : ¬ ∀ j, j < 512 → value (i + 512 * 0 + j) = 0 := by simpa using hz
          rw [if_neg hz2]
          have hE2 : (!isMemEmpty value i blockLen) = true := by simpa using hE
          rw [if_pos hE2, save_record, print_block_spec value i blockLen 0 (fun t ht => hby _ (by
            rw [hbl] at ht; omega)), fmt_u_fixed 16 8 i (by decide) (by decide) (by
            have : (16 : Nat) ^ 8 = 4294967296 := by norm_num
            omega)]
          simp only [Nat.mul_zero, Nat.add_zero, Nat.zero_add, hbl]
      · apply List.flatMap_congr
        intro k _
        have e : i + blockLen + 512 * k = i + 512 * k.succ := by rw [hbl]; omega
        rw [e]
  refine ⟨?_, fun k => digitsFixed_length 16 8 _, ?_⟩
  · unfold state_block
    have hmod : 512 * nb % blockLen = 0 := by rw [hbl]; omega
    have hdiv : 512 * nb / blockLen = nb := by rw [hbl]; omega
    simp only [hs, Bool.false_eq_true, if_false, hmod, if_true, hdiv]
    rw [hloop nb 0 (by omega) (fun a ha => hb a (by omega))]
    simp only [Nat.zero_add]
  · intro k
    rw [List.length_flatMap]
    have : (List.length ∘ fun j => digitsFixed 16 2 (value (512 * k + j))) = fun _ => 2 := by
      funext j
      exact digitsFixed_length 16 2 _
    rw [this, List.map_const', List.length_range, List.sum_replicate, smul_eq_mul]

/-- C15 (witness): a two-block image whose second block holds one non-zero byte. -/
theorem state_block_save_records_witness :
    saveState.load = false ∧
    ∃ out, state_block saveState "MEM".toList sampleMem (512 * 2) = some (out, sampleMem) :=
  ⟨rfl, _, (state_block_save_records saveState "MEM".toList sampleMem 2 rfl (by norm_num)
    (fun a _ => by unfold sampleMem; split_ifs <;> omega)).1⟩

/-! ## Scanning what `printf` wrote -/

lemma digitChar_facts : ∀ d, d < 16 →
    digitVal (Nat.digitChar d) = some d ∧ isspace (Nat.digitChar d) = false ∧
    Nat.digitChar d ≠ '-' ∧ Nat.digitChar d ≠ '+' ∧ Nat.digitChar d ≠ 'x' ∧
    Nat.digitChar d ≠ 'X' ∧ Nat.digitChar d ≠ '=' ∧ Nat.digitChar d ≠ NUL ∧
    Nat.digitChar d ≠ NL := by
  decide

lemma digitOf_digitChar (b d : Nat) (hd : d < b) (hb : b ≤ 16) :
    digitOf b (Nat.digitChar d) = some d := by
  unfold digitOf
  rw [(digitChar_facts d (by omega)).1]
  simp only [hd, if_true]

lemma digitsFixed_mem (b : Nat) (hb : 1 ≤ b) (k n : Nat) :
    ∀ c ∈ digitsFixed b k n, ∃ d, d < b ∧ c = Nat.digitChar d := by
  induction k generalizing n with
  | zero => intro c hc; simp [digitsFixed] at hc
  | succ k ih =>
    intro c hc
    simp only [digitsFixed, List.mem_append, List.mem_singleton] at hc
    rcases hc with hc | hc
    · exact ih _ c hc
    · exact ⟨n % b, Nat.mod_lt _ (by omega), hc⟩

lemma parseAcc_digitsFixed (b : Nat) (hb : 2 ≤ b) (hb16 : b ≤ 16) (k : Nat) :
    ∀ (n acc : Nat) (rest : List Char),
      parseAcc b acc (digitsFixed b k n ++ rest) = parseAcc b (acc * b ^ k + n % b ^ k) rest := by
  induction k with
  | zero =>
    intro n acc rest
    simp [digitsFixed, Nat.mod_one]
  | succ k ih =>
    intro n acc rest
    have hd := digitOf_digitChar b (n % b) (Nat.mod_lt _ (by omega)) hb16
    simp only [digitsFixed, List.append_assoc, List.singleton_append]
    rw [ih (n / b) acc (Nat.digitChar (n % b) :: rest)]
    simp only [parseAcc, hd]
    congr 1
    have e1 : n % b ^ (k + 1) = n % b + b * (n / b % b ^ k) := by
      rw [pow_succ, Nat.mul_comm (b ^ k) b, Nat.mod_mul]
    rw [e1, pow_succ]
    ring

lemma parseAcc_stop (b acc : Nat) (c : Char) (rest : List Char) (h : digitOf b c = none) :
    parseAcc b acc (c :: rest) = acc := by
  simp only [parseAcc, h]

/-- The conversion on a text whose first character is a digit, with no hexadecimal mark. -/
lemma scan_number_plain (base : Nat) (width : Option Nat) (str : List Char) (c0 : Char)
    (t : List Char) (d0 : Nat)
    (hs2 : (match width with
      | some w => (str.dropWhile isspace).take w
      | none => str.dropWhile isspace) = c0 :: t)
    (hm : c0 ≠ '-') (hp : c0 ≠ '+') (hmark : hasHexMark (c0 :: t) = false) (hb0 : base ≠ 0)
    (hd : digitOf base c0 = some d0) :
    scan_number base width str = some (parseAcc base 0 (c0 :: t) : Int) := by
  have h1 : ¬ (some c0 = some '-') := fun h => hm (Option.some.inj h)
  have h2 : ¬ (some c0 = some '+') := fun h => hp (Option.some.inj h)
  simp only [scan_number, hs2, List.head?_cons, h1, h2, or_self, if_false, hmark,
    Bool.false_eq_true, and_false, decide_False, hb0, hd]

lemma dropWhile_isspace_digit (c : Char) (t : List Char) (h : isspace c = false) :
    (c :: t).dropWhile isspace = c :: t :=
  List.dropWhile_cons_of_neg (by simp [h])

/-- The conversion `%08x` on eight hexadecimal digits written by `%08x`. -/
lemma scan_hex8 (n : Nat) (hn : n < 16 ^ 8) (rest : List Char) :
    scan_number 16 (some 8) (digitsFixed 16 8 n ++ rest) = some (n : Int) := by
  have hlen := digitsFixed_length 16 8 n
  have hmem := digitsFixed_mem 16 (by decide) 8 n
  obtain ⟨c0, c1, t, e⟩ : ∃ c0 c1 t, digitsFixed 16 8 n = c0 :: c1 :: t := by
    match h : digitsFixed 16 8 n with
    | [] => rw [h] at hlen; simp at hlen
    | [_] => rw [h] at hlen; simp at hlen
    | c0 :: c1 :: t => exact ⟨c0, c1, t, rfl⟩
  rw [e] at hmem hlen
  obtain ⟨d0, hd0, rfl⟩ := hmem c0 (by simp)
  obtain ⟨d1, hd1, rfl⟩ := hmem c1 (by simp)
  have f0 := digitChar_facts d0 hd0
  have f1 := digitChar_facts d1 hd1
  have hmark : hasHexMark (Nat.digitChar d0 :: Nat.digitChar d1 :: t) = false := by
    cases t with
    | nil => rfl
    | cons h t =>
      simp only [hasHexMark, f1.2.2.2.2.1, f1.2.2.2.2.2.1, or_self, false_and, and_false,
        decide_False]
  have hp := scan_number_plain 16 (some 8) (digitsFixed 16 8 n ++ rest) (Nat.digitChar d0)
    (Nat.digitChar d1 :: t) d0 (by
      show ((digitsFixed 16 8 n ++ rest).dropWhile isspace).take 8 = _
      rw [e]
      show (((Nat.digitChar d0) :: (Nat.digitChar d1 :: t ++ rest)).dropWhile isspace).take 8 = _
      rw [dropWhile_isspace_digit _ _ f0.2.1]
      exact List.take_left' hlen) f0.2.2.1 f0.2.2.2.1 hmark (by decide)
    (digitOf_digitChar 16 d0 hd0 (by decide))
  rw [hp, ← e]
  have h3 := parseAcc_digitsFixed 16 (by decide) (by decide) 8 n 0 []
  rw [List.append_nil] at h3
  rw [h3]
  simp only [parseAcc, Nat.zero_mul, Nat.zero_add, Nat.mod_eq_of_lt hn]

/-- The call `strtoul(scan, NULL, 16)` on the two digits that `%02x` wrote for a byte. -/
lemma strtoul16_byte (b : Nat) (hb : b < 256) : strtoul16 (digitsFixed 16 2 b) = b := by
  have hlen := digitsFixed_length 16 2 b
  have hmem := digitsFixed_mem 16 (by decide) 2 b
  obtain ⟨c0, c1, e⟩ : ∃ c0 c1, digitsFixed 16 2 b = [c0, c1] := by
    match h : digitsFixed 16 2 b with
    | [] => rw [h] at hlen; simp at hlen
    | [_] => rw [h] at hlen; simp at hlen
    | [c0, c1] => exact ⟨c0, c1, rfl⟩
    | _ :: _ :: _ :: _ => rw [h] at hlen; simp at hlen
  rw [e] at hmem
  obtain ⟨d0, hd0, rfl⟩ := hmem c0 (by simp)
  have f0 := digitChar_facts d0 hd0
  have hp := scan_number_plain 16 none (digitsFixed 16 2 b) (Nat.digitChar d0) [c1] d0 (by
      show (digitsFixed 16 2 b).dropWhile isspace = _
      rw [e]
      exact dropWhile_isspace_digit _ _ f0.2.1) f0.2.2.1 f0.2.2.2.1 rfl (by decide)
    (digitOf_digitChar 16 d0 hd0 (by decide))
  unfold strtoul16
  rw [hp, ← e]
  have h3 := parseAcc_digitsFixed 16 (by decide) (by decide) 2 b 0 []
  rw [List.append_nil] at h3
  rw [h3]
  simp only [parseAcc, Nat.zero_mul, Nat.zero_add, Option.getD_some]
  have : b % 16 ^ 2 = b := Nat.mod_eq_of_lt (by norm_num; exact hb)
  rw [this]
  omega

/-! ## Reading the snapshot back -/

lemma cstr_id (l : List Char) (h : NUL ∉ l) : cstr l = l := by
  unfold cstr
  rw [List.takeWhile_eq_self_iff]
  intro x hx
  have : x ≠ NUL := fun e => h (e ▸ hx)
  simpa using this

lemma fgets_chars_line (body rest : List Char) :
    ∀ n, NL ∉ body → body.length < n → fgets_chars n (body ++ NL :: rest) = (body ++ [NL], rest) := by
  induction body with
  | nil =>
    intro n _ hlen
    obtain ⟨m, rfl⟩ : ∃ m, n = m + 1 := ⟨n - 1, by simp at hlen; omega⟩
    simp [fgets_chars]
  | cons c body ih =>
    intro n hNL hlen
    obtain ⟨m, rfl⟩ : ∃ m, n = m + 1 := ⟨n - 1, by simp at hlen; omega⟩
    have hc : c ≠ NL := fun e => hNL (by rw [e]; simp)
    have hb : NL ∉ body := fun h => hNL (List.mem_cons_of_mem _ h)
    have hl : body.length < m := by simp at hlen; omega
    simp only [List.cons_append, fgets_chars, hc, if_false, List.append_eq, ih m hb hl]

/-- What `next` does on the load path when the unread input starts with a full line. -/
lemma next_line (l0 o body rest : List Char) (hNL : NL ∉ body) (hNUL : NUL ∉ body)
    (hlen : body.length < 2047) :
    next { load := true, line := l0, input := body ++ NL :: rest, output := o } =
      { load := true, line := body ++ [NL], input := rest, output := o } := by
  have hne : body ++ NL :: rest ≠ [] := by simp
  have hN : NUL ∉ body ++ [NL] := by
    intro h
    rcases List.mem_append.1 h with h | h
    · exact hNUL h
    · simp at h
      exact absurd h (by decide)
  simp only [next, fgets, if_true, hne, if_false, fgets_chars_line body rest 2047 hNL hlen,
    cstr_id _ hN]

lemma fgets_chars_input_lt (n : Nat) (inp : List Char) (h : inp ≠ []) :
    (fgets_chars (n + 1) inp).2.length < inp.length := by
  induction inp generalizing n with
  | nil => exact absurd rfl h
  | cons c cs ih =>
    simp only [fgets_chars]
    by_cases hc : c = NL
    · simp [hc]
    · simp only [hc, if_false, List.length_cons]
      cases n with
      | zero => simp [fgets_chars]
      | succ n =>
        cases cs with
        | nil => simp [fgets_chars]
        | cons d ds =>
          have := ih n (by simp)
          simp only [List.length_cons] at this ⊢
          omega

lemma next_input_lt (s : state) (hl : s.load = true) (h : s.input ≠ []) :
    (next s).input.length < s.input.length := by
  simp only [next, hl, if_true, fgets, h, if_false]
  exact fgets_chars_input_lt 2046 s.input h

lemma next_load (s : state) : (next s).load = s.load := by
  unfold next fgets
  split_ifs <;> rfl

lemma dropWhile_until (p : Char → Bool) (l : List Char) (c : Char) (r : List Char)
    (hl : ∀ x ∈ l, p x = true) (hc : p c = false) : (l ++ c :: r).dropWhile p = c :: r := by
  induction l with
  | nil => simp [List.dropWhile, hc]
  | cons a l ih =>
    have ha : p a = true := hl a (by simp)
    simp only [List.cons_append, List.dropWhile, ha]
    exact ih (fun x hx => hl x (List.mem_cons_of_mem _ hx))

lemma print_block_succ (M : Nat → Nat) (i n j : Nat) (h : M (i + j) < 256) :
    print_block M i (n + 1) j = digitsFixed 16 2 (M (i + j)) ++ print_block M i n (j + 1) := by
  rw [print_block, fmt_u_fixed 16 2 _ (by decide) (by decide) (by simpa using h)]

lemma print_block_mem (M : Nat → Nat) (i n : Nat) :
    ∀ j, (∀ t, t < n → M (i + (j + t)) < 256) →
      ∀ c ∈ print_block M i n j, ∃ d, d < 16 ∧ c = Nat.digitChar d := by
  induction n with
  | zero => intro j _ c hc; simp [print_block] at hc
  | succ n ih =>
    intro j hb c hc
    rw [print_block_succ M i n j (by simpa using hb 0 (by omega))] at hc
    rcases List.mem_append.1 hc with hc | hc
    · exact digitsFixed_mem 16 (by decide) 2 _ c hc
    · exact ih (j + 1) (fun t ht => by
        have := hb (t + 1) (by omega)
        have e : j + (t + 1) = j + 1 + t := by omega
        rwa [e] at this) c hc

lemma print_block_length (M : Nat → Nat) (i n : Nat) :
    ∀ j, (∀ t, t < n → M (i + (j + t)) < 256) → (print_block M i n j).length = 2 * n := by
  induction n with
  | zero => intro j _; rfl
  | succ n ih =>
    intro j hb
    rw [print_block_succ M i n j (by simpa using hb 0 (by omega)), List.length_append,
      digitsFixed_length, ih (j + 1) (fun t ht => by
        have := hb (t + 1) (by omega)
        have e : j + (t + 1) = j + 1 + t := by omega
        rwa [e] at this)]
    omega

/-- The load loop over the digits that the save loop wrote restores the bytes. -/
lemma load_block_print (M : Nat → Nat) (size i n : Nat) :
    ∀ (j : Nat) (v : Nat → Nat) (rest : List Char),
      (∀ t, t < n → M (i + (j + t)) < 256) → i + j + n ≤ size →
      load_block size (i : Int) n j (print_block M i n j ++ rest) v =
        some (fun a => if i + j ≤ a ∧ a < i + j + n then M a else v a) := by
  induction n with
  | zero =>
    intro j v rest _ _
    have : (fun a => if i + j ≤ a ∧ a < i + j + 0 then M a else v a) = v := by
      funext a
      rw [if_neg (by omega)]
    rw [this]
    rfl
  | succ n ih =>
    intro j v rest hb hsz
    have hx : M (i + j) < 256 := by simpa using hb 0 (by omega)
    rw [print_block_succ M i n j hx]
    have hlen := digitsFixed_length 16 2 (M (i + j))
    obtain ⟨c0, c1, e⟩ : ∃ c0 c1, digitsFixed 16 2 (M (i + j)) = [c0, c1] := by
      match h : digitsFixed 16 2 (M (i + j)) with
      | [] => rw [h] at hlen; simp at hlen
      | [_] => rw [h] at hlen; simp at hlen
      | [c0, c1] => exact ⟨c0, c1, rfl⟩
      | _ :: _ :: _ :: _ => rw [h] at hlen; simp at hlen
    have hs := strtoul16_byte (M (i + j)) hx
    rw [e] at hs ⊢
    have hin : (0 : Int) ≤ (i : Int) + (j : Int) ∧ (i : Int) + (j : Int) < (size : Int) := by
      constructor <;> omega
    have htn : ((i : Int) + (j : Int)).toNat = i + j := by omega
    simp only [List.cons_append, List.nil_append, load_block, hin, and_self, if_true, hs, htn,
      Nat.mod_eq_of_lt hx, List.append_eq]
    rw [ih (j + 1) _ rest (fun t ht => by
      have := hb (t + 1) (by omega)
      have e : j + (t + 1) = j + 1 + t := by omega
      rwa [e] at this) (by omega)]
    congr 1
    funext a
    by_cases h1 : i + (j + 1) ≤ a ∧ a < i + (j + 1) + n
    · rw [if_pos h1, if_pos (by omega)]
    · rw [if_neg h1]
      by_cases h2 : a = i + j
      · rw [if_pos h2, if_pos (by omega), h2]
      · rw [if_neg h2, if_neg (by omega)]

/-- The record of a block, with the digits in positional notation. -/
lemma save_record_form ( key_prefix : List Char) (M : Nat → Nat) (i : Nat) (hi : i < 2 ^ 31) :
    save_record key_prefix M i =
      key_prefix ++ ('-' :: (digitsFixed 16 8 i ++ ('=' :: (print_block M i 512 0 ++ [NL])))) := by
  have h16 : i < 16 ^ 8 := by
    have : (16 : Nat) ^ 8 = 4294967296 := by norm_num
    omega
  simp only [save_record, fmt_u_fixed 16 8 i (by decide) (by decide) h16, blockLen,
    List.append_assoc, List.cons_append]

/-- A record is one line that fits the line buffer. -/
lemma save_record_line ( key_prefix : List Char) (M : Nat → Nat) (i : Nat) (hi : i < 2 ^ 31)
    (hNUL : NUL ∉ key_prefix) (hNL : NL ∉ key_prefix) (hklen : key_prefix.length ≤ 1000)
    (hb : ∀ t, t < 512 → M (i + t) < 256) (l0 o rest : List Char) :
    next { load := true, line := l0, input := save_record key_prefix M i ++ rest, output := o } =
      { load := true, line := save_record key_prefix M i, input := rest, output := o } := by
  have hb2 : ∀ t, t < 512 → M (i + (0 + t)) < 256 := fun t ht => by simpa using hb t ht
  have hform := save_record_form key_prefix M i hi
  have hbody : save_record key_prefix M i =
      ( key_prefix ++ ('-' :: (digitsFixed 16 8 i ++ ('=' :: print_block M i 512 0)))) ++ [NL] := by
    rw [hform]
    simp only [List.append_assoc, List.cons_append]
  have hchars : ∀ x ∈ key_prefix ++ ('-' :: (digitsFixed 16 8 i ++ ('=' :: print_block M i 512 0))),
      x ∈ key_prefix ∨ x = '-' ∨ x = '=' ∨ ∃ d, d < 16 ∧ x = Nat.digitChar d := by
    intro x hx
    simp only [List.mem_append, List.mem_cons] at hx
    rcases hx with hx | hx | hx | hx | hx
    · exact Or.inl hx
    · exact Or.inr (Or.inl hx)
    · exact Or.inr (Or.inr (Or.inr (digitsFixed_mem 16 (by decide) 8 i x hx)))
    · exact Or.inr (Or.inr (Or.inl hx))
    · exact Or.inr (Or.inr (Or.inr (print_block_mem M i 512 0 hb2 x hx)))
  rw [hbody, List.append_assoc, List.singleton_append]
  refine next_line l0 o _ rest ?_ ?_ ?_
  · intro h
    rcases hchars NL h with h1 | h1 | h1 | ⟨d, hd, h1⟩
    · exact hNL h1
    · exact absurd h1 (by decide)
    · exact absurd h1 (by decide)
    · exact (digitChar_facts d hd).2.2.2.2.2.2.2.2 h1.symm
  · intro h
    rcases hchars NUL h with h1 | h1 | h1 | ⟨d, hd, h1⟩
    · exact hNUL h1
    · exact absurd h1 (by decide)
    · exact absurd h1 (by decide)
    · exact (digitChar_facts d hd).2.2.2.2.2.2.2.1 h1.symm
  · simp only [List.length_append, List.length_cons, digitsFixed_length,
      print_block_length M i 512 0 hb2]
    omega

/-- The body of the load loop on a record restores the block of the record. -/
lemma load_line_record ( key_prefix : List Char) (M : Nat → Nat) (size i : Nat)
    (v : Nat → Nat) (hsz : i + 512 ≤ size) (hsize : size < 2 ^ 31)
    (hb : ∀ t, t < 512 → M (i + t) < 256) :
    load_line key_prefix size (save_record key_prefix M i) v =
      some (fun a => if i ≤ a ∧ a < i + 512 then M a else v a) := by
  have hb2 : ∀ t, t < 512 → M (i + (0 + t)) < 256 := fun t ht => by simpa using hb t ht
  have h16 : i < 16 ^ 8 := by
    have : (16 : Nat) ^ 8 = 4294967296 := by norm_num
    omega
  have hdw : List.dropWhile (fun c => c != '=')
      (digitsFixed 16 8 i ++ ('=' :: (print_block M i 512 0 ++ [NL]))) =
      '=' :: (print_block M i 512 0 ++ [NL]) := by
    apply dropWhile_until
    · intro x hx
      obtain ⟨d, hd, rfl⟩ := digitsFixed_mem 16 (by decide) 8 i x hx
      simpa using (digitChar_facts d hd).2.2.2.2.2.2.1
    · simp
  have hti : toInt (i : Int) = (i : Int) := by
    unfold toInt
    omega
  have hlb := load_block_print M size i 512 0 v [NL] hb2 (by omega)
  simp only [Nat.add_zero] at hlb
  simp only [load_line, save_record_form key_prefix M i (by omega), List.drop_left, if_true,
    scan_hex8 i h16, hti, hdw, List.drop_succ_cons, List.drop_zero, blockLen, hlb]

/-- One pass of the load loop on a record: at end of file the loop never ends, otherwise it
goes on with the next line and the block restored. -/
lemma state_block_load_record ( key_prefix : List Char) (M : Nat → Nat) (size i fuel : Nat)
    (v : Nat → Nat) (X o : List Char) (hsz : i + 512 ≤ size) (hsize : size < 2 ^ 31)
    (hb : ∀ t, t < 512 → M (i + t) < 256) :
    state_block_load key_prefix size (fuel + 1)
      { load := true, line := save_record key_prefix M i, input := X, output := o } v =
      if X = [] then none
      else state_block_load key_prefix size fuel
        (next { load := true, line := save_record key_prefix M i, input := X, output := o })
        (fun a => if i ≤ a ∧ a < i + 512 then M a else v a) := by
  have hcmp : strncmp_eq (save_record key_prefix M i) key_prefix key_prefix.length = true := by
    unfold strncmp_eq
    rw [save_record_form key_prefix M i (by omega), List.take_left, List.take_length]
    exact beq_self_eq_true _
  simp only [state_block_load, hcmp, if_true, load_line_record key_prefix M size i v hsz hsize hb]

/-- A line whose first character differs from the first character of the key ends the load
loop. -/
lemma first_line_nomatch ( key_prefix : List Char) (k0 : Char) (kt : List Char)
    (hk : key_prefix = k0 :: kt) (c : Char) (t l o : List Char) (hc : c ≠ k0) :
    strncmp_eq (next { load := true, line := l, input := c :: t, output := o }).line
      key_prefix key_prefix.length = false := by
  have hf : fgets_chars 2047 (c :: t) =
      if c = NL then ([c], t) else (c :: (fgets_chars 2046 t).1, (fgets_chars 2046 t).2) := rfl
  have hline : ∃ r, (next { load := true, line := l, input := c :: t, output := o }).line = [] ∨
      (next { load := true, line := l, input := c :: t, output := o }).line = c :: r := by
    simp only [next, if_true, fgets, List.cons_ne_nil, if_false, hf]
    by_cases h0 : c = NUL
    · exact ⟨[], Or.inl (by
        split_ifs <;> simp [cstr, h0])⟩
    · by_cases h1 : c = NL
      · exact ⟨[], Or.inr (by simp [h1, cstr]; decide)⟩
      · exact ⟨cstr (fgets_chars 2046 t).1, Or.inr (by simp [h1, cstr, h0])⟩
  obtain ⟨r, h | h⟩ := hline
  · rw [h, hk]
    rfl
  · rw [h, hk]
    unfold strncmp_eq
    simp only [List.length_cons, List.take_succ_cons]
    rw [beq_eq_false_iff_ne]
    intro e
    exact hc (List.cons.inj e).1

/-! ## Memory records: save, then load -/

/-- The bound on the passes of the load loop used by `state_block` is never what stops it: any
two bounds above the length of the unread input give the same result. -/
lemma state_block_load_fuel ( key_prefix : List Char) (size n : Nat) :
    ∀ (s : state) (v : Nat → Nat) (f1 f2 : Nat), s.load = true → s.input.length ≤ n →
      n < f1 → n < f2 →
      state_block_load key_prefix size f1 s v = state_block_load key_prefix size f2 s v := by
  induction n with
  | zero =>
    intro s v f1 f2 _ hlen h1 h2
    obtain ⟨a, rfl⟩ : ∃ a, f1 = a + 1 := ⟨f1 - 1, by omega⟩
    obtain ⟨b, rfl⟩ : ∃ b, f2 = b + 1 := ⟨f2 - 1, by omega⟩
    have hin : s.input = [] := List.length_eq_zero.1 (by omega)
    simp only [state_block_load, hin, if_true]
  | succ n ih =>
    intro s v f1 f2 hl hlen h1 h2
    obtain ⟨a, rfl⟩ : ∃ a, f1 = a + 1 := ⟨f1 - 1, by omega⟩
    obtain ⟨b, rfl⟩ : ∃ b, f2 = b + 1 := ⟨f2 - 1, by omega⟩
    simp only [state_block_load]
    by_cases hc : strncmp_eq s.line key_prefix key_prefix.length = true
    · simp only [hc, if_true]
      cases load_line key_prefix size s.line v with
      | none => rfl
      | some v1 =>
        by_cases hin : s.input = []
        · simp only [hin, if_true]
        · simp only [hin, if_false]
          have hlt := next_input_lt s hl hin
          exact ih (next s) v1 a b (by rw [next_load]; exact hl) (by omega) (by omega)
            (by omega)
    · simp only [hc, Bool.false_eq_true, if_false]

/-- What `next` reads from a file that is not at its end does not depend on the line buffer. -/
lemma next_of_input (l o rest : List Char) (h : rest ≠ []) :
    next { load := true, line := l, input := rest, output := o } =
      { load := true, line := cstr (fgets_chars 2047 rest).1,
        input := (fgets_chars 2047 rest).2, output := o } := by
  simp only [next, fgets, if_true, h, if_false]

/-- The load loop on the records of the blocks `i, i + 512, ...` (`n` of them) of an image `M`,
followed by text whose first line does not start with the key: the loop returns, and the
memory `v` it started with has been overwritten with `M` in the blocks that have a record;
the other blocks of `M` are zero. -/
lemma state_block_load_run ( key_prefix : List Char) (M : Nat → Nat) (nb : Nat)
    (rest o : List Char) (hNUL : NUL ∉ key_prefix) (hNL : NL ∉ key_prefix)
    (hklen : key_prefix.length ≤ 1000) (hsize : 512 * nb < 2 ^ 31)
    (hb : ∀ a, a < 512 * nb → M a < 256) (hrest : rest ≠ [])
    (hno : strncmp_eq (cstr (fgets_chars 2047 rest).1) key_prefix key_prefix.length = false) :
    ∀ (n i fuel : Nat) (l0 : List Char) (v : Nat → Nat), i + 512 * n ≤ 512 * nb →
      (next { load := true, line := l0,
              input := state_block_save key_prefix M n i ++ rest, output := o }).input.length
        < fuel →
      ∃ sf v1, state_block_load key_prefix (512 * nb) fuel
          (next { load := true, line := l0,
                  input := state_block_save key_prefix M n i ++ rest, output := o }) v =
        some (sf, v1) ∧
        ∀ a, (i ≤ a ∧ a < i + 512 * n → v1 a = M a ∨ (M a = 0 ∧ v1 a = v a)) ∧
          (¬ (i ≤ a ∧ a < i + 512 * n) → v1 a = v a) := by
  have hbl : blockLen = 512 := rfl
  intro n
  induction n with
  | zero =>
    intro i fuel l0 v _ hfuel
    obtain ⟨f, rfl⟩ : ∃ f, fuel = f + 1 := ⟨fuel - 1, by omega⟩
    have hline : (next { load := true, line := l0, input := rest, output := o }).line =
        cstr (fgets_chars 2047 rest).1 := by
      rw [next_of_input l0 o rest hrest]
    refine ⟨next { load := true, line := l0, input := rest, output := o }, v, ?_, ?_⟩
    · simp only [state_block_save, List.nil_append, state_block_load, hline, hno,
        Bool.false_eq_true, if_false]
    · intro a
      exact ⟨fun h => by omega, fun _ => rfl⟩
  | succ n ih =>
    intro i fuel l0 v hrange hfuel
    have hblock : ∀ t, t < 512 → M (i + t) < 256 := fun t ht => hb _ (by omega)
    by_cases hE : isMemEmpty M i 512 = true
    · -- an all-zero block: no record
      have hz := (isMemEmpty_iff M 512 i).1 hE
      have htxt : state_block_save key_prefix M (n + 1) i =
          state_block_save key_prefix M n (i + 512) := by
        simp only [state_block_save, hbl, hE, Bool.not_true, Bool.false_eq_true, if_false,
          List.nil_append]
      rw [htxt] at hfuel ⊢
      obtain ⟨sf, v1, h, hv⟩ := ih (i + 512) fuel l0 v (by omega) hfuel
      refine ⟨sf, v1, h, ?_⟩
      intro a
      obtain ⟨hv1, hv2⟩ := hv a
      constructor
      · intro ha
        by_cases h1 : a < i + 512
        · have h0 := hz (a - i) (by omega)
          have e : i + (a - i) = a := by omega
          rw [e] at h0
          exact Or.inr ⟨h0, hv2 (by omega)⟩
        · exact hv1 (by omega)
      · intro ha
        exact hv2 (by omega)
    · -- a block with a non-zero byte: one record
      have htxt : state_block_save key_prefix M (n + 1) i =
          save_record key_prefix M i ++ state_block_save key_prefix M n (i + 512) := by
        have hE2 : (!isMemEmpty M i 512) = true := by simpa using hE
        simp only [state_block_save, hbl, hE2, if_true]
      have hnext := save_record_line key_prefix M i (by omega) hNUL hNL hklen hblock l0 o
        (state_block_save key_prefix M n (i + 512) ++ rest)
      rw [htxt, List.append_assoc] at hfuel ⊢
      rw [hnext] at hfuel ⊢
      obtain ⟨f, rfl⟩ : ∃ f, fuel = f + 1 := ⟨fuel - 1, by omega⟩
      have hne : state_block_save key_prefix M n (i + 512) ++ rest ≠ [] := by
        intro h
        exact hrest (List.append_eq_nil.1 h).2
      rw [state_block_load_record key_prefix M (512 * nb) i f _ _ o (by omega) hsize hblock,
        if_neg hne]
      have hlt := next_input_lt
        { load := true, line := save_record key_prefix M i,
          input := state_block_save key_prefix M n (i + 512) ++ rest, output := o } rfl hne
      obtain ⟨sf, v1, h, hv⟩ := ih (i + 512) f (save_record key_prefix M i)
        (fun a => if i ≤ a ∧ a < i + 512 then M a else v a) (by omega) (by
          simp only at hfuel hlt
          omega)
      refine ⟨sf, v1, h, ?_⟩
      intro a
      obtain ⟨hv1, hv2⟩ := hv a
      constructor
      · intro ha
        by_cases h1 : a < i + 512
        · have h2 := hv2 (by omega)
          rw [if_pos ⟨ha.1, h1⟩] at h2
          exact Or.inl h2
        · rcases hv1 (by omega) with h2 | ⟨h2, h3⟩
          · exact Or.inl h2
          · rw [if_neg (by omega)] at h3
            exact Or.inr ⟨h2, h3⟩
      · intro ha
        have h2 := hv2 (by omega)
        rw [if_neg (by omega)] at h2
        exact h2

/-- An image with a non-zero byte has at least one record. -/
lemma state_block_save_nonempty ( key_prefix : List Char) (M : Nat → Nat) :
    ∀ (n i : Nat), (∃ a, i ≤ a ∧ a < i + 512 * n ∧ M a ≠ 0) →
      state_block_save key_prefix M n i ≠ [] := by
  have hbl : blockLen = 512 := rfl
  intro n
  induction n with
  | zero =>
    intro i ⟨a, h1, h2, _⟩
    omega
  | succ n ih =>
    intro i ⟨a, h1, h2, h3⟩
    by_cases hE : isMemEmpty M i 512 = true
    · have hz := (isMemEmpty_iff M 512 i).1 hE
      have htxt : state_block_save key_prefix M (n + 1) i =
          state_block_save key_prefix M n (i + 512) := by
        simp only [state_block_save, hbl, hE, Bool.not_true, Bool.false_eq_true, if_false,
          List.nil_append]
      rw [htxt]
      refine ih (i + 512) ⟨a, ?_, by omega, h3⟩
      by_contra hlt
      have h0 := hz (a - i) (by omega)
      have e : i + (a - i) = a := by omega
      rw [e] at h0
      exact h3 h0
    · have hE2 : (!isMemEmpty M i 512) = true := by simpa using hE
      simp only [state_block_save, hbl, hE2, if_true, save_record]
      simp

/-- The load loop on the records of an image when nothing follows the last record: whatever
the bound on the number of passes, the loop has no result.  Every record is read and restored
inside the array (`state_block_load_record`); after the last one `next` reads nothing, the
line still starts with the key, and the loop goes round on the same line for ever. -/
lemma state_block_load_eof ( key_prefix : List Char) (M : Nat → Nat) (nb : Nat)
    (o : List Char) (hNUL : NUL ∉ key_prefix) (hNL : NL ∉ key_prefix)
    (hklen : key_prefix.length ≤ 1000) (hsize : 512 * nb < 2 ^ 31)
    (hb : ∀ a, a < 512 * nb → M a < 256) :
    ∀ (n i fuel : Nat) (l0 : List Char) (v : Nat → Nat), i + 512 * n ≤ 512 * nb →
      state_block_save key_prefix M n i ≠ [] →
      state_block_load key_prefix (512 * nb) fuel
        (next { load := true, line := l0,
                input := state_block_save key_prefix M n i, output := o }) v = none := by
  have hbl : blockLen = 512 := rfl
  intro n
  induction n with
  | zero =>
    intro i fuel l0 v _ hne
    exact absurd rfl hne
  | succ n ih =>
    intro i fuel l0 v hrange hne
    have hblock : ∀ t, t < 512 → M (i + t) < 256 := fun t ht => hb _ (by omega)
    by_cases hE : isMemEmpty M i 512 = true
    · have htxt : state_block_save key_prefix M (n + 1) i =
          state_block_save key_prefix M n (i + 512) := by
        simp only [state_block_save, hbl, hE, Bool.not_true, Bool.false_eq_true, if_false,
          List.nil_append]
      rw [htxt] at hne ⊢
      exact ih (i + 512) fuel l0 v (by omega) hne
    · have htxt : state_block_save key_prefix M (n + 1) i =
          save_record key_prefix M i ++ state_block_save key_prefix M n (i + 512) := by
        have hE2 : (!isMemEmpty M i 512) = true := by simpa using hE
        simp only [state_block_save, hbl, hE2, if_true]
      have hnext := save_record_line key_prefix M i (by omega) hNUL hNL hklen hblock l0 o
        (state_block_save key_prefix M n (i + 512))
      rw [htxt, hnext]
      cases fuel with
      | zero => rfl
      | succ f =>
        rw [state_block_load_record key_prefix M (512 * nb) i f _ _ o (by omega) hsize hblock]
        by_cases hX : state_block_save key_prefix M n (i + 512) = []
        · rw [if_pos hX]
        · rw [if_neg hX]
          exact ih (i + 512) f (save_record key_prefix M i) _ (by omega) hX

/-- C16 (as amended): let `M` be a memory image of `nb` whole blocks of bytes.  The save path
of `state_block` returns and writes the records of `M`.  If the records are followed in the
file by at least one more line, and that line does not start with the key (in a snapshot the
line `REG00.00=...` follows the `MEM` records), then loading with `state_block` into an
all-zero memory returns and reproduces `M` byte for byte.  If `M` has a non-zero byte and
nothing follows its records, the load loop of `state_block` never ends: it has no result,
whatever bound is put on the number of passes and whatever the memory held before. -/
theorem state_block_load_saved ( key_prefix : List Char) (M : Nat → Nat) (nb : Nat)
    (rest l0 o : List Char)
    (hNUL : NUL ∉ key_prefix) (hNL : NL ∉ key_prefix)
    (hklen : key_prefix.length ≤ 1000) (hsize : 512 * nb < 2 ^ 31)
    (hb : ∀ a, a < 512 * nb → M a < 256) :
    state_block saveState key_prefix M (512 * nb) =
      some ({ saveState with output := state_block_save key_prefix M nb 0 }, M) ∧
    (rest ≠ [] →
      strncmp_eq (next { load := true, line := l0, input := rest, output := o }).line
        key_prefix key_prefix.length = false →
      ∃ sf, state_block
          (next { load := true, line := l0,
                  input := state_block_save key_prefix M nb 0 ++ rest, output := o })
          key_prefix (fun _ => 0) (512 * nb) =
        some (sf, fun a => if a < 512 * nb then M a else 0)) ∧
    ((∃ a, a < 512 * nb ∧ M a ≠ 0) → ∀ v : Nat → Nat,
      state_block
          (next { load := true, line := l0,
                  input := state_block_save key_prefix M nb 0, output := o })
          key_prefix v (512 * nb) = none ∧
      ∀ fuel : Nat, state_block_load key_prefix (512 * nb) fuel
          (next { load := true, line := l0,
                  input := state_block_save key_prefix M nb 0, output := o }) v = none) := by
  have hbl : blockLen = 512 := rfl
  have hload : ∀ s : state, s.load = true → ∀ v,
      state_block s key_prefix v (512 * nb) =
        state_block_load key_prefix (512 * nb) (s.input.length + 1) s v := by
    intro s hs v
    simp only [state_block, hs, if_true]
  have hl : ∀ inp : List Char,
      (next { load := true, line := l0, input := inp, output := o }).load = true := by
    intro inp
    rw [next_load]
  refine ⟨?_, ?_, ?_⟩
  · have hmod : 512 * nb % blockLen = 0 := by rw [hbl]; omega
    have hdiv : 512 * nb / blockLen = nb := by rw [hbl]; omega
    simp only [state_block, saveState, Bool.false_eq_true, if_false, hmod, if_true, hdiv,
      List.nil_append]
  · intro hrest hno
    rw [next_of_input l0 o rest hrest] at hno
    rw [hload _ (hl _)]
    obtain ⟨sf, v1, h, hv⟩ := state_block_load_run key_prefix M nb rest o hNUL hNL hklen hsize
      hb hrest hno nb 0 _ l0 (fun _ => 0) (by omega) (Nat.lt_succ_self _)
    refine ⟨sf, ?_⟩
    rw [h]
    have e : v1 = fun a => if a < 512 * nb then M a else 0 := by
      funext a
      obtain ⟨hv1, hv2⟩ := hv a
      by_cases ha : a < 512 * nb
      · rw [if_pos ha]
        rcases hv1 (by omega) with h1 | ⟨h1, h2⟩
        · exact h1
        · rw [h2, h1]
      · rw [if_neg ha]
        exact hv2 (by omega)
    rw [e]
  · intro ⟨a, ha, hMa⟩ v
    have hne : state_block_save key_prefix M nb 0 ≠ [] :=
      state_block_save_nonempty key_prefix M nb 0 ⟨a, by omega, by omega, hMa⟩
    have hall := fun fuel => state_block_load_eof key_prefix M nb o hNUL hNL hklen hsize hb
      nb 0 fuel l0 v (by omega) hne
    refine ⟨?_, hall⟩
    rw [hload _ (hl _)]
    exact hall _

/-- C16 (witness): the records of a two-block image followed by the line `MIIC=0`, which
shares its first letter with the key `MEM`, are loaded back; the same records with nothing
after them are not. -/
theorem state_block_load_saved_witness :
    (∃ sf, state_block
        (next { load := true, line := [],
                input := state_block_save "MEM".toList sampleMem 2 0 ++ "MIIC=0\n".toList,
                output := [] })
        "MEM".toList (fun _ => 0) (512 * 2) =
      some (sf, fun a => if a < 512 * 2 then sampleMem a else 0)) ∧
    state_block
        (next { load := true, line := [],
                input := state_block_save "MEM".toList sampleMem 2 0, output := [] })
        "MEM".toList (fun _ => 0) (512 * 2) = none := by
  have h := state_block_load_saved "MEM".toList sampleMem 2 "MIIC=0\n".toList [] []
    (by decide) (by decide) (by decide) (by norm_num)
    (fun a _ => by unfold sampleMem; split_ifs <;> omega)
  exact ⟨h.2.1 (by decide) (by decide),
    (h.2.2 ⟨513, by norm_num, by decide⟩ (fun _ => 0)).1⟩

/-- C16 (counterexample): when the file holds the records of a non-zero image and nothing
after them, the load loop of `state_block` never ends: after the last record `next` reads
nothing and the line keeps matching. -/
theorem state_block_load_saved_counterexample :
    state_block_save "MEM".toList sampleMem 2 0 = save_record "MEM".toList sampleMem 512 ∧
    state_block
        (next { load := true, line := [],
                input := state_block_save "MEM".toList sampleMem 2 0, output := [] })
        "MEM".toList (fun _ => 0) (512 * 2) = none := by
  have h0 : isMemEmpty sampleMem 0 512 = true :=
    (isMemEmpty_iff sampleMem 512 0).2 (fun j hj => by
      unfold sampleMem
      rw [if_neg (by omega)])
  have h1 : (!isMemEmpty sampleMem 512 512) = true := by
    have : isMemEmpty sampleMem 512 512 ≠ true := fun h => by
      have h2 := (isMemEmpty_iff sampleMem 512 512).1 h 1 (by omega)
      simp [sampleMem] at h2
    simpa using this
  have hb : ∀ t, t < 512 → sampleMem (512 + t) < 256 := fun t _ => by
    unfold sampleMem
    split_ifs <;> omega
  have htxt : state_block_save "MEM".toList sampleMem 2 0 =
      save_record "MEM".toList sampleMem 512 := by
    simp only [state_block_save, blockLen, h0, h1, Bool.not_true, Bool.false_eq_true, if_false,
      if_true, List.nil_append, List.append_nil, Nat.zero_add]
  refine ⟨htxt, ?_⟩
  have hnext := save_record_line "MEM".toList sampleMem 512 (by norm_num) (by decide)
    (by decide) (by decide) hb [] [] []
  rw [List.append_nil] at hnext
  rw [htxt, hnext]
  simp only [state_block, if_true, List.length_nil, Nat.zero_add]
  rw [state_block_load_record "MEM".toList sampleMem (512 * 2) 512 0 _ [] [] (by norm_num)
    (by norm_num) hb]
  rfl

/-! ## Word records: save, then load -/

lemma parseAcc_zeros (b : Nat) (hb : 1 ≤ b) (hb16 : b ≤ 16) (j : Nat) (X : List Char) :
    parseAcc b 0 (List.replicate j '0' ++ X) = parseAcc b 0 X := by
  induction j with
  | zero => rfl
  | succ j ih =>
    have hd : digitOf b '0' = some 0 := digitOf_digitChar b 0 (by omega) hb16
    simp only [List.replicate_succ, List.cons_append, parseAcc, hd, Nat.zero_mul, Nat.add_zero]
    exact ih

lemma parseAcc_fmt_u (b k n : Nat) (hb : 2 ≤ b) (hb16 : b ≤ 16) (hk : 1 ≤ k) (hn : n < b ^ k)
    (rest : List Char) : parseAcc b 0 (fmt_u b 0 n ++ rest) = parseAcc b n rest := by
  obtain ⟨m, _, _, e1, e2⟩ := fmt_u_zero_width b k n hb hk hn
  rw [e1, ← parseAcc_zeros b (by omega) hb16 (k - m) (digitsFixed b m n ++ rest),
    ← List.append_assoc, ← e2, parseAcc_digitsFixed b hb hb16 k n 0 rest, Nat.zero_mul,
    Nat.zero_add, Nat.mod_eq_of_lt hn]

/-- C17: for every key that is one line of text fitting the line buffer (no NUL, no newline,
at most 2000 characters) and every 16-bit word `v`, the save path of `state_word` writes the
line `key=0<octal digits of v>`, and the load path of `state_word` on that line, read from the
file by `next`, sets the target to `v` whatever it held before. -/
theorem state_word_roundtrip (key : List Char) (v old : Nat) (tmp0 : Int) (l0 o rest : List Char)
    (hv : v < 65536) (hNUL : NUL ∉ key) (hNL : NL ∉ key) (hklen : key.length ≤ 2000) :
    (state_word tmp0 saveState key v).1.output = key ++ ('=' :: '0' :: fmt_u 8 0 v) ++ [NL] ∧
    (state_word tmp0
      (next { load := true, line := l0,
              input := (state_word tmp0 saveState key v).1.output ++ rest, output := o })
      key old).2 = v := by
  have hout : (state_word tmp0 saveState key v).1.output =
      key ++ ('=' :: '0' :: fmt_u 8 0 v) ++ [NL] := by
    simp only [state_word, saveState, Bool.false_eq_true, if_false, List.nil_append]
  refine ⟨hout, ?_⟩
  have hv8 : v < 8 ^ 6 := by norm_num; omega
  obtain ⟨m, hm1, hm6, e1, _⟩ := fmt_u_zero_width 8 6 v (by decide) (by decide) hv8
  have hmem := digitsFixed_mem 8 (by decide) m v
  have hlen := digitsFixed_length 8 m v
  obtain ⟨x, r, ex⟩ : ∃ x r, digitsFixed 8 m v = x :: r := by
    match h : digitsFixed 8 m v with
    | [] => rw [h] at hlen; simp at hlen; omega
    | x :: r => exact ⟨x, r, rfl⟩
  obtain ⟨dx, hdx, hx⟩ := hmem x (by rw [ex]; simp)
  have fx := digitChar_facts dx (by omega)
  -- the line as read by `next`
  have hbody : (state_word tmp0 saveState key v).1.output ++ rest =
      (key ++ ('=' :: '0' :: digitsFixed 8 m v)) ++ NL :: rest := by
    rw [hout, e1]
    simp only [List.append_assoc, List.cons_append, List.singleton_append, List.nil_append]
  have hchars : ∀ y ∈ key ++ ('=' :: '0' :: digitsFixed 8 m v),
      y ∈ key ∨ y = '=' ∨ ∃ d, d < 16 ∧ y = Nat.digitChar d := by
    intro y hy
    simp only [List.mem_append, List.mem_cons] at hy
    rcases hy with hy | hy | hy | hy
    · exact Or.inl hy
    · exact Or.inr (Or.inl hy)
    · exact Or.inr (Or.inr ⟨0, by decide, hy⟩)
    · obtain ⟨d, hd, e⟩ := hmem y hy
      exact Or.inr (Or.inr ⟨d, by omega, e⟩)
  have hnext := next_line l0 o (key ++ ('=' :: '0' :: digitsFixed 8 m v)) rest
    (by
      intro h
      rcases hchars NL h with h1 | h1 | ⟨d, hd, h1⟩
      · exact hNL h1
      · exact absurd h1 (by decide)
      · exact (digitChar_facts d hd).2.2.2.2.2.2.2.2 h1.symm)
    (by
      intro h
      rcases hchars NUL h with h1 | h1 | ⟨d, hd, h1⟩
      · exact hNUL h1
      · exact absurd h1 (by decide)
      · exact (digitChar_facts d hd).2.2.2.2.2.2.2.1 h1.symm)
    (by
      simp only [List.length_append, List.length_cons, hlen]
      omega)
  rw [hbody, hnext]
  -- the key matches and the text after `=` is the number
  have hline : (key ++ ('=' :: '0' :: digitsFixed 8 m v)) ++ [NL] =
      key ++ ('=' :: ('0' :: (digitsFixed 8 m v ++ [NL]))) := by
    simp only [List.append_assoc, List.cons_append]
  have hcmp : strncmp_eq (key ++ ('=' :: ('0' :: (digitsFixed 8 m v ++ [NL])))) key key.length
      = true := by
    unfold strncmp_eq
    rw [List.take_left, List.take_length]
    exact beq_self_eq_true _
  have hget : (key ++ ('=' :: ('0' :: (digitsFixed 8 m v ++ [NL])))).getD key.length NUL = '=' := by
    rw [List.getD_append_right _ _ _ _ (le_refl _), Nat.sub_self]
    rfl
  have hdrop : (key ++ ('=' :: ('0' :: (digitsFixed 8 m v ++ [NL])))).drop (key.length + 1) =
      '0' :: (digitsFixed 8 m v ++ [NL]) := by
    rw [List.drop_append]
    rfl
  have hmark : hasHexMark ('0' :: (digitsFixed 8 m v ++ [NL])) = false := by
    rw [ex, hx]
    cases r with
    | nil =>
      simp only [List.cons_append, List.nil_append, hasHexMark, fx.2.2.2.2.1, fx.2.2.2.2.2.1,
        or_self, false_and, and_false, decide_False]
    | cons h r =>
      simp only [List.cons_append, hasHexMark, fx.2.2.2.2.1, fx.2.2.2.2.2.1,
        or_self, false_and, and_false, decide_False]
  have hscan : scan_number 8 none ('0' :: (digitsFixed 8 m v ++ [NL])) = some (v : Int) := by
    rw [scan_number_plain 8 none _ '0' (digitsFixed 8 m v ++ [NL]) 0 (by
        show ('0' :: (digitsFixed 8 m v ++ [NL])).dropWhile isspace = _
        exact dropWhile_isspace_digit _ _ (by decide)) (by decide) (by decide) hmark (by decide)
      (by decide)]
    have hstep : parseAcc 8 0 ('0' :: (digitsFixed 8 m v ++ [NL])) =
        parseAcc 8 0 (digitsFixed 8 m v ++ [NL]) := by
      have hd : digitOf 8 '0' = some 0 := by decide
      simp only [parseAcc, hd, Nat.zero_mul, Nat.add_zero]
    rw [hstep, ← e1, parseAcc_fmt_u 8 6 v (by decide) (by decide) (by decide) hv8,
      parseAcc_stop 8 v NL [] (by decide)]
  have hti : toInt (v : Int) = (v : Int) := by
    unfold toInt
    omega
  simp only [state_word, if_true, matches_key, hline, hcmp, hget, and_self, hdrop, hscan, hti]
  omega

/-- C17 (witness): the key `PVL` and the word 017. -/
theorem state_word_roundtrip_witness :
    (state_word 0
      (next { load := true, line := [],
              input := (state_word 0 saveState "PVL".toList 0o17).1.output ++ [], output := [] })
      "PVL".toList 99).2 = 0o17 :=
  (state_word_roundtrip "PVL".toList 0o17 99 0 [] [] [] (by decide) (by decide) (by decide)
    (by decide)).2

/-! ## `cpustate` -/

/-- What a returning call of `cpustate` on an opened file leaves behind: the memory is the
one `state_block` produced with the time words written over it, and the IDENT chain is the
one before the call. -/
lemma cpustate_result (load : Bool) (content line0 : List Char) (tmp0 : Int)
    (memSize ptCount : Nat) (now : tm) (x r : Snapshot) (out : List Char)
    (h : cpustate load (some content) line0 tmp0 memSize ptCount now x = some (r, out)) :
    ∃ b, state_block
        (state_ulong
          (if load then
            next { load := load, line := line0, input := if load then content else [],
                   output := [] }
          else { load := load, line := line0, input := if load then content else [],
                 output := [] })
          "INSTR_COUNT".toList x.instr_counter).1
        "MEM".toList x.c_Array memSize = some b ∧
      r.c_Array = time_hack now b.2 ∧ r.gIdentChain = x.gIdentChain := by
  simp only [cpustate] at h
  split at h
  · exact absurd h (by simp)
  · rename_i b hb
    refine ⟨b, hb, ?_, ?_⟩
    · have := congrArg (fun z => z.1.c_Array) (Option.some.inj h)
      exact this.symm
    · have := congrArg (fun z => z.1.gIdentChain) (Option.some.inj h)
      exact this.symm

lemma state_block_save_value (s : state) ( key_prefix : List Char) (v : Nat → Nat) (size : Nat)
    (b : state × (Nat → Nat)) (hs : s.load = false)
    (h : state_block s key_prefix v size = some b) : b.2 = v := by
  simp only [state_block, hs, Bool.false_eq_true, if_false] at h
  split at h
  · exact (congrArg (fun z => z.2) (Option.some.inj h)).symm
  · exact absurd h (by simp)

lemma n_Array_time_hack (now : tm) (c : Nat → Nat) :
    n_Array (time_hack now c) 0o125 = toUShort now.tm_sec ∧
    n_Array (time_hack now c) 0o126 = toUShort now.tm_min ∧
    n_Array (time_hack now c) 0o127 = toUShort now.tm_hour ∧
    n_Array (time_hack now c) 0o130 = toUShort now.tm_mday ∧
    n_Array (time_hack now c) 0o131 = toUShort (now.tm_mon + 1) ∧
    n_Array (time_hack now c) 0o132 = toUShort (now.tm_year + 1900) ∧
    ∀ k, (k < 0o125 ∨ 0o132 < k) → n_Array (time_hack now c) k = n_Array c k := by
  have hu : ∀ z : Int, toUShort z % 256 + 256 * (toUShort z / 256 % 256) = toUShort z := by
    intro z
    have : toUShort z < 65536 := by
      unfold toUShort
      omega
    omega
  refine ⟨?_, ?_, ?_, ?_, ?_, ?_, ?_⟩
  · simp [n_Array, time_hack, n_Array_set, hu]
  · simp [n_Array, time_hack, n_Array_set, hu]
  · simp [n_Array, time_hack, n_Array_set, hu]
  · simp [n_Array, time_hack, n_Array_set, hu]
  · simp [n_Array, time_hack, n_Array_set, hu]
  · simp [n_Array, time_hack, n_Array_set, hu]
  · intro k hk
    have h1 : ∀ a, (a < 170 ∨ 181 < a) → time_hack now c a = c a := by
      intro a ha
      simp only [time_hack, n_Array_set]
      repeat rw [if_neg (by omega)]
    unfold n_Array
    rw [h1 (2 * k) (by omega), h1 (2 * k + 1) (by omega)]

/-! ### The save path only appends to the file -/

lemma state_word_save (tmp0 : Int) (s : state) (key : List Char) (v : Nat)
    (hs : s.load = false) :
    state_word tmp0 s key v =
      ({ s with output := s.output ++ (key ++ ('=' :: '0' :: fmt_u 8 0 v) ++ [NL]) }, v) := by
  simp only [state_word, hs, Bool.false_eq_true, if_false]

lemma state_bool_save (tmp0 : Int) (s : state) (key : List Char) (v : Bool)
    (hs : s.load = false) :
    state_bool tmp0 s key v =
      ({ s with output := s.output ++ (key ++ ('=' :: fmt_d (if v then 1 else 0)) ++ [NL]) },
        v) := by
  simp only [state_bool, hs, Bool.false_eq_true, if_false]

lemma state_ulong_save (s : state) (key : List Char) (v : Nat) (hs : s.load = false) :
    state_ulong s key v =
      ({ s with output := s.output ++ (key ++ ('=' :: fmt_d (toLong v)) ++ [NL]) }, v) := by
  simp only [state_ulong, hs, Bool.false_eq_true, if_false]

lemma state_int_save (s : state) (key : List Char) (v : Int) (hs : s.load = false) :
    state_int s key v =
      ({ s with output := s.output ++ (key ++ ('=' :: fmt_d v) ++ [NL]) }, v) := by
  simp only [state_int, hs, Bool.false_eq_true, if_false]

lemma grows_refl (s : state) (h : s.load = false) : s.grows s :=
  ⟨h, [], (List.append_nil _).symm⟩

lemma grows_trans (s s1 s2 : state) (h1 : s.grows s1) (h2 : s1.grows s2) : s.grows s2 := by
  obtain ⟨_, a, ha⟩ := h1
  obtain ⟨l2, b, hb⟩ := h2
  exact ⟨l2, a ++ b, by rw [hb, ha, List.append_assoc]⟩

lemma reg_word_grows (tmp0 : Int) (key : List Char) (get : CpuRegs → Nat)
    (set : CpuRegs → Nat → CpuRegs) (p : state × CpuRegs) (h : p.1.load = false) :
    p.1.grows (reg_word tmp0 key get set p).1 := by
  simp only [reg_word, state_word_save tmp0 p.1 key _ h]
  exact ⟨h, _, rfl⟩

lemma reg_bool_grows (tmp0 : Int) (key : List Char) (get : CpuRegs → Bool)
    (set : CpuRegs → Bool → CpuRegs) (p : state × CpuRegs) (h : p.1.load = false) :
    p.1.grows (reg_bool tmp0 key get set p).1 := by
  simp only [reg_bool, state_bool_save tmp0 p.1 key _ h]
  exact ⟨h, _, rfl⟩

lemma foldl_grows {α β : Type} (f : state × β → α → state × β)
    (hf : ∀ (p : state × β) (a : α), p.1.load = false → p.1.grows (f p a).1) :
    ∀ (l : List α) (p : state × β), p.1.load = false → p.1.grows (l.foldl f p).1 := by
  intro l
  induction l with
  | nil => intro p hp; exact grows_refl _ hp
  | cons a l ih =>
    intro p hp
    have h1 := hf p a hp
    exact grows_trans _ _ _ h1 (ih (f p a) h1.1)

lemma state_pcr_grows (tmp0 : Int) (p : state × CpuRegs) (h : p.1.load = false) :
    p.1.grows (state_pcr tmp0 p).1 :=
  foldl_grows (pcr_step tmp0) (fun p _ hp => reg_word_grows tmp0 _ _ _ p hp) _ p h

lemma state_control_grows (tmp0 : Int) (p : state × CpuRegs) (h : p.1.load = false) :
    p.1.grows (state_control tmp0 p).1 := by
  have h1 := foldl_grows (flag_step tmp0) (fun p _ hp => reg_bool_grows tmp0 _ _ _ p hp)
    control_flags p h
  have h2 := foldl_grows (word_step tmp0) (fun p _ hp => reg_word_grows tmp0 _ _ _ p hp)
    control_words1 _ h1.1
  have h3 := state_pcr_grows tmp0 _ h2.1
  have h4 := foldl_grows (word_step tmp0) (fun p _ hp => reg_word_grows tmp0 _ _ _ p hp)
    control_words2 _ h3.1
  exact grows_trans _ _ _ h1 (grows_trans _ _ _ h2 (grows_trans _ _ _ h3 h4))

lemma state_pt_grows (ptCount : Nat) (s : state) (pt : Nat → Nat) (h : s.load = false) :
    s.grows (state_pt ptCount (s, pt)).1 := by
  refine foldl_grows pt_step (fun p i hp => ?_) _ (s, pt) h
  show p.1.grows (state_ulong p.1 ("PT".toList ++ fmt_u 10 3 i) (p.2 i)).1
  rw [state_ulong_save p.1 _ _ hp]
  exact ⟨hp, _, rfl⟩

lemma save_chain_grows (tmp0 : Int) (chain : List IdentChain) :
    ∀ (i : Nat) (s : state), s.load = false → s.grows (save_chain tmp0 i chain s) := by
  induction chain with
  | nil => intro i s hs; exact grows_refl s hs
  | cons e rest ih =>
    intro i s hs
    have h1 : s.grows (state_int s ("IDC".toList ++ fmt_u 10 3 i) e.callerid).1 := by
      rw [state_int_save s _ _ hs]
      exact ⟨hs, _, rfl⟩
    have h2 : (state_int s ("IDC".toList ++ fmt_u 10 3 i) e.callerid).1.grows
        (state_int (state_int s ("IDC".toList ++ fmt_u 10 3 i) e.callerid).1
          ("IDL".toList ++ fmt_u 10 3 i) e.level).1 := by
      rw [state_int_save _ _ _ h1.1]
      exact ⟨h1.1, _, rfl⟩
    have h3 : (state_int (state_int s ("IDC".toList ++ fmt_u 10 3 i) e.callerid).1
          ("IDL".toList ++ fmt_u 10 3 i) e.level).1.grows
        (state_word tmp0 (state_int (state_int s ("IDC".toList ++ fmt_u 10 3 i) e.callerid).1
          ("IDL".toList ++ fmt_u 10 3 i) e.level).1 ("IDI".toList ++ fmt_u 10 3 i)
          e.identcode).1 := by
      rw [state_word_save tmp0 _ _ _ h2.1]
      exact ⟨h2.1, _, rfl⟩
    exact grows_trans _ _ _ h1 (grows_trans _ _ _ h2 (grows_trans _ _ _ h3 (ih (i + 1) _ h3.1)))

/-- On the save path the register loop starts its output with the letter R of `REG00.00`. -/
lemma state_regs_first (tmp0 : Int) (s : state) (r : CpuRegs) (hs : s.load = false) :
    (state_regs tmp0 (s, r)).1.load = false ∧
    ∃ suf, (state_regs tmp0 (s, r)).1.output = s.output ++ 'R' :: suf := by
  have hr : List.range 16 = 0 :: List.map Nat.succ (List.range 15) := List.range_succ_eq_map 15
  have hrow : ∀ (p : state × CpuRegs) (i : Nat), p.1.load = false →
      p.1.grows (regs_row tmp0 p i).1 :=
    fun p i hp => foldl_grows (reg_step tmp0 i)
      (fun p _ hp => reg_word_grows tmp0 _ _ _ p hp) _ p hp
  -- the first call writes the key `REG00.00`
  have h0 : (reg_step tmp0 0 (s, r) 0).1.load = false ∧
      ∃ suf, (reg_step tmp0 0 (s, r) 0).1.output = s.output ++ 'R' :: suf := by
    simp only [reg_step, reg_word, state_word_save tmp0 s _ _ hs]
    exact ⟨hs, _, rfl⟩
  obtain ⟨hl0, suf0, e0⟩ := h0
  -- the rest of the first row
  have h1 := foldl_grows (reg_step tmp0 0) (fun p _ hp => reg_word_grows tmp0 _ _ _ p hp)
    (List.map Nat.succ (List.range 15)) _ hl0
  have hrow0 : regs_row tmp0 (s, r) 0 =
      (List.map Nat.succ (List.range 15)).foldl (reg_step tmp0 0) (reg_step tmp0 0 (s, r) 0) := by
    unfold regs_row
    rw [hr, List.foldl_cons]
  rw [← hrow0] at h1
  -- the other rows
  have h2 := foldl_grows (regs_row tmp0) hrow (List.map Nat.succ (List.range 15)) _ h1.1
  have hall : state_regs tmp0 (s, r) =
      (List.map Nat.succ (List.range 15)).foldl (regs_row tmp0) (regs_row tmp0 (s, r) 0) := by
    unfold state_regs
    rw [hr, List.foldl_cons]
  rw [← hall] at h2
  obtain ⟨_, suf1, e1⟩ := h1
  obtain ⟨hl2, suf2, e2⟩ := h2
  refine ⟨hl2, suf0 ++ (suf1 ++ suf2), ?_⟩
  rw [e2, e1, e0]
  simp only [List.append_assoc, List.cons_append]

lemma save_chain_appends (tmp0 : Int) (chain : List IdentChain) :
    ∀ (i : Nat), ∃ txt, ∀ (s : state), s.load = false →
      (save_chain tmp0 i chain s).output = s.output ++ txt := by
  induction chain with
  | nil => intro i; exact ⟨[], fun s _ => by simp [save_chain]⟩
  | cons e rest ih =>
    intro i
    have hstep : ∃ T, ∀ s : state, s.load = false →
        (state_word tmp0
          (state_int (state_int s ("IDC".toList ++ fmt_u 10 3 i) e.callerid).1
            ("IDL".toList ++ fmt_u 10 3 i) e.level).1
          ("IDI".toList ++ fmt_u 10 3 i) e.identcode).1 =
        { s with output := s.output ++ T } := by
      refine ⟨("IDC".toList ++ fmt_u 10 3 i ++ ('=' :: fmt_d e.callerid) ++ [NL]) ++
             (("IDL".toList ++ fmt_u 10 3 i ++ ('=' :: fmt_d e.level) ++ [NL]) ++
              ("IDI".toList ++ fmt_u 10 3 i ++ ('=' :: '0' :: fmt_u 8 0 e.identcode) ++ [NL])),
        ?_⟩
      intro s hs
      have h1 := state_int_save s ("IDC".toList ++ fmt_u 10 3 i) e.callerid hs
      rw [h1]
      have h2 := state_int_save
        { s with output := s.output ++
            ("IDC".toList ++ fmt_u 10 3 i ++ ('=' :: fmt_d e.callerid) ++ [NL]) }
        ("IDL".toList ++ fmt_u 10 3 i) e.level hs
      rw [h2]
      have h3 := state_word_save tmp0
        { s with output := s.output ++
            ("IDC".toList ++ fmt_u 10 3 i ++ ('=' :: fmt_d e.callerid) ++ [NL]) ++
            ("IDL".toList ++ fmt_u 10 3 i ++ ('=' :: fmt_d e.level) ++ [NL]) }
        ("IDI".toList ++ fmt_u 10 3 i) e.identcode hs
      rw [h3]
      simp only [List.append_assoc]
    obtain ⟨T, hT⟩ := hstep
    obtain ⟨txt, htxt⟩ := ih (i + 1)
    refine ⟨T ++ txt, fun s hs => ?_⟩
    simp only [save_chain]
    rw [hT s hs, htxt { s with output := s.output ++ T } hs, List.append_assoc]

lemma save_chain_text (tmp0 : Int) (chain : List IdentChain) (i : Nat) (s : state)
    (hs : s.load = false) :
    (save_chain tmp0 i chain s).output =
      s.output ++ (save_chain tmp0 i chain saveState).output := by
  obtain ⟨txt, h⟩ := save_chain_appends tmp0 chain i
  have h0 := h saveState rfl
  rw [h s hs, h0]
  rfl

/-- The result of a save once `state_block` has returned. -/
lemma cpustate_save_eq (content line0 : List Char) (tmp0 : Int) (memSize ptCount : Nat)
    (now : tm) (x : Snapshot) (sb : state) (v : Nat → Nat)
    (hb : state_block
      (state_ulong { load := false, line := line0, input := [], output := [] }
        "INSTR_COUNT".toList x.instr_counter).1 "MEM".toList x.c_Array memSize = some (sb, v)) :
    ∃ r, cpustate false (some content) line0 tmp0 memSize ptCount now x =
        some (r, (save_chain tmp0 0 x.gIdentChain
          (state_pt ptCount
            ((state_control tmp0 (state_regs tmp0 (sb, x.gReg))).1, x.pt_arr)).1).output) ∧
      r.c_Array = time_hack now v ∧ r.gIdentChain = x.gIdentChain := by
  simp only [cpustate, Bool.false_eq_true, if_false]
  rw [hb]
  exact ⟨_, rfl, rfl, rfl⟩

/-- A load returns once `state_block` has returned. -/
lemma cpustate_load_eq (content line0 : List Char) (tmp0 : Int) (memSize ptCount : Nat)
    (now : tm) (x : Snapshot) (sb : state) (v : Nat → Nat)
    (hb : state_block
      (state_ulong (next { load := true, line := line0, input := content, output := [] })
        "INSTR_COUNT".toList x.instr_counter).1 "MEM".toList x.c_Array memSize = some (sb, v)) :
    ∃ r out, cpustate true (some content) line0 tmp0 memSize ptCount now x = some (r, out) ∧
      r.c_Array = time_hack now v ∧ r.gIdentChain = x.gIdentChain := by
  simp only [cpustate, if_true]
  rw [hb]
  exact ⟨_, _, rfl, rfl, rfl⟩

/-- On the save path, what follows `state_block`: the output grows by text that starts with
the letter R and ends with the records of the IDENT chain. -/
lemma save_tail (tmp0 : Int) (ptCount : Nat) (s : state) (r : CpuRegs) (pt : Nat → Nat)
    (chain : List IdentChain) (hs : s.load = false) :
    ∃ suf pre,
      (save_chain tmp0 0 chain
        (state_pt ptCount ((state_control tmp0 (state_regs tmp0 (s, r))).1, pt)).1).output =
        s.output ++ 'R' :: suf ∧
      s.output ++ 'R' :: suf = pre ++ (save_chain tmp0 0 chain saveState).output := by
  obtain ⟨g1, suf1, e1⟩ := state_regs_first tmp0 s r hs
  obtain ⟨g2, suf2, e2⟩ := state_control_grows tmp0 (state_regs tmp0 (s, r)) g1
  obtain ⟨g3, suf3, e3⟩ := state_pt_grows ptCount
    (state_control tmp0 (state_regs tmp0 (s, r))).1 pt g2
  obtain ⟨g4, suf4, e4⟩ := save_chain_grows tmp0 chain 0
    (state_pt ptCount ((state_control tmp0 (state_regs tmp0 (s, r))).1, pt)).1 g3
  have e5 := save_chain_text tmp0 chain 0
    (state_pt ptCount ((state_control tmp0 (state_regs tmp0 (s, r))).1, pt)).1 g3
  have e6 : (save_chain tmp0 0 chain
        (state_pt ptCount ((state_control tmp0 (state_regs tmp0 (s, r))).1, pt)).1).output =
        s.output ++ 'R' :: (suf1 ++ (suf2 ++ (suf3 ++ suf4))) := by
    rw [e4, e3, e2, e1]
    simp only [List.append_assoc, List.cons_append]
  exact ⟨_, _, e6, by rw [← e6, e5]⟩

/-- A save with a memory of whole blocks returns; the text written starts with the
`INSTR_COUNT` line, the memory records and the letter R of the first register line, and it
ends with the records of the IDENT chain. -/
lemma cpustate_save_text (content line0 : List Char) (tmp0 : Int) (memSize ptCount : Nat)
    (now : tm) (x : Snapshot) (hm : memSize % blockLen = 0) :
    ∃ r suf pre, cpustate false (some content) line0 tmp0 memSize ptCount now x =
        some (r, ("INSTR_COUNT".toList ++ ('=' :: fmt_d (toLong x.instr_counter)) ++ [NL]) ++
          state_block_save "MEM".toList x.c_Array (memSize / blockLen) 0 ++ 'R' :: suf) ∧
      ("INSTR_COUNT".toList ++ ('=' :: fmt_d (toLong x.instr_counter)) ++ [NL]) ++
          state_block_save "MEM".toList x.c_Array (memSize / blockLen) 0 ++ 'R' :: suf =
        pre ++ (save_chain tmp0 0 x.gIdentChain saveState).output ∧
      r.c_Array = time_hack now x.c_Array ∧ r.gIdentChain = x.gIdentChain := by
  have hl0 : ({ load := false, line := line0, input := [], output := [] } : state).load
      = false := rfl
  have ha := state_ulong_save { load := false, line := line0, input := [], output := [] }
    "INSTR_COUNT".toList x.instr_counter hl0
  have hb : state_block
      (state_ulong { load := false, line := line0, input := [], output := [] }
        "INSTR_COUNT".toList x.instr_counter).1 "MEM".toList x.c_Array memSize =
      some ({ load := false, line := line0, input := [],
              output := ("INSTR_COUNT".toList ++ ('=' :: fmt_d (toLong x.instr_counter)) ++ [NL])
                ++ state_block_save "MEM".toList x.c_Array (memSize / blockLen) 0 },
            x.c_Array) := by
    rw [ha]
    simp only [state_block, Bool.false_eq_true, if_false, hm, if_true, List.nil_append]
  obtain ⟨r, h1, h2, h3⟩ := cpustate_save_eq content line0 tmp0 memSize ptCount now x _ _ hb
  obtain ⟨suf, pre, e1, e2⟩ := save_tail tmp0 ptCount
    { load := false, line := line0, input := [],
      output := ("INSTR_COUNT".toList ++ ('=' :: fmt_d (toLong x.instr_counter)) ++ [NL])
        ++ state_block_save "MEM".toList x.c_Array (memSize / blockLen) 0 }
    x.gReg x.pt_arr x.gIdentChain rfl
  rw [e1] at h1
  exact ⟨r, suf, pre, h1, e2, h2, h3⟩

lemma state_block_save_zero ( key_prefix : List Char) (n : Nat) :
    ∀ i, state_block_save key_prefix (fun _ => 0) n i = [] := by
  induction n with
  | zero => intro i; rfl
  | succ n ih =>
    intro i
    have hE : isMemEmpty (fun _ => 0) i blockLen = true :=
      (isMemEmpty_iff (fun _ => 0) blockLen i).2 (fun _ _ => rfl)
    simp only [state_block_save, hE, Bool.not_true, Bool.false_eq_true, if_false,
      List.nil_append, ih]

/-- A load returns when the file starts with an `INSTR_COUNT` line that is followed by a
line starting with the letter R: the load loop of `state_block` ends at once. -/
lemma cpustate_load_returns (num suf line0 : List Char) (tmp0 : Int) (memSize ptCount : Nat)
    (now : tm) (x : Snapshot) (hNL : NL ∉ num) (hNUL : NUL ∉ num) (hlen : num.length ≤ 100) :
    ∃ r out, cpustate true
        (some (("INSTR_COUNT".toList ++ ('=' :: num) ++ [NL]) ++ 'R' :: suf))
        line0 tmp0 memSize ptCount now x = some (r, out) ∧
      r.c_Array = time_hack now x.c_Array ∧ r.gIdentChain = x.gIdentChain := by
  have htext : ("INSTR_COUNT".toList ++ ('=' :: num) ++ [NL]) ++ 'R' :: suf =
      ("INSTR_COUNT".toList ++ ('=' :: num)) ++ NL :: ('R' :: suf) := by
    simp only [List.append_assoc, List.cons_append, List.nil_append]
  have hchars : ∀ y ∈ "INSTR_COUNT".toList ++ ('=' :: num),
      y ∈ "INSTR_COUNT".toList ∨ y = '=' ∨ y ∈ num := by
    intro y hy
    simp only [List.mem_append, List.mem_cons] at hy
    exact hy
  have hnext := next_line line0 [] ("INSTR_COUNT".toList ++ ('=' :: num)) ('R' :: suf)
    (by
      intro h
      rcases hchars NL h with h1 | h1 | h1
      · exact absurd h1 (by decide)
      · exact absurd h1 (by decide)
      · exact hNL h1)
    (by
      intro h
      rcases hchars NUL h with h1 | h1 | h1
      · exact absurd h1 (by decide)
      · exact absurd h1 (by decide)
      · exact hNUL h1)
    (by
      have : "INSTR_COUNT".toList.length = 11 := by decide
      simp only [List.length_append, List.length_cons, this]
      omega)
  have hline : ("INSTR_COUNT".toList ++ ('=' :: num)) ++ [NL] =
      "INSTR_COUNT".toList ++ ('=' :: (num ++ [NL])) := by
    simp only [List.append_assoc, List.cons_append]
  have hcmp : strncmp_eq ("INSTR_COUNT".toList ++ ('=' :: (num ++ [NL]))) "INSTR_COUNT".toList
      "INSTR_COUNT".toList.length = true := by
    unfold strncmp_eq
    rw [List.take_left, List.take_length]
    exact beq_self_eq_true _
  have hget : ("INSTR_COUNT".toList ++ ('=' :: (num ++ [NL]))).getD
      "INSTR_COUNT".toList.length NUL = '=' := by
    rw [List.getD_append_right _ _ _ _ (le_refl _), Nat.sub_self]
    rfl
  have hul : (state_ulong
      { load := true, line := "INSTR_COUNT".toList ++ ('=' :: (num ++ [NL])),
        input := 'R' :: suf, output := [] } "INSTR_COUNT".toList x.instr_counter).1 =
      next { load := true, line := "INSTR_COUNT".toList ++ ('=' :: (num ++ [NL])),
             input := 'R' :: suf, output := [] } := by
    simp only [state_ulong, if_true, matches_key, hcmp, hget, and_self]
  have hno := first_line_nomatch "MEM".toList 'M' ['E', 'M'] rfl 'R' suf
    ("INSTR_COUNT".toList ++ ('=' :: (num ++ [NL]))) [] (by decide)
  have hb : state_block
      (state_ulong
        (next { load := true, line := line0,
                input := ("INSTR_COUNT".toList ++ ('=' :: num) ++ [NL]) ++ 'R' :: suf,
                output := [] })
        "INSTR_COUNT".toList x.instr_counter).1 "MEM".toList x.c_Array memSize =
      some (next { load := true, line := "INSTR_COUNT".toList ++ ('=' :: (num ++ [NL])),
                   input := 'R' :: suf, output := [] }, x.c_Array) := by
    rw [htext, hnext, hline, hul]
    simp only [state_block, next_load, if_true, state_block_load, hno, Bool.false_eq_true,
      if_false]
  exact cpustate_load_eq _ line0 tmp0 memSize ptCount now x _ _ hb

/-! ### The IDENT chain across save and load -/

/-- C18: `cpustate` does not restore the IDENT chain.  Whatever the file holds, a load that
returns leaves the chain as it was before the call: the branch `if (load) { }` is empty, and
the records `IDC`, `IDL`, `IDI` that a save writes are never read. -/
theorem cpustate_load_keeps_chain (content line0 : List Char) (tmp0 : Int)
    (memSize ptCount : Nat) (now : tm) (x r : Snapshot) (out : List Char)
    (h : cpustate true (some content) line0 tmp0 memSize ptCount now x = some (r, out)) :
    r.gIdentChain = x.gIdentChain := by
  simp only [cpustate] at h
  split at h
  · exact absurd h (by simp)
  · exact (congrArg (fun z => z.1.gIdentChain) (Option.some.inj h)).symm

/-- C18 (witness): a state whose IDENT chain holds one entry (level 11, ident code 021,
caller id 201) is saved; the text ends with the records of that entry; loading the text in a
freshly started emulator returns with an empty chain. -/
theorem cpustate_load_keeps_chain_witness :
    ∃ r1 saved pre r2 out2,
      cpustate false (some []) [] 0 1024 2 sampleTime chainSnapshot = some (r1, saved) ∧
      saved = pre ++ chainText ∧
      cpustate true (some saved) [] 0 1024 2 sampleTime freshSnapshot = some (r2, out2) ∧
      r2.gIdentChain = [] ∧ r1.gIdentChain = [⟨11, 0o21, 201⟩] := by
  obtain ⟨r1, suf, pre, h1, h2, _, h4⟩ :=
    cpustate_save_text [] [] 0 1024 2 sampleTime chainSnapshot (by decide)
  have hz : state_block_save "MEM".toList chainSnapshot.c_Array (1024 / blockLen) 0 = [] :=
    state_block_save_zero _ _ 0
  rw [hz, List.append_nil] at h1 h2
  have hct : (save_chain 0 0 chainSnapshot.gIdentChain saveState).output = chainText := by
    decide
  rw [hct] at h2
  obtain ⟨r2, out2, h5, _, _⟩ := cpustate_load_returns
    (fmt_d (toLong chainSnapshot.instr_counter)) suf [] 0 1024 2 sampleTime freshSnapshot
    (by decide) (by decide) (by decide)
  exact ⟨r1, _, pre, r2, out2, h1, h2, h5,
    cpustate_load_keeps_chain _ [] 0 1024 2 sampleTime freshSnapshot r2 out2 h5, h4⟩

/-! ### The time words -/

lemma holds_time_hack (now : tm) (c : Nat → Nat)
    (hsec : 0 ≤ now.tm_sec ∧ now.tm_sec ≤ 60) (hmin : 0 ≤ now.tm_min ∧ now.tm_min ≤ 59)
    (hhour : 0 ≤ now.tm_hour ∧ now.tm_hour ≤ 23) (hmday : 1 ≤ now.tm_mday ∧ now.tm_mday ≤ 31)
    (hmon : 0 ≤ now.tm_mon ∧ now.tm_mon ≤ 11)
    (hyear : 0 ≤ now.tm_year + 1900 ∧ now.tm_year + 1900 < 65536) :
    holds_time now (time_hack now c) := by
  have hu : ∀ z : Int, 0 ≤ z → z < 65536 → (toUShort z : Int) = z := by
    intro z h0 h1
    unfold toUShort
    omega
  obtain ⟨t0, t1, t2, t3, t4, t5, _⟩ := n_Array_time_hack now c
  unfold holds_time
  rw [t0, t1, t2, t3, t4, t5]
  have h4 := hu (now.tm_mon + 1) (by omega) (by omega)
  exact ⟨hu _ hsec.1 (by omega), hu _ hmin.1 (by omega), hu _ hhour.1 (by omega),
    hu _ (by omega) (by omega), h4, by omega, by omega, hu _ hyear.1 hyear.2⟩

/-- The text that `%ld` writes for a `long` is one short line of text. -/
lemma fmt_d_line (v : Int) (h : -9223372036854775808 ≤ v ∧ v < 9223372036854775808) :
    NL ∉ fmt_d v ∧ NUL ∉ fmt_d v ∧ (fmt_d v).length ≤ 100 := by
  have hn : v.natAbs < 10 ^ 19 := by
    have : (10 : Nat) ^ 19 = 10000000000000000000 := by norm_num
    omega
  obtain ⟨m, _, hm, e, _⟩ := fmt_u_zero_width 10 19 v.natAbs (by decide) (by decide) hn
  have e2 : Nat.toDigits 10 v.natAbs = digitsFixed 10 m v.natAbs := by
    rw [← e]
    unfold fmt_u
    rw [Nat.zero_sub]
    rfl
  have hmem := digitsFixed_mem 10 (by decide) m v.natAbs
  have hlen := digitsFixed_length 10 m v.natAbs
  have hnl : NL ∉ digitsFixed 10 m v.natAbs := by
    intro h1
    obtain ⟨d, hd, h2⟩ := hmem NL h1
    exact (digitChar_facts d (by omega)).2.2.2.2.2.2.2.2 h2.symm
  have hnul : NUL ∉ digitsFixed 10 m v.natAbs := by
    intro h1
    obtain ⟨d, hd, h2⟩ := hmem NUL h1
    exact (digitChar_facts d (by omega)).2.2.2.2.2.2.2.1 h2.symm
  unfold fmt_d
  rw [e2]
  by_cases hv : v < 0
  · rw [if_pos hv]
    refine ⟨?_, ?_, ?_⟩
    · intro h1
      rcases List.mem_cons.1 h1 with h2 | h2
      · exact absurd h2 (by decide)
      · exact hnl h2
    · intro h1
      rcases List.mem_cons.1 h1 with h2 | h2
      · exact absurd h2 (by decide)
      · exact hnul h2
    · rw [List.length_cons, hlen]
      omega
  · rw [if_neg hv]
    exact ⟨hnl, hnul, by rw [hlen]; omega⟩

/-- On a load of a file that starts with an `INSTR_COUNT` line, `state_block` is entered with
the line that follows it. -/
lemma cpustate_load_state (num X line0 : List Char) (ic : Nat) (hNL : NL ∉ num)
    (hNUL : NUL ∉ num) (hlen : num.length ≤ 100) :
    (state_ulong
      (next { load := true, line := line0,
              input := ("INSTR_COUNT".toList ++ ('=' :: num) ++ [NL]) ++ X, output := [] })
      "INSTR_COUNT".toList ic).1 =
    next { load := true, line := "INSTR_COUNT".toList ++ ('=' :: (num ++ [NL])),
           input := X, output := [] } := by
  have htext : ("INSTR_COUNT".toList ++ ('=' :: num) ++ [NL]) ++ X =
      ("INSTR_COUNT".toList ++ ('=' :: num)) ++ NL :: X := by
    simp only [List.append_assoc, List.cons_append, List.nil_append]
  have hchars : ∀ y ∈ "INSTR_COUNT".toList ++ ('=' :: num),
      y ∈ "INSTR_COUNT".toList ∨ y = '=' ∨ y ∈ num := by
    intro y hy
    simp only [List.mem_append, List.mem_cons] at hy
    exact hy
  have hnext := next_line line0 [] ("INSTR_COUNT".toList ++ ('=' :: num)) X
    (by
      intro h
      rcases hchars NL h with h1 | h1 | h1
      · exact absurd h1 (by decide)
      · exact absurd h1 (by decide)
      · exact hNL h1)
    (by
      intro h
      rcases hchars NUL h with h1 | h1 | h1
      · exact absurd h1 (by decide)
      · exact absurd h1 (by decide)
      · exact hNUL h1)
    (by
      have : "INSTR_COUNT".toList.length = 11 := by decide
      simp only [List.length_append, List.length_cons, this]
      omega)
  have hline : ("INSTR_COUNT".toList ++ ('=' :: num)) ++ [NL] =
      "INSTR_COUNT".toList ++ ('=' :: (num ++ [NL])) := by
    simp only [List.append_assoc, List.cons_append]
  have hcmp : strncmp_eq ("INSTR_COUNT".toList ++ ('=' :: (num ++ [NL]))) "INSTR_COUNT".toList
      "INSTR_COUNT".toList.length = true := by
    unfold strncmp_eq
    rw [List.take_left, List.take_length]
    exact beq_self_eq_true _
  have hget : ("INSTR_COUNT".toList ++ ('=' :: (num ++ [NL]))).getD
      "INSTR_COUNT".toList.length NUL = '=' := by
    rw [List.getD_append_right _ _ _ _ (le_refl _), Nat.sub_self]
    rfl
  rw [htext, hnext, hline]
  simp only [state_ulong, if_true, matches_key, hcmp, hget, and_self]

/-- A load does not return when `state_block` does not. -/
lemma cpustate_load_none (content line0 : List Char) (tmp0 : Int) (memSize ptCount : Nat)
    (now : tm) (x : Snapshot)
    (hb : state_block
      (state_ulong (next { load := true, line := line0, input := content, output := [] })
        "INSTR_COUNT".toList x.instr_counter).1 "MEM".toList x.c_Array memSize = none) :
    cpustate true (some content) line0 tmp0 memSize ptCount now x = none := by
  simp only [cpustate, if_true]
  rw [hb]

/-- A load returns when the file holds an `INSTR_COUNT` line, the `MEM` records of an image of
the size of the memory, and then a line that does not start with `MEM`. -/
lemma cpustate_load_records (num rest line0 : List Char) (tmp0 : Int) (nb ptCount : Nat)
    (now : tm) (x : Snapshot) (M : Nat → Nat) (hNL : NL ∉ num) (hNUL : NUL ∉ num)
    (hlen : num.length ≤ 100) (hsize : 512 * nb < 2 ^ 31)
    (hb : ∀ a, a < 512 * nb → M a < 256) (hrest : rest ≠ [])
    (hno : strncmp_eq (next { load := true, line := [], input := rest, output := [] }).line
      "MEM".toList "MEM".toList.length = false) :
    ∃ r out v1, cpustate true
        (some (("INSTR_COUNT".toList ++ ('=' :: num) ++ [NL]) ++
          (state_block_save "MEM".toList M nb 0 ++ rest)))
        line0 tmp0 (512 * nb) ptCount now x = some (r, out) ∧
      r.c_Array = time_hack now v1 := by
  have hst := cpustate_load_state num (state_block_save "MEM".toList M nb 0 ++ rest) line0
    x.instr_counter hNL hNUL hlen
  rw [next_of_input [] [] rest hrest] at hno
  obtain ⟨sf, v1, h, _⟩ := state_block_load_run "MEM".toList M nb rest [] (by decide)
    (by decide) (by decide) hsize hb hrest hno nb 0
    ((next { load := true, line := "INSTR_COUNT".toList ++ ('=' :: (num ++ [NL])),
             input := state_block_save "MEM".toList M nb 0 ++ rest,
             output := [] }).input.length + 1)
    ("INSTR_COUNT".toList ++ ('=' :: (num ++ [NL]))) x.c_Array (by omega) (Nat.lt_succ_self _)
  have hsb : state_block
      (state_ulong
        (next { load := true, line := line0,
                input := ("INSTR_COUNT".toList ++ ('=' :: num) ++ [NL]) ++
                  (state_block_save "MEM".toList M nb 0 ++ rest),
                output := [] })
        "INSTR_COUNT".toList x.instr_counter).1 "MEM".toList x.c_Array (512 * nb) =
      some (sf, v1) := by
    rw [hst]
    simp only [state_block, next_load, if_true]
    exact h
  obtain ⟨r, out, h1, h2, _⟩ := cpustate_load_eq _ line0 tmp0 (512 * nb) ptCount now x sf v1 hsb
  exact ⟨r, out, v1, h1, h2⟩

/-- A load does not return when the file holds an `INSTR_COUNT` line and the `MEM` records of
an image with a non-zero byte, and nothing more. -/
lemma cpustate_load_eof (num line0 : List Char) (tmp0 : Int) (nb ptCount : Nat)
    (now : tm) (x : Snapshot) (M : Nat → Nat) (hNL : NL ∉ num) (hNUL : NUL ∉ num)
    (hlen : num.length ≤ 100) (hsize : 512 * nb < 2 ^ 31)
    (hb : ∀ a, a < 512 * nb → M a < 256) (hnz : ∃ a, a < 512 * nb ∧ M a ≠ 0) :
    cpustate true
        (some (("INSTR_COUNT".toList ++ ('=' :: num) ++ [NL]) ++
          state_block_save "MEM".toList M nb 0))
        line0 tmp0 (512 * nb) ptCount now x = none := by
  obtain ⟨a, ha, hMa⟩ := hnz
  have hne : state_block_save "MEM".toList M nb 0 ≠ [] :=
    state_block_save_nonempty "MEM".toList M nb 0 ⟨a, by omega, by omega, hMa⟩
  have hst := cpustate_load_state num (state_block_save "MEM".toList M nb 0) line0
    x.instr_counter hNL hNUL hlen
  apply cpustate_load_none
  rw [hst]
  simp only [state_block, next_load, if_true]
  exact state_block_load_eof "MEM".toList M nb [] (by decide) (by decide) (by decide) hsize
    hb nb 0 _ _ x.c_Array (by omega) hne

/-- C19 (as amended): for every local time of the host `cpustate` leaves the seconds, the
minutes, the hours, the day of the month, the month counted from 1 and the year with the
century in the words at octal 125 to 132
(1) after every save with a memory of whole blocks, which returns and changes no other word
of the memory;
(2) after every load of a file that holds an `INSTR_COUNT` line, the `MEM` records of an
image of the size of the memory and then a line that does not start with `MEM`, which
returns;
(3) in particular after every load of a file that a save has written;
(4) after every other call that opens the file and returns.
A load of a file that holds only the `INSTR_COUNT` line and the `MEM` records of an image
with a non-zero byte does not return. -/
theorem cpustate_time_words (content line0 : List Char) (tmp0 : Int)
    (memSize ptCount : Nat) (now : tm) (x : Snapshot)
    (hsec : 0 ≤ now.tm_sec ∧ now.tm_sec ≤ 60) (hmin : 0 ≤ now.tm_min ∧ now.tm_min ≤ 59)
    (hhour : 0 ≤ now.tm_hour ∧ now.tm_hour ≤ 23) (hmday : 1 ≤ now.tm_mday ∧ now.tm_mday ≤ 31)
    (hmon : 0 ≤ now.tm_mon ∧ now.tm_mon ≤ 11)
    (hyear : 0 ≤ now.tm_year + 1900 ∧ now.tm_year + 1900 < 65536) :
    (memSize % blockLen = 0 →
      ∃ r out, cpustate false (some content) line0 tmp0 memSize ptCount now x = some (r, out) ∧
        holds_time now r.c_Array ∧
        ∀ k, (k < 0o125 ∨ 0o132 < k) → n_Array r.c_Array k = n_Array x.c_Array k) ∧
    (∀ (num rest : List Char) (M : Nat → Nat) (nb : Nat),
      NL ∉ num → NUL ∉ num → num.length ≤ 100 → 512 * nb < 2 ^ 31 →
      (∀ a, a < 512 * nb → M a < 256) → rest ≠ [] →
      strncmp_eq (next { load := true, line := [], input := rest, output := [] }).line
        "MEM".toList "MEM".toList.length = false →
      ∃ r out, cpustate true
          (some (("INSTR_COUNT".toList ++ ('=' :: num) ++ [NL]) ++
            (state_block_save "MEM".toList M nb 0 ++ rest)))
          line0 tmp0 (512 * nb) ptCount now x = some (r, out) ∧
        holds_time now r.c_Array) ∧
    (∀ (content0 line1 : List Char) (tmp1 : Int) (ptCount0 : Nat) (now0 : tm)
        (x0 r0 : Snapshot) (saved : List Char),
      memSize % blockLen = 0 → memSize < 2 ^ 31 → (∀ a, a < memSize → x0.c_Array a < 256) →
      cpustate false (some content0) line1 tmp1 memSize ptCount0 now0 x0 = some (r0, saved) →
      ∃ r out, cpustate true (some saved) line0 tmp0 memSize ptCount now x = some (r, out) ∧
        holds_time now r.c_Array) ∧
    (∀ (load : Bool) (r : Snapshot) (out : List Char),
      cpustate load (some content) line0 tmp0 memSize ptCount now x = some (r, out) →
      holds_time now r.c_Array ∧
      (load = false → ∀ k, (k < 0o125 ∨ 0o132 < k) →
        n_Array r.c_Array k = n_Array x.c_Array k)) ∧
    (∀ (num : List Char) (M : Nat → Nat) (nb : Nat),
      NL ∉ num → NUL ∉ num → num.length ≤ 100 → 512 * nb < 2 ^ 31 →
      (∀ a, a < 512 * nb → M a < 256) → (∃ a, a < 512 * nb ∧ M a ≠ 0) →
      cpustate true
          (some (("INSTR_COUNT".toList ++ ('=' :: num) ++ [NL]) ++
            state_block_save "MEM".toList M nb 0))
          line0 tmp0 (512 * nb) ptCount now x = none) := by
  have ht := fun c => holds_time_hack now c hsec hmin hhour hmday hmon hyear
  have hbl : blockLen = 512 := rfl
  refine ⟨?_, ?_, ?_, ?_, ?_⟩
  · intro hm
    obtain ⟨r, suf, _, h1, _, h3, _⟩ :=
      cpustate_save_text content line0 tmp0 memSize ptCount now x hm
    refine ⟨r, _, h1, ?_, ?_⟩
    · rw [h3]
      exact ht _
    · intro k hk
      rw [h3]
      exact (n_Array_time_hack now x.c_Array).2.2.2.2.2.2 k hk
  · intro num rest M nb hNL hNUL hlen hsize hb hrest hno
    obtain ⟨r, out, v1, h1, h2⟩ := cpustate_load_records num rest line0 tmp0 nb ptCount now x M
      hNL hNUL hlen hsize hb hrest hno
    refine ⟨r, out, h1, ?_⟩
    rw [h2]
    exact ht _
  · intro content0 line1 tmp1 ptCount0 now0 x0 r0 saved hm hsz hb0 hsave
    obtain ⟨r1, suf, _, h1, _, _, _⟩ :=
      cpustate_save_text content0 line1 tmp1 memSize ptCount0 now0 x0 hm
    rw [h1] at hsave
    have hs : saved = ("INSTR_COUNT".toList ++ ('=' :: fmt_d (toLong x0.instr_counter)) ++ [NL])
        ++ (state_block_save "MEM".toList x0.c_Array (memSize / blockLen) 0 ++ 'R' :: suf) := by
      have := congrArg (fun z => z.2) (Option.some.inj hsave)
      simp only at this
      rw [← this, List.append_assoc]
    obtain ⟨f1, f2, f3⟩ := fmt_d_line (toLong x0.instr_counter) (by unfold toLong; omega)
    have hmem : 512 * (memSize / blockLen) = memSize := by
      rw [hbl] at hm ⊢
      omega
    have hno := first_line_nomatch "MEM".toList 'M' ['E', 'M'] rfl 'R' suf [] [] (by decide)
    obtain ⟨r, out, v1, h2, h3⟩ := cpustate_load_records (fmt_d (toLong x0.instr_counter))
      ('R' :: suf) line0 tmp0 (memSize / blockLen) ptCount now x x0.c_Array f1 f2 f3
      (by rw [hmem]; exact hsz) (by rw [hmem]; exact hb0) (by simp) hno
    rw [hmem, ← hs] at h2
    refine ⟨r, out, h2, ?_⟩
    rw [h3]
    exact ht _
  · intro load r out h
    obtain ⟨b, hb, hmem, _⟩ := cpustate_result load content line0 tmp0 memSize ptCount now x r
      out h
    refine ⟨by rw [hmem]; exact ht _, ?_⟩
    intro hl k hk
    subst hl
    have hs : (state_ulong
        (if false = true then
          next { load := false, line := line0, input := if false = true then content else [],
                 output := [] }
        else { load := false, line := line0, input := if false = true then content else [],
               output := [] })
        "INSTR_COUNT".toList x.instr_counter).1.load = false := by
      simp only [Bool.false_eq_true, if_false, state_ulong]
    rw [hmem, (n_Array_time_hack now b.2).2.2.2.2.2.2 k hk,
      state_block_save_value _ _ _ _ b hs hb]
  · intro num M nb hNL hNUL hlen hsize hb hnz
    exact cpustate_load_eof num line0 tmp0 nb ptCount now x M hNL hNUL hlen hsize hb hnz

/-- C19 (witness): on 2024-02-29 23:59:58 a save returns and the six words then hold 58, 59,
23, 29, 2 and 2024; a load of the file that the save has written returns with the same six
words. -/
theorem cpustate_time_words_witness :
    ∃ r saved r2 out2,
      cpustate false (some []) [] 0 1024 2 sampleTime chainSnapshot = some (r, saved) ∧
      (n_Array r.c_Array 0o125 : Int) = 58 ∧ (n_Array r.c_Array 0o126 : Int) = 59 ∧
      (n_Array r.c_Array 0o127 : Int) = 23 ∧ (n_Array r.c_Array 0o130 : Int) = 29 ∧
      (n_Array r.c_Array 0o131 : Int) = 2 ∧ (n_Array r.c_Array 0o132 : Int) = 2024 ∧
      cpustate true (some saved) [] 0 1024 2 sampleTime freshSnapshot = some (r2, out2) ∧
      holds_time sampleTime r2.c_Array := by
  have h := cpustate_time_words [] [] 0 1024 2 sampleTime chainSnapshot (by decide)
    (by decide) (by decide) (by decide) (by decide) (by decide)
  obtain ⟨r, saved, hr, ⟨a0, a1, a2, a3, a4, _, _, a5⟩, _⟩ := h.1 (by decide)
  have h2 := cpustate_time_words [] [] 0 1024 2 sampleTime freshSnapshot (by decide)
    (by decide) (by decide) (by decide) (by decide) (by decide)
  obtain ⟨r2, out2, hr2, ht2⟩ := h2.2.2.1 [] [] 0 2 sampleTime chainSnapshot r saved
    (by decide) (by norm_num) (fun _ _ => show (0 : Nat) < 256 by decide) hr
  exact ⟨r, saved, r2, out2, hr, a0, a1, a2, a3, a4, a5, hr2, ht2⟩

/-- C19 (counterexample): a snapshot file that holds the `INSTR_COUNT` line and the `MEM`
record of a two-block image and ends there: the load does not return, so there is no state
afterwards in which the time words could hold. -/
theorem cpustate_time_words_counterexample :
    state_block_save "MEM".toList sampleMem 2 0 = save_record "MEM".toList sampleMem 512 ∧
    cpustate true
      (some (("INSTR_COUNT".toList ++ ('=' :: "0".toList) ++ [NL]) ++
        state_block_save "MEM".toList sampleMem 2 0))
      [] 0 (512 * 2) 2 sampleTime freshSnapshot = none := by
  have h0 : isMemEmpty sampleMem 0 512 = true :=
    (isMemEmpty_iff sampleMem 512 0).2 (fun j hj => by
      unfold sampleMem
      rw [if_neg (by omega)])
  have h1 : (!isMemEmpty sampleMem 512 512) = true := by
    have : isMemEmpty sampleMem 512 512 ≠ true := fun h => by
      have h2 := (isMemEmpty_iff sampleMem 512 512).1 h 1 (by omega)
      simp [sampleMem] at h2
    simpa using this
  have htxt : state_block_save "MEM".toList sampleMem 2 0 =
      save_record "MEM".toList sampleMem 512 := by
    simp only [state_block_save, blockLen, h0, h1, Bool.not_true, Bool.false_eq_true, if_false,
      if_true, List.nil_append, List.append_nil, Nat.zero_add]
  refine ⟨htxt, ?_⟩
  exact cpustate_load_eof "0".toList [] 0 2 2 sampleTime freshSnapshot sampleMem (by decide)
    (by decide) (by decide) (by norm_num)
    (fun a _ => by unfold sampleMem; split_ifs <;> omega) ⟨513, by norm_num, by decide⟩

/-! ## Console ring: free space -/

/-- C29: for all 8-bit ring pointers `pp` (producer) and `cp` (consumer) the free-space count
`numbytes` of the console input workers lies in 0..254, and no `k` with `1 ≤ k ≤ numbytes`
makes `(pp + k) mod 256` equal to `cp`. -/
theorem console_numbytes_safe (pp cp : Nat) (hpp : pp < 256) (hcp : cp < 256) :
    0 ≤ console_numbytes pp cp ∧ console_numbytes pp cp ≤ 254 ∧
    ∀ k : Nat, 1 ≤ k → (k : Int) ≤ console_numbytes pp cp → (pp + k) % 256 ≠ cp := by
  unfold console_numbytes
  simp only []
  refine ⟨?_, ?_, ?_⟩
  · split_ifs <;> omega
  · split_ifs <;> omega
  · intro k hk1 hk2
    split_ifs at hk2 <;> omega

/-- C29 (witness): producer at 250, consumer at 3: seven characters fit, and the seventh
leaves the producer at 1. -/
theorem console_numbytes_safe_witness :
    console_numbytes 250 3 = 7 ∧ (250 + 7) % 256 ≠ 3 :=
  ⟨by decide, (console_numbytes_safe 250 3 (by decide) (by decide)).2.2 7 (by decide)
    (by decide)⟩

/-! ## The sector mapping -/

/-- C27 (as amended): on the disk geometry (cylinders 0..76, sides 0..1, sectors 0..7) two
triples get the same byte offset from `sectorread` and `sectorwrite` exactly when their
sectors agree and `cyl + side` agrees.  So the mapping is injective on triples of the same
side, and it maps `(cyl, 1, sector)` and `(cyl + 1, 0, sector)` to the same offset. -/
theorem sector_offset_collisions (cyl side sector cyl1 side1 sector1 : Int)
    (hc : 0 ≤ cyl ∧ cyl ≤ 76) (hs : 0 ≤ side ∧ side ≤ 1) (hx : 0 ≤ sector ∧ sector ≤ 7)
    (hc1 : 0 ≤ cyl1 ∧ cyl1 ≤ 76) (hs1 : 0 ≤ side1 ∧ side1 ≤ 1)
    (hx1 : 0 ≤ sector1 ∧ sector1 ≤ 7) :
    (sector_offset cyl side sector = sector_offset cyl1 side1 sector1 ↔
      cyl + side = cyl1 + side1 ∧ sector = sector1) ∧
    (side = side1 → sector_offset cyl side sector = sector_offset cyl1 side1 sector1 →
      cyl = cyl1 ∧ sector = sector1) ∧
    (∀ (fs : Fs) (tmp0 : Nat) (diskNumber : Int) (mem : List Nat) (addr : Nat),
      sectorread fs tmp0 diskNumber cyl side sector mem addr =
        (match fs diskNumber with
        | none => mem
        | some d =>
          sectorread_loop 256 (fseek ⟨d, 0⟩ (sector_offset cyl side sector)).1 tmp0 mem addr) ∧
      sectorwrite fs diskNumber cyl side sector mem addr =
        (match fs diskNumber with
        | none => fs
        | some d => fclose fs diskNumber
            (sectorwrite_loop 256 (fseek ⟨d, 0⟩ (sector_offset cyl side sector)).1 mem addr))) := by
  have e : ∀ c s x : Int, 0 ≤ c ∧ c ≤ 76 → 0 ≤ s ∧ s ≤ 1 → 0 ≤ x ∧ x ≤ 7 →
      sector_offset c s x = ((c + s) * 8 + x) * 512 := by
    intro c s x h1 h2 h3
    unfold sector_offset
    rw [toChar_id c (by omega), toChar_id s (by omega), toChar_id x (by omega)]
  refine ⟨?_, ?_, fun fs tmp0 diskNumber mem addr => ⟨?_, ?_⟩⟩
  · rw [e cyl side sector hc hs hx, e cyl1 side1 sector1 hc1 hs1 hx1]
    constructor
    · intro h
      omega
    · rintro ⟨h1, h2⟩
      rw [h1, h2]
  · rw [e cyl side sector hc hs hx, e cyl1 side1 sector1 hc1 hs1 hx1]
    intro h1 h2
    omega
  · simp only [sectorread, sector_offset]
  · simp only [sectorwrite, sector_offset]

/-- C27 (witness): cylinder 5 and cylinder 6 on side 0 with the same sector have different
offsets. -/
theorem sector_offset_collisions_witness :
    sector_offset 5 0 3 ≠ sector_offset 6 0 3 := by
  intro h
  have := ((sector_offset_collisions 5 0 3 6 0 3 (by decide) (by decide) (by decide)
    (by decide) (by decide) (by decide)).2.1 rfl h).1
  exact absurd this (by decide)

/-- C27 (counterexample): side 1 of cylinder 0 and side 0 of cylinder 1 are different triples
of the geometry with the same byte offset 4096 + 512 * 3, and a write to one is a write to
the other. -/
theorem sector_offset_counterexample :
    sector_offset 0 1 3 = sector_offset 1 0 3 ∧ sector_offset 0 1 3 = 5632 ∧
    ∀ (fs : Fs) (diskNumber : Int) (mem : List Nat) (addr : Nat),
      sectorwrite fs diskNumber 0 1 3 mem addr = sectorwrite fs diskNumber 1 0 3 mem addr := by
  refine ⟨by decide, by decide, fun fs diskNumber mem addr => ?_⟩
  have h : (toChar 0 + toChar 1) * 8 + toChar 3 = (toChar 1 + toChar 0) * 8 + toChar 3 := by
    decide
  simp only [sectorwrite, h]

/-! ## `HDD_IO`: the control word after `hdd_init` -/

/-- C28: on a controller whose `finished` flag is clear, as `hdd_init` leaves it (`calloc`,
no `hdd_dev_clear`), writing a control word with bit 2 (active) set and bit 4 (device clear)
clear to register 5 of `HDD_IO` sets `active` but does not post `sem_hdd`: the test
`dev->active && dev->finished` fails, the worker is not woken, and `finished` stays
false. -/
theorem HDD_IO_control_not_started (ioadd : Nat) (m : Machine) (ha : ioadd &&& 0x07 = 5)
    (hfin : m.hdd.finished = false) (h2 : gA m &&& (1 <<< 2) ≠ 0)
    (h4 : gA m &&& (1 <<< 4) = 0) :
    ( HDD_IO ioadd m).2 = false ∧ ( HDD_IO ioadd m).1.hdd.finished = false ∧
    ( HDD_IO ioadd m).1.hdd.active = true ∧ ( HDD_IO ioadd m).1.hdd.cwr = gA m := by
  have h2a : gA m &&& 4 ≠ 0 := h2
  have h4a : gA m &&& 16 = 0 := h4
  simp [ HDD_IO, ha, hdd_wcwd, h4a, h2a, hfin]

/-- C28 (witness): the state of `hdd_init`, control word 4 written to address 01545. -/
theorem HDD_IO_control_not_started_witness :
    (hdd_init emulator0).hdd.finished = false ∧
    ( HDD_IO 0o1545 (hddMachine 4)).2 = false ∧
    ( HDD_IO 0o1545 (hddMachine 4)).1.hdd.active = true :=
  ⟨rfl, (HDD_IO_control_not_started 0o1545 (hddMachine 4) (by decide) rfl (by decide)
    (by decide)).1,
   (HDD_IO_control_not_started 0o1545 (hddMachine 4) (by decide) rfl (by decide)
    (by decide)).2.2.1⟩

/-! ## Console input: word size and parity -/

lemma control_size_bits (control : Nat) : (control &&& 0x1800) >>> 11 = (control >>> 11) % 4 := by
  apply Nat.eq_of_testBit_eq
  intro i
  rw [Nat.testBit_shiftRight, Nat.testBit_and, show (4 : Nat) = 2 ^ 2 from rfl,
    Nat.testBit_mod_two_pow, Nat.testBit_shiftRight]
  by_cases h : i < 2
  · have h1 : Nat.testBit 0x1800 (11 + i) = true := by
      interval_cases i <;> decide
    simp [h1, h]
  · have h1 : Nat.testBit 0x1800 (11 + i) = false := by
      apply Nat.testBit_lt_two_pow
      calc 0x1800 < 2 ^ 13 := by norm_num
        _ ≤ 2 ^ (11 + i) := Nat.pow_le_pow_right (by norm_num) (by omega)
    simp [h1, h]

set_option maxRecDepth 100000 in
lemma console_stdio_ch_table : ∀ sel : Nat, sel < 4 → ∀ b : Nat, b < 256 →
    toUShort (console_stdio_ch sel (toChar (b : Int))) % 128 = maskedChar sel (toChar (b : Int)) % 128 ∧
    toUShort (console_stdio_ch sel (toChar (b : Int))) % 256 =
      (if bitCount8 (maskedChar sel (toChar (b : Int))) % 2 = 1 then maskedChar sel (toChar (b : Int)) ||| 0x80
       else maskedChar sel (toChar (b : Int))) ∧
    (maskedChar sel (toChar (b : Int)) < 128 →
      bitCount8 (toUShort (console_stdio_ch sel (toChar (b : Int))) % 256) % 2 = 0) ∧
    (sel ≠ 0 → maskedChar sel (toChar (b : Int)) < 128) := by
  decide

lemma toChar_byte (ch : Int) (h : -128 ≤ ch ∧ ch ≤ 127) :
    (ch % 256).toNat < 256 ∧ toChar ((ch % 256).toNat : Int) = ch := by
  unfold toChar
  omega

/-- C22 (as amended): for every input character `ch` and every input control word, the word
that `console_stdio_in` stores in the receive ring depends on the control word only through
bits 11..12 (bit 14 plays no part).  With `c` the input character after line feed is replaced
by carriage return, masked to the selected word size: bits 0..6 of the stored byte are those
of `c`; the stored byte is `c` with bit 7 set if `c` has an odd number of 1 bits, else `c`;
it has an even number of 1 bits among bits 0..7 whenever bit 7 of `c` is clear, which is
always so for the word sizes 7, 6 and 5. -/
theorem console_stdio_parity (control : Nat) (ch : Int) (hch : -128 ≤ ch ∧ ch ≤ 127) :
    console_stdio_store control ch % 128 = maskedChar ((control >>> 11) % 4) ch % 128 ∧
    console_stdio_store control ch % 256 =
      (if bitCount8 (maskedChar ((control >>> 11) % 4) ch) % 2 = 1
       then maskedChar ((control >>> 11) % 4) ch ||| 0x80
       else maskedChar ((control >>> 11) % 4) ch) ∧
    (maskedChar ((control >>> 11) % 4) ch < 128 →
      bitCount8 (console_stdio_store control ch % 256) % 2 = 0) ∧
    ((control >>> 11) % 4 ≠ 0 → maskedChar ((control >>> 11) % 4) ch < 128) ∧
    (∀ control1 : Nat, (control1 >>> 11) % 4 = (control >>> 11) % 4 →
      console_stdio_store control1 ch = console_stdio_store control ch) := by
  obtain ⟨hb, hc⟩ := toChar_byte ch hch
  have ht := console_stdio_ch_table ((control >>> 11) % 4) (Nat.mod_lt _ (by decide))
    (ch % 256).toNat hb
  rw [hc] at ht
  have hs : ∀ c : Nat, console_stdio_store c ch = toUShort (console_stdio_ch ((c >>> 11) % 4) ch) := by
    intro c
    unfold console_stdio_store
    rw [control_size_bits]
  rw [hs control]
  refine ⟨ht.1, ht.2.1, ht.2.2.1, ht.2.2.2, ?_⟩
  intro control1 h1
  rw [hs control1, h1]

/-- C22 (witness): the letter `C` (three 1 bits) under a control word with bit 14 clear and
word size 7 is stored with bit 7 set, the letter `A` unchanged. -/
theorem console_stdio_parity_witness :
    console_stdio_store 0x0800 67 % 256 = 0xC3 ∧ console_stdio_store 0x0800 65 % 256 = 0x41 :=
  ⟨(console_stdio_parity 0x0800 67 (by decide)).2.1.trans (by decide),
   (console_stdio_parity 0x0800 65 (by decide)).2.1.trans (by decide)⟩

/-- C22 (counterexample): with word size 8 (control bits 11..12 clear) the input byte 0x80,
the `char` -128, is stored as 0xFF80: its bits 0..7 are 0x80, with one 1 bit, an odd
number. -/
theorem console_stdio_parity_counterexample :
    console_stdio_store 0 (toChar 0x80) = 0xFF80 ∧
    bitCount8 (console_stdio_store 0 (toChar 0x80) % 256) = 1 := by
  decide

/-! ## `state_bool`: save, then load -/

lemma state_bool_load_char (tmp0 : Int) (key : List Char) (c : Char) (old : Bool)
    (l0 o rest : List Char) (hd : c ≠ 'd') (hcNL : c ≠ NL) (hcNUL : c ≠ NUL)
    (hNUL : NUL ∉ key) (hNL : NL ∉ key) (hklen : key.length ≤ 2000) :
    (state_bool tmp0
      (next { load := true, line := l0, input := (key ++ ('=' :: [c]) ++ [NL]) ++ rest,
              output := o })
      key old).2 = decide (tmp0 ≠ 0) := by
  have hbody : (key ++ ('=' :: [c]) ++ [NL]) ++ rest = (key ++ ('=' :: [c])) ++ NL :: rest := by
    simp only [List.append_assoc, List.cons_append, List.singleton_append, List.nil_append]
  have hmem : ∀ y ∈ key ++ ('=' :: [c]), y ∈ key ∨ y = '=' ∨ y = c := by
    intro y hy
    simp only [List.mem_append, List.mem_cons, List.mem_singleton, List.not_mem_nil,
      or_false] at hy
    exact hy
  have hnext := next_line l0 o (key ++ ('=' :: [c])) rest
    (by
      intro h
      rcases hmem NL h with h1 | h1 | h1
      · exact hNL h1
      · exact absurd h1 (by decide)
      · exact hcNL h1.symm)
    (by
      intro h
      rcases hmem NUL h with h1 | h1 | h1
      · exact hNUL h1
      · exact absurd h1 (by decide)
      · exact hcNUL h1.symm)
    (by
      simp only [List.length_append, List.length_cons, List.length_nil]
      omega)
  rw [hbody, hnext]
  have hline : (key ++ ('=' :: [c])) ++ [NL] = key ++ ('=' :: (c :: [NL])) := by
    simp only [List.append_assoc, List.cons_append, List.nil_append]
  have hcmp : strncmp_eq (key ++ ('=' :: (c :: [NL]))) key key.length = true := by
    unfold strncmp_eq
    rw [List.take_left, List.take_length]
    exact beq_self_eq_true _
  have hget : (key ++ ('=' :: (c :: [NL]))).getD key.length NUL = '=' := by
    rw [List.getD_append_right _ _ _ _ (le_refl _), Nat.sub_self]
    rfl
  have hdrop : (key ++ ('=' :: (c :: [NL]))).drop (key.length + 1) = c :: [NL] := by
    rw [List.drop_append]
    rfl
  simp only [state_bool, if_true, matches_key, hline, hcmp, hget, and_self, hdrop, hd, if_false]

/-- C30: for every key that is one line of text fitting the line buffer and every boolean
`b`, the save path of `state_bool` writes the line `key=1` or `key=0`; loading that line
with `state_bool` finds no `d` after the `=`, so the conversion `"d%d"` assigns nothing and
the target becomes `tmp != 0` for the indeterminate value `tmp0` of the local `tmp`: the
same for `b = true` and `b = false`, hence different from `b` for one of them. -/
theorem state_bool_load_ignores_saved (key : List Char) (b old : Bool) (tmp0 : Int)
    (l0 o rest : List Char) (hNUL : NUL ∉ key) (hNL : NL ∉ key) (hklen : key.length ≤ 2000) :
    (state_bool tmp0 saveState key b).1.output =
      key ++ ('=' :: [if b then '1' else '0']) ++ [NL] ∧
    (state_bool tmp0
      (next { load := true, line := l0,
              input := (state_bool tmp0 saveState key b).1.output ++ rest, output := o })
      key old).2 = decide (tmp0 ≠ 0) := by
  have hout : (state_bool tmp0 saveState key b).1.output =
      key ++ ('=' :: [if b then '1' else '0']) ++ [NL] := by
    cases b
    · simp only [state_bool, saveState, Bool.false_eq_true, if_false, List.nil_append]
      rfl
    · simp only [state_bool, saveState, Bool.false_eq_true, if_false, List.nil_append, if_true]
      rfl
  refine ⟨hout, ?_⟩
  rw [hout]
  cases b
  · exact state_bool_load_char tmp0 key '0' old l0 o rest (by decide) (by decide) (by decide)
      hNUL hNL hklen
  · exact state_bool_load_char tmp0 key '1' old l0 o rest (by decide) (by decide) (by decide)
      hNUL hNL hklen

/-- C30 (witness): the key `MIIC` saved with the value true is loaded as false when the
local `tmp` happens to hold 0, whatever the target held before. -/
theorem state_bool_load_ignores_saved_witness :
    (state_bool 0 saveState "MIIC".toList true).1.output = "MIIC=1".toList ++ [NL] ∧
    (state_bool 0
      (next { load := true, line := [],
              input := (state_bool 0 saveState "MIIC".toList true).1.output ++ [],
              output := [] })
      "MIIC".toList true).2 = false :=
  ⟨(state_bool_load_ignores_saved "MIIC".toList true true 0 [] [] [] (by decide) (by decide)
      (by decide)).1,
   (state_bool_load_ignores_saved "MIIC".toList true true 0 [] [] [] (by decide) (by decide)
      (by decide)).2⟩

/-! ## The floppy worker: SEEK, drive selection, WRITE DATA -/

/-- C26: a SEEK command (bit 5 set, bits 7 and 6 clear) for a selected unit with track in
0..77 and difference `d` in 0..127 ends with the track `min (track + d) 77` when the
direction is 1, and for the other directions with `track - d` if `d ≤ track`, but with
`65536 + track - d` if `d > track`: `track` is an `unsigned short`, the subtraction wraps,
and the test `dev->track < 0` never holds. -/
theorem floppy_seek_track (tmp0 k : Nat) (diskNumber : Int) (fs : Fs) (dev : floppy_data)
    (u : fdd_unit) (d : Nat)
    (h7 : (dev.command % 4294967296).toNat &&& (1 <<< 7) = 0)
    (h6 : (dev.command % 4294967296).toNat &&& (1 <<< 6) = 0)
    (h5 : (dev.command % 4294967296).toNat &&& (1 <<< 5) ≠ 0)
    (hu : dev.unit.getD k none = some u) (ht : dev.track ≤ 77)
    (hd : u.diff_track = (d : Int)) (hd127 : d ≤ 127) :
    floppy_command tmp0 (.unit k) diskNumber fs dev =
      some ({ dev with
        track := (if u.dir_track = 1 then min (dev.track + d) 77
          else if d ≤ dev.track then dev.track - d else 65536 + dev.track - d)
        seekComplete := true
        busy := false }, fs) := by
  have e : (if u.dir_track = 1 then
        (if toUShort ((dev.track : Int) + u.diff_track) > 77 then 77
          else toUShort ((dev.track : Int) + u.diff_track))
      else
        (if (toUShort ((dev.track : Int) - u.diff_track) : Int) < 0 then 0
          else toUShort ((dev.track : Int) - u.diff_track))) =
      (if u.dir_track = 1 then min (dev.track + d) 77
        else if d ≤ dev.track then dev.track - d else 65536 + dev.track - d) := by
    rw [hd]
    unfold toUShort
    split_ifs <;> omega
  unfold floppy_command
  simp only [h7, h6, h5, hu, ne_eq, not_true_eq_false, not_false_eq_true, if_true, if_false]
  rw [e]

/-- C26 (witness): on track 0 a SEEK towards lower tracks by 1 leaves the track at
65535. -/
theorem floppy_seek_track_witness :
    seekDev.track = 0 ∧
    (( floppy_command 0 (.unit 0) 0 (fun _ => none) seekDev).map (fun r => r.1.track))
      = some 65535 := by
  refine ⟨rfl, ?_⟩
  rw [floppy_seek_track 0 0 0 (fun _ => none) seekDev ⟨none, false, false, 0, 0, 1, 0⟩ 1
    (by decide) (by decide) (by decide) rfl (by decide) rfl (by decide)]
  rfl

lemma Floppy_IO_wdad (ioadd : Nat) (m : Machine) (ha : ioadd &&& 0x07 = 5)
    (h0 : gA m &&& 0x1 ≠ 0) :
    Floppy_IO ioadd m =
      (if (wdad_select (gA m) m.floppy).selected_drive ≠ -1 then
        ((wdad_select (gA m) m.floppy).withUnit (fun u => { u with
          drive_format := if (gA m >>> 14) &&& 0x03 = 0 then 0
            else if (gA m >>> 14) &&& 0x03 = 1 then 0
            else if (gA m >>> 14) &&& 0x03 = 2 then 1 else 2 })).map
          (fun d => { m with floppy := d })
      else some { m with floppy := wdad_select (gA m) m.floppy }) := by
  unfold Floppy_IO wdad_select
  simp only [ha, h0, ne_eq, not_false_eq_true, if_true]
  rfl

/-- C23: a write to the drive address register (`IOX WDAD` with bit 0 of A set) whose drive
field, bits 8..10 of A, is 3 while bit 11 is clear passes the test `tmp < 4`, sets
`selected_drive` to 3 and then accesses `dev->unit[3]`, outside the three-element unit
array. -/
theorem Floppy_IO_selects_drive_3 (ioadd : Nat) (m : Machine) (ha : ioadd &&& 0x07 = 5)
    (h0 : gA m &&& 0x1 ≠ 0) (h3 : (gA m >>> 8) &&& 0x07 = 3)
    (h11 : (gA m >>> 11) &&& 0x01 = 0) :
    (wdad_select (gA m) m.floppy).selected_drive = 3 ∧
    (wdad_select (gA m) m.floppy).selected_drive ≠ -1 ∧
    ¬ (wdad_select (gA m) m.floppy).selected_drive < 3 ∧
    Floppy_IO ioadd m = none := by
  have hs : (wdad_select (gA m) m.floppy).selected_drive = 3 := by
    unfold wdad_select
    simp only [h3, h11, ne_eq, not_true_eq_false, if_false]
    rfl
  refine ⟨hs, by rw [hs]; decide, by rw [hs]; decide, ?_⟩
  rw [Floppy_IO_wdad ioadd m ha h0, if_pos (by rw [hs]; decide)]
  unfold floppy_data.withUnit
  rw [hs]
  rfl

/-- C23 (witness): A = 0x0301 written to address 01565 of a freshly initialised
controller. -/
theorem Floppy_IO_selects_drive_3_witness :
    (floppyMachine 0x0301 1 []).floppy = { floppy_init none false false with sector := 1 } ∧
    (wdad_select 0x0301 (floppyMachine 0x0301 1 []).floppy).selected_drive = 3 ∧
    Floppy_IO 0o1565 (floppyMachine 0x0301 1 []) = none :=
  ⟨rfl, (Floppy_IO_selects_drive_3 0o1565 (floppyMachine 0x0301 1 []) (by decide) (by decide)
      (by decide) (by decide)).1,
    (Floppy_IO_selects_drive_3 0o1565 (floppyMachine 0x0301 1 []) (by decide) (by decide)
      (by decide) (by decide)).2.2.2⟩

lemma genIRQ_floppy (m : Machine) (level ident : Nat) (chainId : Int) :
    (genIRQ m level ident chainId).floppy = m.floppy ∧
    (genIRQ m level ident chainId).floppyImages = m.floppyImages :=
  ⟨rfl, rfl⟩

lemma gA_set_gA (m : Machine) (v : Nat) : gA (set_gA m v) = v % 65536 := by
  simp only [set_gA, gA, CpuRegs.setReg, CurrLEVEL, and_self, if_true]

lemma rsr2_bit9 (a b c : Bool) :
    ((0 ||| bitIf a 8 ||| bitIf b 9 ||| bitIf c 11) % 65536) &&& (1 <<< 9) = bitIf b 9 := by
  cases a <;> cases b <;> cases c <;> decide

/-- C21: when the worker executes WRITE DATA (command 4) with the transfer inside the
buffer, whatever the `readonly` flag of the selected unit, the pass ends without setting
`write_protect`, so that bit 9 of the next RSR2 read is the old `write_protect`, and the
image on the host is the one that `sectorwrite` produces from the buffer. -/
theorem floppy_write_ignores_readonly (tmp0 : Nat) (unit : UnitPtr) (m : Machine)
    (hbusy : m.floppy.busy = true) (hcmd : m.floppy.command = 4)
    (htr : transfer_in_buffer m.floppy) :
    ∃ u1 m1, floppy_thread_pass tmp0 unit m = some (u1, m1) ∧
      m1.floppy.write_protect = m.floppy.write_protect ∧
      m1.floppy.unit = m.floppy.unit ∧
      m1.floppyImages = sectorwrite m.floppyImages m.diskNumber m.floppy.track 0
        (xsector m.floppy) m.floppy.buff m.floppy.bufptr_read.toNat ∧
      ∀ ioadd m2, ioadd &&& 0x07 = 4 → Floppy_IO ioadd m1 = some m2 →
        gA m2 &&& (1 <<< 9) = bitIf m.floppy.write_protect 9 := by
  have hc : floppy_command tmp0 (select_unit m.floppy unit) m.diskNumber m.floppyImages m.floppy
      = some ({ m.floppy with
          bufptr_read := Int.tmod (m.floppy.bufptr_read + 256) FDD_BUFSIZE
          rwComplete := true
          busy := false },
        sectorwrite m.floppyImages m.diskNumber m.floppy.track 0 (xsector m.floppy)
          m.floppy.buff m.floppy.bufptr_read.toNat) := by
    have b7 : ¬ ((m.floppy.command % 4294967296).toNat &&& (1 <<< 7) ≠ 0) := by
      rw [hcmd]; decide
    have b6 : ¬ ((m.floppy.command % 4294967296).toNat &&& (1 <<< 6) ≠ 0) := by
      rw [hcmd]; decide
    have b5 : ¬ ((m.floppy.command % 4294967296).toNat &&& (1 <<< 5) ≠ 0) := by
      rw [hcmd]; decide
    have b3 : ¬ ((m.floppy.command % 4294967296).toNat &&& (1 <<< 3) ≠ 0) := by
      rw [hcmd]; decide
    have b4 : ¬ ((m.floppy.command % 4294967296).toNat &&& (1 <<< 4) ≠ 0) := by
      rw [hcmd]; decide
    have b2 : (m.floppy.command % 4294967296).toNat &&& (1 <<< 2) ≠ 0 ∨
        (m.floppy.command % 4294967296).toNat &&& (1 <<< 1) ≠ 0 := by
      rw [hcmd]; decide
    unfold floppy_command
    simp only []
    rw [if_neg b7, if_neg b6, if_neg b5, if_neg b3, if_neg b4, if_pos b2, if_pos htr]
  have hrd : ∀ (m1 : Machine) (ioadd : Nat) (m2 : Machine), ioadd &&& 0x07 = 4 →
      Floppy_IO ioadd m1 = some m2 →
      gA m2 &&& (1 <<< 9) = bitIf m1.floppy.write_protect 9 := by
    intro m1 ioadd m2 ha h
    unfold Floppy_IO at h
    simp only [ha] at h
    have h1 := Option.some.inj h
    rw [← h1, gA_set_gA]
    exact rsr2_bit9 _ _ _
  unfold floppy_thread_pass
  simp only [hbusy, if_true, hc, Bool.not_false]
  by_cases hi : m.floppy.irq_en = true
  · simp only [hi, if_true]
    refine ⟨_, _, rfl, rfl, rfl, rfl, ?_⟩
    intro ioadd m2 ha h
    have h9 := hrd _ ioadd m2 ha h
    exact h9
  · simp only [hi, Bool.false_eq_true, if_false]
    refine ⟨_, _, rfl, rfl, rfl, rfl, ?_⟩
    intro ioadd m2 ha h
    have h9 := hrd _ ioadd m2 ha h
    exact h9

/-- C21 (witness): unit 0 holds a read-only image of 512 zero bytes and the buffer is full of
the word 0x4142; after the worker has executed WRITE DATA, `write_protect` is still clear and
byte 0 of the image is 0x41. -/
theorem floppy_write_ignores_readonly_witness :
    (roFloppyMachine.floppy.unit.getD 0 none).map (fun u => u.readonly) = some true ∧
    (img512 0).map (fun d => d.getD 0 0) = some 0 ∧
    ∃ u1 m1, floppy_thread_pass 0 .null roFloppyMachine = some (u1, m1) ∧
      m1.floppy.write_protect = false ∧
      (m1.floppyImages 0).map (fun d => d.getD 0 0) = some 0x41 := by
  have htr : transfer_in_buffer roFloppyMachine.floppy := by
    show (0 : Int) ≤ 0 ∧ (0 : Int) + 256 ≤ ((List.replicate 2048 0x4142).length : Int)
    rw [List.length_replicate]
    decide
  obtain ⟨u1, m1, h1, h2, _, h4, _⟩ :=
    floppy_write_ignores_readonly 0 .null roFloppyMachine rfl rfl htr
  refine ⟨rfl, rfl, u1, m1, h1, h2.trans rfl, ?_⟩
  rw [h4]
  show (sectorwrite img512 0 0 0 0 (List.replicate 2048 0x4142) 0 0).map
    (fun d => d.getD 0 0) = some 0x41
  have h3 := (sectorwrite_loop_spec 256 ⟨List.replicate 512 0, 0⟩
    (List.replicate 2048 0x4142) 0).2.2 0
  simp only [sectorwrite, img512, fclose, fseek_fst, if_true, Option.map]
  have e : seekPos (((toChar 0 + toChar 0) * 8 + toChar 0) * 512) = 0 := by decide
  rw [e, h3]
  simp only [beByte]
  rw [getD_replicate _ _ _ (by decide)]
  decide

/-! ## The invariant of the floppy controller -/

lemma floppy_inv_intro (u : UnitPtr) (d : floppy_data)
    (h1 : d.buff.length = FDD_BUFSIZE)
    (h2 : 0 ≤ d.bufptr ∧ d.bufptr < (FDD_BUFSIZE : Int))
    (h3 : 0 ≤ d.bufptr_read ∧ d.bufptr_read < (FDD_BUFSIZE : Int) ∧ d.bufptr_read % 256 = 0)
    (h4 : d.busy = true → 1 ≤ d.command ∧ d.command ≤ 255)
    (h5 : d.selected_drive = -1 ∨ (0 ≤ d.selected_drive ∧ d.selected_drive < 3))
    (h6 : ∀ k : Nat, k < 3 → ∃ x, d.unit.getD k none = some x)
    (h7 : match u with
      | .wild => False
      | .null => True
      | .unit k => k < 3) : floppy_inv u d :=
  ⟨h1, h2, h3, h4, h5, h6, h7⟩

lemma floppy_inv_of (u : UnitPtr) (dev d : floppy_data) (h : floppy_inv u dev)
    (e1 : d.buff.length = dev.buff.length)
    (e2 : d.bufptr = dev.bufptr ∨ d.bufptr = 0)
    (e3 : d.bufptr_read = dev.bufptr_read ∨ d.bufptr_read = 0)
    (e4 : (d.busy = dev.busy ∧ d.command = dev.command) ∨ d.busy = false ∨
      (1 ≤ d.command ∧ d.command ≤ 255))
    (e5 : d.selected_drive = dev.selected_drive) (e6 : d.unit = dev.unit) : floppy_inv u d := by
  obtain ⟨h1, h2, h3, h4, h5, h6, h7⟩ := h
  refine floppy_inv_intro u d (e1.trans h1) ?_ ?_ ?_ (by rw [e5]; exact h5)
    (by rw [e6]; exact h6) h7
  · rcases e2 with e | e
    · rw [e]; exact h2
    · rw [e]; exact ⟨le_refl _, by decide⟩
  · rcases e3 with e | e
    · rw [e]; exact h3
    · rw [e]; exact ⟨le_refl _, by decide, by decide⟩
  · intro hb
    rcases e4 with ⟨e, e'⟩ | e | e
    · rw [e'] ; exact h4 (e ▸ hb)
    · rw [e] at hb; exact absurd hb (by decide)
    · exact e

lemma bufptr_next_range (b : Int) (h : 0 ≤ b ∧ b < (FDD_BUFSIZE : Int)) :
    0 ≤ bufptr_next b ∧ bufptr_next b < (FDD_BUFSIZE : Int) := by
  unfold bufptr_next
  have e : (FDD_BUFSIZE : Int) = 2048 := rfl
  rw [e] at h ⊢
  split_ifs <;> omega

lemma units_set (l : List (Option fdd_unit)) (j : Nat) (y : fdd_unit)
    (h : ∀ k : Nat, k < 3 → ∃ x, l.getD k none = some x) :
    ∀ k : Nat, k < 3 → ∃ x, (l.set j (some y)).getD k none = some x := by
  intro k hk
  obtain ⟨x, hx⟩ := h k hk
  simp only [List.getD_eq_getElem?_getD, List.getElem?_set] at hx ⊢
  by_cases e : j = k
  · subst e
    by_cases hl : j < l.length
    · exact ⟨y, by simp [hl]⟩
    · have : l[j]? = none := List.getElem?_eq_none (by omega)
      rw [this] at hx
      exact absurd hx (by simp)
  · exact ⟨x, by simp [e, hx]⟩

lemma withUnit_inv (u : UnitPtr) (dev : floppy_data) (s : Int) (f : fdd_unit → fdd_unit)
    (d : floppy_data) (h : floppy_inv u dev)
    (hw : ({ dev with selected_drive := s }).withUnit f = some d) : floppy_inv u d := by
  obtain ⟨h1, h2, h3, h4, h5, h6, h7⟩ := h
  unfold floppy_data.withUnit at hw
  simp only [] at hw
  by_cases hr : 0 ≤ s ∧ s < 3
  · rw [if_pos hr] at hw
    cases hg : dev.unit.getD s.toNat none with
    | none =>
      rw [hg] at hw
      exact absurd hw (by simp)
    | some x =>
      rw [hg] at hw
      have e := Option.some.inj hw
      rw [← e]
      exact floppy_inv_intro u _ h1 h2 h3 h4 (Or.inr hr) (units_set _ _ _ h6) h7
  · rw [if_neg hr] at hw
    exact absurd hw (by simp)

lemma command_byte_range (A : Nat) (h : A &&& 0xff00 ≠ 0) :
    1 ≤ (((A &&& 0xff00) >>> 8 : Nat) : Int) ∧ (((A &&& 0xff00) >>> 8 : Nat) : Int) ≤ 255 := by
  have h1 : A &&& 0xff00 ≤ 0xff00 := Nat.and_le_right
  have h2 : (A &&& 0xff00) % 256 = 0 := by
    have e := Nat.and_pow_two_sub_one_eq_mod (A &&& 0xff00) 8
    have e2 : A &&& 0xff00 &&& (2 ^ 8 - 1) = 0 := by
      rw [Nat.and_assoc]
      have : (0xff00 : Nat) &&& (2 ^ 8 - 1) = 0 := by decide
      rw [this, Nat.and_zero]
    rw [e2] at e
    exact e.symm
  rw [Nat.shiftRight_eq_div_pow]
  have h3 : (2 : Nat) ^ 8 = 256 := by norm_num
  rw [h3]
  omega

lemma floppy_wcwd_fields (A : Nat) (dev : floppy_data) :
    (floppy_wcwd A dev).buff = dev.buff ∧
    ((floppy_wcwd A dev).bufptr = dev.bufptr ∨ (floppy_wcwd A dev).bufptr = 0) ∧
    ((floppy_wcwd A dev).bufptr_read = dev.bufptr_read ∨ (floppy_wcwd A dev).bufptr_read = 0) ∧
    (floppy_wcwd A dev).selected_drive = dev.selected_drive ∧
    (floppy_wcwd A dev).unit = dev.unit ∧
    (if A &&& 0xff00 ≠ 0 then (floppy_wcwd A dev).command = (((A &&& 0xff00) >>> 8 : Nat) : Int)
     else (floppy_wcwd A dev).busy = dev.busy ∧ (floppy_wcwd A dev).command = dev.command) := by
  by_cases b1 : (A >>> 1) &&& 0x01 = 0 <;> by_cases b2 : (A >>> 2) &&& 0x01 = 0 <;>
    by_cases b3 : (A >>> 3) &&& 0x01 = 0 <;> by_cases b4 : (A >>> 4) &&& 0x01 = 0 <;>
    by_cases b5 : (A >>> 5) &&& 0x01 = 0 <;> by_cases hne : A &&& 0xff00 = 0 <;>
    simp only [floppy_wcwd, b1, b2, b3, b4, b5, hne, ne_eq, not_true_eq_false,
      not_false_eq_true, if_true, if_false, and_self, or_true, true_or, and_true, true_and]

lemma floppy_wcwd_inv (u : UnitPtr) (A : Nat) (dev : floppy_data) (h : floppy_inv u dev) :
    floppy_inv u (floppy_wcwd A dev) := by
  obtain ⟨f1, f2, f3, f4, f5, f6⟩ := floppy_wcwd_fields A dev
  refine floppy_inv_of u dev _ h (by rw [f1]) f2 f3 ?_ f4 f5
  by_cases hne : A &&& 0xff00 ≠ 0
  · rw [if_pos hne] at f6
    rw [f6]
    exact Or.inr (Or.inr (command_byte_range A hne))
  · rw [if_neg hne] at f6
    exact Or.inl f6

lemma wdad_select_eq (A : Nat) (dev : floppy_data) :
    wdad_select A dev = { dev with selected_drive := (wdad_select A dev).selected_drive } := by
  unfold wdad_select
  simp only []
  split_ifs <;> rfl

lemma Floppy_IO_inv (u : UnitPtr) (ioadd : Nat) (m m1 : Machine)
    (hinv : floppy_inv u m.floppy) (h : Floppy_IO ioadd m = some m1) :
    floppy_inv u m1.floppy := by
  have hinv0 := hinv
  obtain ⟨h1, h2, h3, h4, h5, h6, h7⟩ := hinv
  by_cases a3 : ioadd &&& 0x07 = 3
  · rw [Floppy_IO_wcwd ioadd m a3] at h
    rw [← Option.some.inj h]
    exact floppy_wcwd_inv u _ _ hinv0
  by_cases a5 : ioadd &&& 0x07 = 5
  · by_cases h0 : gA m &&& 0x1 ≠ 0
    · rw [Floppy_IO_wdad ioadd m a5 h0] at h
      by_cases hs : (wdad_select (gA m) m.floppy).selected_drive ≠ -1
      · rw [if_pos hs, wdad_select_eq] at h
        match hw : ({ m.floppy with
            selected_drive := (wdad_select (gA m) m.floppy).selected_drive }).withUnit
            (fun u => { u with
              drive_format := if (gA m >>> 14) &&& 0x03 = 0 then 0
                else if (gA m >>> 14) &&& 0x03 = 1 then 0
                else if (gA m >>> 14) &&& 0x03 = 2 then 1 else 2 }) with
        | none =>
          rw [hw] at h
          exact absurd h (by simp)
        | some d =>
          rw [hw] at h
          rw [← Option.some.inj h]
          exact withUnit_inv u _ _ _ d hinv0 hw
      · rw [if_neg hs] at h
        rw [← Option.some.inj h, wdad_select_eq]
        exact floppy_inv_intro u _ h1 h2 h3 h4 (Or.inl (not_not.1 hs)) h6 h7
    · unfold Floppy_IO at h
      simp only [a5, h0] at h
      rw [if_neg (by decide), if_neg (by decide), if_neg (by decide), if_neg (by decide),
        if_neg (by decide), if_pos trivial, if_neg (by simp)] at h
      by_cases hs : m.floppy.selected_drive ≠ -1
      · rw [if_pos hs] at h
        match hw : m.floppy.withUnit (fun u => { u with
            diff_track := (((gA m >>> 8) &&& 0x7f : Nat) : Int)
            dir_track := (((gA m >>> 15) &&& 0x01 : Nat) : Int) }) with
        | none =>
          rw [hw] at h
          exact absurd h (by simp)
        | some d =>
          rw [hw] at h
          rw [← Option.some.inj h]
          exact withUnit_inv u m.floppy m.floppy.selected_drive _ d hinv0 hw
      · rw [if_neg hs] at h
        rw [← Option.some.inj h]
        exact hinv0
  unfold Floppy_IO at h
  simp only [] at h
  by_cases a0 : ioadd &&& 0x07 = 0
  · rw [if_pos a0] at h
    by_cases g : 0 ≤ m.floppy.bufptr ∧ m.floppy.bufptr < (FDD_BUFSIZE : Int)
    · rw [if_pos g] at h
      rw [← Option.some.inj h]
      exact floppy_inv_intro u _ h1 (bufptr_next_range _ h2) h3 h4 h5 h6 h7
    · rw [if_neg g] at h
      rw [← Option.some.inj h]
      exact hinv0
  rw [if_neg a0] at h
  by_cases a1 : ioadd &&& 0x07 = 1
  · rw [if_pos a1] at h
    by_cases g : 0 ≤ m.floppy.bufptr ∧ m.floppy.bufptr < (FDD_BUFSIZE : Int)
    · rw [if_pos g] at h
      rw [← Option.some.inj h]
      exact floppy_inv_intro u _ ((List.length_set _ _ _).trans h1) (bufptr_next_range _ h2)
        h3 h4 h5 h6 h7
    · rw [if_neg g] at h
      rw [← Option.some.inj h]
      exact hinv0
  rw [if_neg a1] at h
  by_cases a2 : ioadd &&& 0x07 = 2
  · rw [if_pos a2] at h
    by_cases g : m.floppy.busy_counter > 0
    · rw [if_pos g] at h
      rw [← Option.some.inj h]
      exact floppy_inv_intro u _ h1 h2 h3 h4 h5 h6 h7
    · rw [if_neg g] at h
      rw [← Option.some.inj h]
      exact hinv0
  rw [if_neg a2, if_neg a3] at h
  by_cases a4 : ioadd &&& 0x07 = 4
  · rw [if_pos a4] at h
    rw [← Option.some.inj h]
    exact hinv0
  rw [if_neg a4, if_neg a5] at h
  by_cases a6 : ioadd &&& 0x07 = 6
  · rw [if_pos a6] at h
    by_cases g : 0 ≤ m.floppy.bufptr ∧ m.floppy.bufptr < (FDD_BUFSIZE : Int)
    · rw [if_pos g] at h
      by_cases hm : m.floppy.bufptr_msb = true
      · rw [if_pos hm] at h
        rw [← Option.some.inj h]
        have e : (FDD_BUFSIZE : Int) = 2048 := rfl
        rw [e] at h2
        by_cases hb : m.floppy.bufptr + 1 ≥ (FDD_BUFSIZE : Int)
        · simp only [hb, if_true]
          exact floppy_inv_intro u _ ((List.length_set _ _ _).trans h1)
            (show (0 : Int) ≤ 0 ∧ (0 : Int) < (FDD_BUFSIZE : Int) from ⟨le_refl _, by decide⟩)
            h3 h4 h5 h6 h7
        · simp only [hb, if_false]
          rw [e] at hb
          exact floppy_inv_intro u _ ((List.length_set _ _ _).trans h1)
            (show (0 : Int) ≤ m.floppy.bufptr + 1 ∧ m.floppy.bufptr + 1 < (2048 : Int) from
              ⟨by omega, by omega⟩) h3 h4 h5 h6 h7
      · rw [if_neg hm] at h
        rw [← Option.some.inj h]
        exact floppy_inv_intro u _ ((List.length_set _ _ _).trans h1) h2 h3 h4 h5 h6 h7
    · rw [if_neg g] at h
      rw [← Option.some.inj h]
      exact hinv0
  rw [if_neg a6] at h
  by_cases ht : m.floppy.test_mode = true
  · rw [if_pos ht] at h
    rw [← Option.some.inj h]
    exact floppy_inv_intro u _ h1 h2 h3 h4 h5 h6 h7
  · rw [if_neg ht] at h
    rw [← Option.some.inj h]
    exact floppy_inv_intro u _ h1 h2 h3 h4 h5 h6 h7

lemma sectorread_loop_length (n : Nat) : ∀ (f : FILE) (tmp : Nat) (mem : List Nat) (addr : Nat),
    (sectorread_loop n f tmp mem addr).length = mem.length := by
  induction n with
  | zero => intro f tmp mem addr; rfl
  | succ n ih =>
    intro f tmp mem addr
    show (sectorread_loop n (fread_u16 f tmp).1 (fread_u16 f tmp).2
      (mem.set addr (swapBytes (fread_u16 f tmp).2)) (addr + 1)).length = mem.length
    rw [ih, List.length_set]

lemma sectorread_length (fs : Fs) (tmp0 : Nat) (diskNumber cyl side sector : Int)
    (mem : List Nat) (addr : Nat) :
    (sectorread fs tmp0 diskNumber cyl side sector mem addr).length = mem.length := by
  unfold sectorread
  simp only []
  cases fs diskNumber with
  | none => rfl
  | some d => exact sectorread_loop_length _ _ _ _ _

lemma bufptr_read_next (b : Int) (h : 0 ≤ b ∧ b < (FDD_BUFSIZE : Int) ∧ b % 256 = 0) :
    0 ≤ Int.tmod (b + 256) FDD_BUFSIZE ∧ Int.tmod (b + 256) FDD_BUFSIZE < (FDD_BUFSIZE : Int) ∧
    Int.tmod (b + 256) FDD_BUFSIZE % 256 = 0 := by
  have e : (FDD_BUFSIZE : Int) = 2048 := rfl
  rw [e] at h ⊢
  rw [Int.tmod_eq_emod (by omega) (by decide)]
  omega

lemma inv_transfer (u : UnitPtr) (dev : floppy_data) (h : floppy_inv u dev) :
    transfer_in_buffer dev := by
  obtain ⟨h1, _, h3, _⟩ := h
  unfold transfer_in_buffer
  rw [h1]
  have e : ((FDD_BUFSIZE : Nat) : Int) = 2048 := rfl
  rw [e] at h3 ⊢
  omega

lemma floppy_command_inv (tmp0 : Nat) (u : UnitPtr) (diskNumber : Int) (fs : Fs)
    (dev : floppy_data) (hinv : floppy_inv u dev) (hbusy : dev.busy = true) :
    ∃ dev1 fs1, floppy_command tmp0 u diskNumber fs dev = some (dev1, fs1) ∧
      floppy_inv u dev1 ∧ dev1.busy = false := by
  have hbuf := inv_transfer u dev hinv
  obtain ⟨h1, h2, h3, h4, h5, h6, h7⟩ := hinv
  have hc := h4 hbusy
  have hlen : 2 ≤ dev.buff.length := by
    rw [h1]; decide
  have hc1 : (dev.command % 4294967296).toNat < 256 := by omega
  have hc2 : (dev.command % 4294967296).toNat ≠ 0 := by omega
  have hf : ∀ b : Bool, b = false → (b = true → 1 ≤ dev.command ∧ dev.command ≤ 255) := by
    intro b hb hb2
    rw [hb] at hb2
    exact absurd hb2 (by decide)
  unfold floppy_command
  simp only []
  by_cases b7 : (dev.command % 4294967296).toNat &&& (1 <<< 7) ≠ 0
  · rw [if_pos b7]
    exact ⟨_, _, rfl, floppy_inv_intro u _ h1 h2 h3 (hf _ rfl) h5 h6 h7, rfl⟩
  rw [if_neg b7]
  by_cases b6 : (dev.command % 4294967296).toNat &&& (1 <<< 6) ≠ 0
  · rw [if_pos b6]
    exact ⟨_, _, rfl, floppy_inv_intro u _ h1 h2 h3 (hf _ rfl) h5 h6 h7, rfl⟩
  rw [if_neg b6]
  by_cases b5 : (dev.command % 4294967296).toNat &&& (1 <<< 5) ≠ 0
  · rw [if_pos b5]
    cases u with
    | null => exact ⟨_, _, rfl, floppy_inv_intro _ _ h1 h2 h3 (hf _ rfl) h5 h6 h7, rfl⟩
    | wild => exact absurd h7 id
    | unit k =>
      obtain ⟨x, hx⟩ := h6 k h7
      simp only [hx]
      exact ⟨_, _, rfl, floppy_inv_intro _ _ h1 h2 h3 (hf _ rfl) h5 h6 h7, rfl⟩
  rw [if_neg b5]
  by_cases b3 : (dev.command % 4294967296).toNat &&& (1 <<< 3) ≠ 0
  · rw [if_pos b3, if_pos hlen]
    exact ⟨_, _, rfl, floppy_inv_intro u _
      ((List.length_set _ _ _).trans ((List.length_set _ _ _).trans h1)) h2 h3 (hf _ rfl) h5 h6
      h7, rfl⟩
  rw [if_neg b3]
  by_cases b4 : (dev.command % 4294967296).toNat &&& (1 <<< 4) ≠ 0
  · rw [if_pos b4, if_pos hbuf]
    exact ⟨_, _, rfl, floppy_inv_intro u _ ((sectorread_length _ _ _ _ _ _ _ _).trans h1) h2
      (bufptr_read_next _ h3) (hf _ rfl) h5 h6 h7, rfl⟩
  rw [if_neg b4]
  by_cases b21 : (dev.command % 4294967296).toNat &&& (1 <<< 2) ≠ 0 ∨
      (dev.command % 4294967296).toNat &&& (1 <<< 1) ≠ 0
  · rw [if_pos b21, if_pos hbuf]
    exact ⟨_, _, rfl, floppy_inv_intro u _ h1 h2 (bufptr_read_next _ h3) (hf _ rfl) h5 h6 h7,
      rfl⟩
  rw [if_neg b21]
  by_cases b0 : (dev.command % 4294967296).toNat &&& (1 <<< 0) ≠ 0
  · rw [if_pos b0]
    exact ⟨_, _, rfl, floppy_inv_intro u _ h1 h2 h3 (hf _ rfl) h5 h6 h7, rfl⟩
  exfalso
  apply hc2
  exact low_byte_bits _ hc1
    ⟨Classical.not_not.mp b7, Classical.not_not.mp b6, Classical.not_not.mp b5,
      Classical.not_not.mp b3, Classical.not_not.mp b4,
      Classical.not_not.mp (fun h => b21 (Or.inl h)),
      Classical.not_not.mp (fun h => b21 (Or.inr h)), Classical.not_not.mp b0⟩

lemma select_unit_inv (u : UnitPtr) (dev : floppy_data) (h : floppy_inv u dev) :
    floppy_inv (select_unit dev u) dev := by
  obtain ⟨h1, h2, h3, h4, h5, h6, h7⟩ := h
  refine floppy_inv_intro _ dev h1 h2 h3 h4 h5 h6 ?_
  unfold select_unit
  by_cases hs : dev.selected_drive ≠ -1
  · rw [if_pos hs]
    have hr : 0 ≤ dev.selected_drive ∧ dev.selected_drive < 3 := by
      rcases h5 with e | e
      · exact absurd e hs
      · exact e
    rw [if_pos hr]
    obtain ⟨x, hx⟩ := h6 dev.selected_drive.toNat (by omega)
    rw [hx]
    show dev.selected_drive.toNat < 3
    omega
  · rw [if_neg hs]
    exact h7

lemma floppy_thread_pass_inv (tmp0 : Nat) (u : UnitPtr) (m : Machine)
    (hinv : floppy_inv u m.floppy) :
    ∃ u1 m1, floppy_thread_pass tmp0 u m = some (u1, m1) ∧ floppy_inv u1 m1.floppy ∧
      m1.floppy.busy = false := by
  have hsel := select_unit_inv u m.floppy hinv
  unfold floppy_thread_pass
  simp only []
  by_cases hb : m.floppy.busy = true
  · obtain ⟨dev1, fs1, e1, e2, e3⟩ := floppy_command_inv tmp0 (select_unit m.floppy u)
      m.diskNumber m.floppyImages m.floppy hsel hb
    simp only [hb, if_true, e1, e3, Bool.not_false]
    by_cases hi : dev1.irq_en = true
    · simp only [hi, if_true]
      exact ⟨_, _, rfl, e2, e3⟩
    · simp only [hi, Bool.false_eq_true, if_false]
      exact ⟨_, _, rfl, e2, e3⟩
  · simp only [hb, Bool.false_eq_true, if_false]
    exact ⟨_, _, rfl, hsel, by simpa using hb⟩

lemma floppy_init_inv (name : Option String) (ro ok : Bool) :
    floppy_inv .null (floppy_init name ro ok) := by
  refine floppy_inv_intro _ _ ?_
    (show (0 : Int) ≤ 0 ∧ (0 : Int) < (FDD_BUFSIZE : Int) from ⟨le_refl _, by decide⟩)
    (show (0 : Int) ≤ 0 ∧ (0 : Int) < (FDD_BUFSIZE : Int) ∧ (0 : Int) % 256 = 0 from
      ⟨le_refl _, by decide, by decide⟩)
    (show false = true → _ from fun h => absurd h (by decide))
    (show (0 : Int) = -1 ∨ ((0 : Int) ≤ 0 ∧ (0 : Int) < 3) from Or.inr ⟨by decide, by decide⟩)
    ?_ trivial
  · exact List.length_replicate _ _
  · intro k hk
    cases name <;> interval_cases k <;> exact ⟨_, rfl⟩

lemma floppy_run_inv (ops : List FloppyOp) : ∀ (s t : UnitPtr × Machine),
    floppy_inv s.1 s.2.floppy → floppy_run ops s = some t → floppy_inv t.1 t.2.floppy := by
  induction ops with
  | nil =>
    intro s t hs h
    rw [← Option.some.inj h]
    exact hs
  | cons op ops ih =>
    intro s t hs h
    unfold floppy_run at h
    match hst : floppy_step s op with
    | none =>
      rw [hst] at h
      exact absurd h (by simp)
    | some s1 =>
      rw [hst] at h
      refine ih s1 t ?_ h
      cases op with
      | iox A ioadd =>
        change ( Floppy_IO ioadd (set_gA s.2 A)).map (fun m => (s.1, m)) = some s1 at hst
        match hio : Floppy_IO ioadd (set_gA s.2 A) with
        | none =>
          rw [hio] at hst
          exact absurd hst (by simp)
        | some m1 =>
          rw [hio] at hst
          rw [← Option.some.inj hst]
          exact Floppy_IO_inv s.1 ioadd (set_gA s.2 A) m1 hs hio
      | pass tmp0 =>
        obtain ⟨u1, m1, e1, e2, _⟩ := floppy_thread_pass_inv tmp0 s.1 s.2 hs
        change floppy_thread_pass tmp0 s.1 s.2 = some s1 at hst
        rw [e1] at hst
        rw [← Option.some.inj hst]
        exact e2
      | other m1 =>
        change some (s.1, { m1 with floppy := s.2.floppy }) = some s1 at hst
        rw [← Option.some.inj hst]
        exact hs

lemma withUnit_defined (dev : floppy_data) (s : Int) (f : fdd_unit → fdd_unit)
    (h6 : ∀ k : Nat, k < 3 → ∃ x, dev.unit.getD k none = some x) (hr : 0 ≤ s ∧ s < 3) :
    ∃ d, ({ dev with selected_drive := s }).withUnit f = some d := by
  obtain ⟨x, hx⟩ := h6 s.toNat (by omega)
  unfold floppy_data.withUnit
  simp only []
  rw [if_pos hr, hx]
  exact ⟨_, rfl⟩

lemma wdad_select_range (A : Nat) (dev : floppy_data)
    (h5 : dev.selected_drive = -1 ∨ (0 ≤ dev.selected_drive ∧ dev.selected_drive < 3))
    (hn : ¬ ((A >>> 8) &&& 0x07 = 3 ∧ (A >>> 11) &&& 0x01 = 0)) :
    (wdad_select A dev).selected_drive = -1 ∨
      (0 ≤ (wdad_select A dev).selected_drive ∧ (wdad_select A dev).selected_drive < 3) := by
  unfold wdad_select
  simp only []
  by_cases b11 : (A >>> 11) &&& 0x01 ≠ 0
  · rw [if_pos b11]
    exact Or.inl rfl
  · rw [if_neg b11]
    by_cases t4 : (A >>> 8) &&& 0x07 < 4
    · rw [if_pos t4]
      have t3 : (A >>> 8) &&& 0x07 ≠ 3 := fun e => hn ⟨e, not_not.1 b11⟩
      refine Or.inr ?_
      show (0 : Int) ≤ (((A >>> 8) &&& 0x07 : Nat) : Int) ∧ (((A >>> 8) &&& 0x07 : Nat) : Int) < 3
      omega
    · rw [if_neg t4]
      exact h5

lemma Floppy_IO_defined (u : UnitPtr) (ioadd : Nat) (m : Machine)
    (hinv : floppy_inv u m.floppy)
    (hsafe : ¬ (ioadd &&& 0x07 = 5 ∧ gA m &&& 0x1 ≠ 0 ∧ (gA m >>> 8) &&& 0x07 = 3 ∧
      (gA m >>> 11) &&& 0x01 = 0)) :
    ∃ m1, Floppy_IO ioadd m = some m1 := by
  obtain ⟨h1, h2, h3, h4, h5, h6, h7⟩ := hinv
  by_cases a5 : ioadd &&& 0x07 = 5
  · by_cases h0 : gA m &&& 0x1 ≠ 0
    · rw [Floppy_IO_wdad ioadd m a5 h0]
      by_cases hs : (wdad_select (gA m) m.floppy).selected_drive ≠ -1
      · rw [if_pos hs, wdad_select_eq]
        have hr : 0 ≤ (wdad_select (gA m) m.floppy).selected_drive ∧
            (wdad_select (gA m) m.floppy).selected_drive < 3 := by
          rcases wdad_select_range (gA m) m.floppy h5
            (fun e => hsafe ⟨a5, h0, e.1, e.2⟩) with e | e
          · exact absurd e hs
          · exact e
        obtain ⟨d, hd⟩ := withUnit_defined m.floppy _ (fun u => { u with
            drive_format := if (gA m >>> 14) &&& 0x03 = 0 then 0
              else if (gA m >>> 14) &&& 0x03 = 1 then 0
              else if (gA m >>> 14) &&& 0x03 = 2 then 1 else 2 }) h6 hr
        rw [hd]
        exact ⟨_, rfl⟩
      · rw [if_neg hs]
        exact ⟨_, rfl⟩
    · unfold Floppy_IO
      simp only [a5, h0]
      rw [if_neg (by decide), if_neg (by decide), if_neg (by decide), if_neg (by decide),
        if_neg (by decide), if_pos trivial, if_neg (by simp)]
      by_cases hs : m.floppy.selected_drive ≠ -1
      · rw [if_pos hs]
        have hr : 0 ≤ m.floppy.selected_drive ∧ m.floppy.selected_drive < 3 := by
          rcases h5 with e | e
          · exact absurd e hs
          · exact e
        obtain ⟨d, hd⟩ := withUnit_defined m.floppy m.floppy.selected_drive
          (fun u => { u with
            diff_track := (((gA m >>> 8) &&& 0x7f : Nat) : Int)
            dir_track := (((gA m >>> 15) &&& 0x01 : Nat) : Int) }) h6 hr
        have hd1 : m.floppy.withUnit (fun u => { u with
            diff_track := (((gA m >>> 8) &&& 0x7f : Nat) : Int)
            dir_track := (((gA m >>> 15) &&& 0x01 : Nat) : Int) }) = some d := hd
        rw [hd1]
        exact ⟨_, rfl⟩
      · rw [if_neg hs]
        exact ⟨_, rfl⟩
  unfold Floppy_IO
  simp only []
  by_cases a0 : ioadd &&& 0x07 = 0
  · rw [if_pos a0, if_pos h2]
    exact ⟨_, rfl⟩
  rw [if_neg a0]
  by_cases a1 : ioadd &&& 0x07 = 1
  · rw [if_pos a1, if_pos h2]
    exact ⟨_, rfl⟩
  rw [if_neg a1]
  by_cases a2 : ioadd &&& 0x07 = 2
  · rw [if_pos a2]
    split_ifs <;> exact ⟨_, rfl⟩
  rw [if_neg a2]
  by_cases a3 : ioadd &&& 0x07 = 3
  · rw [if_pos a3]
    exact ⟨_, rfl⟩
  rw [if_neg a3]
  by_cases a4 : ioadd &&& 0x07 = 4
  · rw [if_pos a4]
    exact ⟨_, rfl⟩
  rw [if_neg a4, if_neg a5]
  by_cases a6 : ioadd &&& 0x07 = 6
  · rw [if_pos a6]
    by_cases g : 0 ≤ m.floppy.bufptr ∧ m.floppy.bufptr < (FDD_BUFSIZE : Int)
    · rw [if_pos g]
      by_cases hm : m.floppy.bufptr_msb = true
      · rw [if_pos hm]
        exact ⟨_, rfl⟩
      · rw [if_neg hm]
        exact ⟨_, rfl⟩
    · rw [if_neg g]
      exact ⟨_, rfl⟩
  rw [if_neg a6]
  by_cases ht : m.floppy.test_mode = true
  · rw [if_pos ht]
    exact ⟨_, rfl⟩
  · rw [if_neg ht]
    exact ⟨_, rfl⟩

lemma floppy_run_defined (ops : List FloppyOp) : ∀ (s : UnitPtr × Machine),
    floppy_inv s.1 s.2.floppy → (∀ op ∈ ops, op.selects_drive_3 = false) →
    ∃ t, floppy_run ops s = some t ∧ floppy_inv t.1 t.2.floppy := by
  induction ops with
  | nil =>
    intro s hs _
    exact ⟨s, rfl, hs⟩
  | cons op ops ih =>
    intro s hs hsafe
    have hop := hsafe op (List.mem_cons_self _ _)
    have hrest : ∀ op1 ∈ ops, op1.selects_drive_3 = false :=
      fun op1 h1 => hsafe op1 (List.mem_cons_of_mem _ h1)
    have hstep : ∃ s1, floppy_step s op = some s1 ∧ floppy_inv s1.1 s1.2.floppy := by
      cases op with
      | iox A ioadd =>
        have hs1 : floppy_inv s.1 (set_gA s.2 A).floppy := hs
        have hn : ¬ (ioadd &&& 0x07 = 5 ∧ gA (set_gA s.2 A) &&& 0x1 ≠ 0 ∧
            (gA (set_gA s.2 A) >>> 8) &&& 0x07 = 3 ∧
            (gA (set_gA s.2 A) >>> 11) &&& 0x01 = 0) := by
          rw [gA_set_gA]
          intro ⟨c1, c2, c3, c4⟩
          have : (FloppyOp.iox A ioadd).selects_drive_3 = true := by
            simp only [FloppyOp.selects_drive_3, c1, c2, c3, c4, ne_eq, not_false_eq_true,
              decide_True, Bool.and_self]
          rw [hop] at this
          exact absurd this (by decide)
        obtain ⟨m1, hm1⟩ := Floppy_IO_defined s.1 ioadd (set_gA s.2 A) hs1 hn
        refine ⟨(s.1, m1), ?_, Floppy_IO_inv s.1 ioadd (set_gA s.2 A) m1 hs1 hm1⟩
        show ( Floppy_IO ioadd (set_gA s.2 A)).map (fun m => (s.1, m)) = some (s.1, m1)
        rw [hm1]
        rfl
      | pass tmp0 =>
        obtain ⟨u1, m1, e1, e2, _⟩ := floppy_thread_pass_inv tmp0 s.1 s.2 hs
        exact ⟨(u1, m1), e1, e2⟩
      | other m1 =>
        exact ⟨_, rfl, hs⟩
    obtain ⟨s1, e1, e2⟩ := hstep
    obtain ⟨t, ht, hti⟩ := ih s1 e2 hrest
    refine ⟨t, ?_, hti⟩
    show (floppy_step s op).bind (floppy_run ops) = some t
    rw [e1]
    exact ht

/-- C24: starting from the state `floppy_init` creates, every sequence of `IOX` accesses to
the floppy registers, worker passes and other activity of the emulator, in which no access
writes the drive address 3, runs without undefined behaviour, and afterwards `bufptr` lies
in 0..2047, `bufptr_read` is a multiple of 256 in 0..2047, the buffer still has 2048 words
and the 256-word sector transfer that starts at `bufptr_read` lies inside it. -/
theorem floppy_run_buffer_bounds (name : Option String) (ro ok : Bool) (m0 : Machine)
    (ops : List FloppyOp) (h0 : m0.floppy = floppy_init name ro ok)
    (hsafe : ∀ op ∈ ops, op.selects_drive_3 = false) :
    ∃ u m, floppy_run ops (.null, m0) = some (u, m) ∧
      (0 ≤ m.floppy.bufptr ∧ m.floppy.bufptr < 2048) ∧
      (0 ≤ m.floppy.bufptr_read ∧ m.floppy.bufptr_read < 2048 ∧
        m.floppy.bufptr_read % 256 = 0) ∧
      m.floppy.buff.length = 2048 ∧ transfer_in_buffer m.floppy := by
  have hi : floppy_inv (UnitPtr.null, m0).1 (UnitPtr.null, m0).2.floppy := by
    show floppy_inv .null m0.floppy
    rw [h0]
    exact floppy_init_inv name ro ok
  obtain ⟨t, ht, hti⟩ := floppy_run_defined ops (.null, m0) hi hsafe
  have htr := inv_transfer _ _ hti
  obtain ⟨h1, h2, h3, _⟩ := hti
  exact ⟨t.1, t.2, ht, h2, h3, h1, htr⟩

/-- C24 (witness): the session `floppySession` on a machine fresh from `setup_cpu`. -/
theorem floppy_run_buffer_bounds_witness :
    ∃ u m, floppy_run floppySession (.null, machine0) = some (u, m) ∧
      (0 ≤ m.floppy.bufptr ∧ m.floppy.bufptr < 2048) ∧
      (0 ≤ m.floppy.bufptr_read ∧ m.floppy.bufptr_read < 2048 ∧
        m.floppy.bufptr_read % 256 = 0) ∧
      m.floppy.buff.length = 2048 ∧ transfer_in_buffer m.floppy :=
  floppy_run_buffer_bounds none false false machine0 floppySession rfl (by decide)

/-- C25: in every state reached from the state `floppy_init` creates by `IOX` accesses to
the floppy registers, worker passes and other activity of the emulator, a busy controller
has a command byte in 1..255, and one pass of the worker returns and leaves `busy` false;
every command byte in 1..255 has one of the bits 7, 6, 5, 3, 4, 2, 1, 0 that the worker
tests. -/
theorem floppy_run_busy_command (name : Option String) (ro ok : Bool) (m0 : Machine)
    (ops : List FloppyOp) (u : UnitPtr) (m : Machine)
    (h0 : m0.floppy = floppy_init name ro ok)
    (hrun : floppy_run ops (.null, m0) = some (u, m)) :
    (m.floppy.busy = true → 1 ≤ m.floppy.command ∧ m.floppy.command ≤ 255) ∧
    (∀ tmp0 : Nat, ∃ u1 m1, floppy_thread_pass tmp0 u m = some (u1, m1) ∧
      m1.floppy.busy = false) ∧
    (∀ c : Nat, 1 ≤ c → c ≤ 255 →
      c &&& (1 <<< 7) ≠ 0 ∨ c &&& (1 <<< 6) ≠ 0 ∨ c &&& (1 <<< 5) ≠ 0 ∨ c &&& (1 <<< 3) ≠ 0 ∨
      c &&& (1 <<< 4) ≠ 0 ∨ (c &&& (1 <<< 2) ≠ 0 ∨ c &&& (1 <<< 1) ≠ 0) ∨
      c &&& (1 <<< 0) ≠ 0) := by
  have hi : floppy_inv (UnitPtr.null, m0).1 (UnitPtr.null, m0).2.floppy := by
    show floppy_inv .null m0.floppy
    rw [h0]
    exact floppy_init_inv name ro ok
  have hti : floppy_inv u m.floppy := floppy_run_inv ops (.null, m0) (u, m) hi hrun
  refine ⟨hti.2.2.2.1, ?_, ?_⟩
  · intro tmp0
    obtain ⟨u1, m1, e1, _, e3⟩ := floppy_thread_pass_inv tmp0 u m hti
    exact ⟨u1, m1, e1, e3⟩
  · intro c hc1 hc2
    by_contra hcon
    simp only [not_or, not_not] at hcon
    have := low_byte_bits c (by omega)
      ⟨hcon.1, hcon.2.1, hcon.2.2.1, hcon.2.2.2.1, hcon.2.2.2.2.1, hcon.2.2.2.2.2.1.1,
        hcon.2.2.2.2.2.1.2, hcon.2.2.2.2.2.2⟩
    omega

/-- C25 (witness): the session `floppySession` ends in a state in which the worker pass
returns with `busy` false. -/
theorem floppy_run_busy_command_witness :
    ∃ u m, floppy_run floppySession (.null, machine0) = some (u, m) ∧
      ∀ tmp0 : Nat, ∃ u1 m1, floppy_thread_pass tmp0 u m = some (u1, m1) ∧
        m1.floppy.busy = false := by
  obtain ⟨t, ht, _⟩ := floppy_run_defined floppySession (.null, machine0)
    (floppy_init_inv none false false) (by decide)
  exact ⟨t.1, t.2, ht,
    (floppy_run_busy_command none false false machine0 floppySession t.1 t.2 rfl ht).2.1⟩

end ND100
